import Mathlib

/-!
Verification of the UBL motion engine of `Marlin/src/feature/bedlevel/ubl/ubl_motion.cpp`
(`unified_bed_leveling::line_to_destination_cartesian` and
`unified_bed_leveling::line_to_destination_segmented`).

The C code computes with IEEE single-precision floats.  We model scalars
exactly: a value is a rational number, a signed infinity, or NaN.  Rounding is
not modelled (all properties are stated in exact arithmetic); the special
values follow IEEE semantics, which the source relies on (`isnan`, `isinf`,
"Allow divide by zero" comments).  There is no signed zero in the model: a
division `x / 0` behaves as division by `+0`.

Helper functions of the repository that are declared outside the given sources
(`get_mesh_x`, `cell_indexes`, the two edge-line correctors,
`position_is_reachable`, `fade_scaling_factor_for_z`, the planner sink) are
modelled from the spec, as marked on each definition.  The planner sink is an
oracle `accept : Nat → Bool` giving the success of the n-th buffer call of the
move; every emitted sub-move is recorded in order, whether accepted or not.
-/

/-- An IEEE-style scalar in the exact model: a rational, a signed infinity
(`pos = true` for `+∞`), or NaN. -/
inductive FP where
  | num (q : ℚ)
  | inf (pos : Bool)
  | nan
  deriving DecidableEq

namespace FP

/-- IEEE addition on the exact model. -/
def add : FP → FP → FP
  | num a, num b => num (a + b)
  | num _, inf s => inf s
  | inf s, num _ => inf s
  | inf s, inf t => if s = t then inf s else nan
  | _, _ => nan

/-- IEEE subtraction on the exact model. -/
def sub : FP → FP → FP
  | num a, num b => num (a - b)
  | num _, inf s => inf (!s)
  | inf s, num _ => inf s
  | inf s, inf t => if s = t then nan else inf s
  | _, _ => nan

/-- IEEE multiplication on the exact model. -/
def mul : FP → FP → FP
  | num a, num b => num (a * b)
  | num a, inf s => if a = 0 then nan else inf (decide (0 < a) == s)
  | inf s, num b => if b = 0 then nan else inf (s == decide (0 < b))
  | inf s, inf t => inf (s == t)
  | _, _ => nan

/-- IEEE division on the exact model (no signed zero: a zero divisor acts as
`+0`, so `x / 0 = ±∞` by the sign of `x`, and `0 / 0 = NaN`). -/
def div : FP → FP → FP
  | num a, num b =>
      if b = 0 then (if a = 0 then nan else inf (decide (0 < a)))
      else num (a / b)
  | num _, inf _ => num 0
  | inf s, num b => inf (s == decide (0 ≤ b))
  | inf _, inf _ => nan
  | _, _ => nan

instance : Add FP := ⟨add⟩
instance : Sub FP := ⟨sub⟩
instance : Mul FP := ⟨mul⟩
instance : Div FP := ⟨div⟩

/-- `isnan`. -/
def isNan : FP → Bool
  | nan => true
  | _ => false

/-- `isinf`. -/
def isInf : FP → Bool
  | inf _ => true
  | _ => false

/-- IEEE `<` (false whenever an operand is NaN). -/
def lt : FP → FP → Bool
  | num a, num b => decide (a < b)
  | num _, inf s => s
  | inf s, num _ => !s
  | inf s, inf t => !s && t
  | _, _ => false

/-- IEEE `<=` (false whenever an operand is NaN). -/
def le : FP → FP → Bool
  | num a, num b => decide (a ≤ b)
  | num _, inf s => s
  | inf s, num _ => !s
  | inf s, inf t => !s || t
  | _, _ => false

/-- IEEE `==` (false whenever an operand is NaN). -/
def beq : FP → FP → Bool
  | num a, num b => decide (a = b)
  | inf s, inf t => s == t
  | _, _ => false

/-- The rational carried by a `num`; junk value `0` on `±∞`/NaN.  Used only to
model C float-to-integer conversions, whose source inputs are always finite
machine coordinates. -/
def toQ : FP → ℚ
  | num q => q
  | _ => 0

end FP

/-- A pose: one value per controlled axis (`xyze_pos_t` with one auxiliary
extruder axis, the `HAS_EXTRUDERS` configuration). -/
structure Pose where
  x : FP
  y : FP
  z : FP
  e : FP
  deriving DecidableEq

namespace Pose

/-- Componentwise pose addition (`xyze_pos_t::operator+=`). -/
def add (a b : Pose) : Pose := ⟨a.x + b.x, a.y + b.y, a.z + b.z, a.e + b.e⟩

/-- Componentwise pose subtraction (`destination - current_position`). -/
def sub (a b : Pose) : Pose := ⟨a.x - b.x, a.y - b.y, a.z - b.z, a.e - b.e⟩

/-- Scaling of a pose by a scalar (`total * inv_segments`). -/
def scale (a : Pose) (s : FP) : Pose := ⟨a.x * s, a.y * s, a.z * s, a.e * s⟩

/-- The `xy_pos_t != xy_pos_t` comparison used to decide the final move (IEEE
`!=` on the two components). -/
def xyNe (a b : Pose) : Bool := !(FP.beq a.x b.x) || !(FP.beq a.y b.y)

end Pose

/-- Mesh geometry and compile-time configuration constants of the build. -/
structure MeshCfg where
  /-- `MESH_MIN_X`: x of mesh point 0. -/
  minX : ℚ
  /-- `MESH_MIN_Y`: y of mesh point 0. -/
  minY : ℚ
  /-- `MESH_X_DIST`: x spacing of the mesh. -/
  dx : ℚ
  /-- `MESH_Y_DIST`: y spacing of the mesh. -/
  dy : ℚ
  /-- `GRID_MAX_CELLS_X`: upper bound of the valid x cell index range. -/
  cellsX : ℤ
  /-- `GRID_MAX_CELLS_Y`: upper bound of the valid y cell index range. -/
  cellsY : ℤ
  /-- `UBL_Z_RAISE_WHEN_OFF_MESH` when the macro is defined, else `none`. -/
  zRaise : Option ℚ
  /-- `DELTA_SEGMENT_MIN_LENGTH` of the Cartesian kinematic class (the
  non-`IS_KINEMATIC` branch of the segmenter is the one modelled). -/
  minSegLen : ℚ

/-- The environment of one move: the mesh table, the planner services and the
sink oracle.  `accept n` is the return value of the n-th `buffer_segment` call
of this move. -/
structure Env where
  cfg : MeshCfg
  /-- `z_values[i][j]`; `nan` models an undefined (unmeasured) sample. -/
  z : ℤ → ℤ → FP
  /-- Modelled from the spec: `planner.fade_scaling_factor_for_z`, the
  externally supplied fade scaling function of the destination height. -/
  fade : FP → FP
  /-- Modelled from the spec: the motion sink's acceptance signal, indexed by
  the call number within the move. -/
  accept : Nat → Bool
  /-- Modelled from the spec: `planner.leveling_active`. -/
  levelingActive : Bool
  /-- Modelled from the spec: `planner.leveling_active_at_z`. -/
  levelingActiveAtZ : FP → Bool
  /-- Modelled from the spec: `position_is_reachable`, the machine
  reachability predicate of the destination. -/
  reachable : Pose → Bool
  /-- Modelled from the spec: an exact oracle for the libm square root used by
  the segmenter; theorems hypothesise `0 ≤ sqrtQ d` and `sqrtQ d ^ 2 = d` at
  the points where it is consulted. -/
  sqrtQ : ℚ → ℚ

/-- Modelled from the spec: `get_mesh_x`, the x coordinate of mesh column `i`
(grid origin plus index times spacing); declared outside the given sources. -/
def get_mesh_x (cfg : MeshCfg) (i : ℤ) : ℚ := cfg.minX + i * cfg.dx

/-- Modelled from the spec: `get_mesh_y`, the y coordinate of mesh row `j`. -/
def get_mesh_y (cfg : MeshCfg) (j : ℤ) : ℚ := cfg.minY + j * cfg.dy

/-- Modelled from the spec: the unclamped cell column of an x coordinate (the
lower-left mesh point of the containing square). -/
def cell_index_x_raw (cfg : MeshCfg) (x : FP) : ℤ := ⌊(x.toQ - cfg.minX) / cfg.dx⌋

/-- Modelled from the spec: the unclamped cell row of a y coordinate. -/
def cell_index_y_raw (cfg : MeshCfg) (y : FP) : ℤ := ⌊(y.toQ - cfg.minY) / cfg.dy⌋

/-- Modelled from the spec: cell column clamped to the valid index range
`[0, GRID_MAX_CELLS_X]` (edge-cell reuse in the inset margin). -/
def cell_index_x (cfg : MeshCfg) (x : FP) : ℤ := max 0 (min cfg.cellsX (cell_index_x_raw cfg x))

/-- Modelled from the spec: cell row clamped to `[0, GRID_MAX_CELLS_Y]`. -/
def cell_index_y (cfg : MeshCfg) (y : FP) : ℤ := max 0 (min cfg.cellsY (cell_index_y_raw cfg y))

/-- Modelled from the spec: `cell_index_x_valid`, whether the unclamped column
is inside the valid range. -/
def cell_index_x_valid (cfg : MeshCfg) (x : FP) : Bool :=
  decide (0 ≤ cell_index_x_raw cfg x ∧ cell_index_x_raw cfg x ≤ cfg.cellsX)

/-- Modelled from the spec: `cell_index_y_valid`. -/
def cell_index_y_valid (cfg : MeshCfg) (y : FP) : Bool :=
  decide (0 ≤ cell_index_y_raw cfg y ∧ cell_index_y_raw cfg y ≤ cfg.cellsY)

/-- Modelled from the spec: `cell_indexes`, the coordinate-to-cell mapping of
both axes. -/
def cell_indexes (cfg : MeshCfg) (p : Pose) : ℤ × ℤ :=
  (cell_index_x cfg p.x, cell_index_y cfg p.y)

/-- Zero substitution for an undefined sample (the spec's Bilinear Corrector
rule "undefined corner sample → substitute 0 before interpolating"). -/
def nanZero (f : FP) : FP := if f.isNan then FP.num 0 else f

/-- Modelled from the spec: `z_correction_for_x_on_horizontal_mesh_line`, the
edge-linear corrector along x on horizontal mesh line `yi`, corner samples
taken at columns `x1i` and `x1i + 1` with zero substituted for undefined
samples; declared outside the given sources. -/
def z_correction_for_x_on_horizontal_mesh_line (env : Env) (rx0 : FP) (x1i yi : ℤ) : FP :=
  let z1 := nanZero (env.z x1i yi)
  let xfrac := (rx0 - FP.num (get_mesh_x env.cfg x1i)) * FP.num (1 / env.cfg.dx)
  z1 + xfrac * (nanZero (env.z (x1i + 1) yi) - z1)

/-- Modelled from the spec: `z_correction_for_y_on_vertical_mesh_line`, the
edge-linear corrector along y on vertical mesh line `xi`. -/
def z_correction_for_y_on_vertical_mesh_line (env : Env) (ry0 : FP) (xi y1i : ℤ) : FP :=
  let z1 := nanZero (env.z xi y1i)
  let yfrac := (ry0 - FP.num (get_mesh_y env.cfg y1i)) * FP.num (1 / env.cfg.dy)
  z1 + yfrac * (nanZero (env.z xi (y1i + 1)) - z1)

/-- Result of the cell-boundary splitter: the buffered sub-moves in emission
order (rejected calls included) and the final `current_position`. -/
structure CartRes where
  emits : List Pose
  curpos : Pose
  deriving DecidableEq

/-- The per-move invariants shared by the three crossing loops of
`line_to_destination_cartesian` (lines 109-141 of the source): the move
endpoints, slope-intercept form of the XY line, the normalized per-distance
rates along the dominant axis, their infinity flags, and the integer
direction helpers. -/
structure CrossCtx where
  env : Env
  start : Pose
  endp : Pose
  /-- `ratio = dist.y / dist.x` ("Allow divide by zero"). -/
  slope : FP
  /-- `c = start.y - ratio * start.x`. -/
  icpt : FP
  /-- `z_normalized_dist = (end.z - start.z) / on_axis_distance`. -/
  zNorm : FP
  /-- `e_normalized_dist = (end.e - start.e) / on_axis_distance`. -/
  eNorm : FP
  /-- `inf_normalized_flag = isinf(e_normalized_dist)`. -/
  infNormFlag : Bool
  /-- `inf_ratio_flag = isinf(ratio)`. -/
  infSlopeFlag : Bool
  /-- `use_x_dist = ad.x > ad.y`. -/
  useX : Bool
  /-- `neg.x = dist.x < 0`. -/
  negx : Bool
  /-- `neg.y = dist.y < 0`. -/
  negy : Bool
  inegx : ℤ
  inegy : ℤ
  iaddx : ℤ
  iaddy : ℤ

/-- The z/e interpolation applied on every emission of the splitter (source
lines 175-183 and the analogous blocks): linear along the dominant axis
unless the normalized rate is infinite, in which case the destination values
are used directly. -/
def interpZE (ctx : CrossCtx) (dxv dyv : FP) : FP × FP :=
  if !ctx.infNormFlag then
    let oad := if ctx.useX then dxv - ctx.start.x else dyv - ctx.start.y
    (ctx.start.z + oad * ctx.zNorm, ctx.start.e + oad * ctx.eNorm)
  else (ctx.endp.z, ctx.endp.e)

/-- The FINAL_MOVE bilinear emission (source lines 87-99): interpolate the
four corner samples of the destination cell at the destination's fractional
position, fade-scale, coerce a NaN result to no correction, buffer the move
(result ignored) and set `current_position = destination`. -/
def finalMoveInterp (env : Env) (destination endp : Pose) (iend : ℤ × ℤ)
    (acc : List Pose) : CartRes :=
  let xfrac := (endp.x - FP.num (get_mesh_x env.cfg iend.1)) * FP.num (1 / env.cfg.dx)
  let yfrac := (endp.y - FP.num (get_mesh_y env.cfg iend.2)) * FP.num (1 / env.cfg.dy)
  let z1 := env.z iend.1 iend.2 + xfrac * (env.z (iend.1 + 1) iend.2 - env.z iend.1 iend.2)
  let z2 := env.z iend.1 (iend.2 + 1) +
    xfrac * (env.z (iend.1 + 1) (iend.2 + 1) - env.z iend.1 (iend.2 + 1))
  let z0 := (z1 + (z2 - z1) * yfrac) * env.fade endp.z
  let ez := if z0.isNan then endp.z else endp.z + z0
  { emits := acc ++ [⟨endp.x, endp.y, ez, endp.e⟩], curpos := destination }

/-- The FINAL_MOVE label (source lines 69-101): when
`UBL_Z_RAISE_WHEN_OFF_MESH` is configured and the destination is off the
mesh, a constant Z raise is applied instead of interpolation. -/
def finalMove (env : Env) (destination endp : Pose) (iend : ℤ × ℤ)
    (acc : List Pose) : CartRes :=
  match env.cfg.zRaise with
  | some r =>
      if !(cell_index_x_valid env.cfg endp.x) || !(cell_index_y_valid env.cfg endp.y) then
        { emits := acc ++ [⟨endp.x, endp.y, endp.z + FP.num r, endp.e⟩], curpos := destination }
      else finalMoveInterp env destination endp iend acc
  | none => finalMoveInterp env destination endp iend acc

/-- The vertical-within-column loop (source lines 147-191): walk the crossed
horizontal mesh lines; the slope-infinite guard keeps `dest.x = start.x`;
zero-length first segments are skipped; the sink's acceptance is ignored on
this path.  The loop variable `icy` is `icell.y`; the loop runs on fuel, with
the source's `while` guard checked first so that the fuel never cuts a run
short when it is at least the crossing count. -/
def vloop (ctx : CrossCtx) (icx iendy : ℤ) : Nat → ℤ → List Pose → List Pose
  | 0, _, acc => acc
  | fuel + 1, icy, acc =>
    if icy = iendy + ctx.inegy then acc
    else
      let icy2 := icy + ctx.iaddy
      let nmy := get_mesh_y ctx.env.cfg icy2
      let dxv := if ctx.infSlopeFlag then ctx.start.x else (FP.num nmy - ctx.icpt) / ctx.slope
      let z0a := z_correction_for_x_on_horizontal_mesh_line ctx.env dxv icx icy2 *
        ctx.env.fade ctx.endp.z
      let z0 := if z0a.isNan then FP.num 0 else z0a
      let dyv := FP.num nmy
      if FP.beq dyv ctx.start.y then vloop ctx icx iendy fuel icy2 acc
      else
        let zde := interpZE ctx dxv dyv
        vloop ctx icx iendy fuel icy2 (acc ++ [⟨dxv, dyv, zde.1 + z0, zde.2⟩])

/-- The horizontal-within-row loop (source lines 205-242): walk the crossed
vertical mesh lines; zero-length first segments skipped; the loop breaks when
the sink rejects a sub-move. -/
def hloop (ctx : CrossCtx) (icy iendx : ℤ) : Nat → ℤ → List Pose → List Pose
  | 0, _, acc => acc
  | fuel + 1, icx, acc =>
    if icx = iendx + ctx.inegx then acc
    else
      let icx2 := icx + ctx.iaddx
      let dxv := FP.num (get_mesh_x ctx.env.cfg icx2)
      let dyv := ctx.slope * dxv + ctx.icpt
      let z0a := z_correction_for_y_on_vertical_mesh_line ctx.env dyv icx2 icy *
        ctx.env.fade ctx.endp.z
      let z0 := if z0a.isNan then FP.num 0 else z0a
      if FP.beq dxv ctx.start.x then hloop ctx icy iendx fuel icx2 acc
      else
        let zde := interpZE ctx dxv dyv
        let ok := ctx.env.accept acc.length
        let acc2 := acc ++ [⟨dxv, dyv, zde.1 + z0, zde.2⟩]
        if ok then hloop ctx icy iendx fuel icx2 acc2 else acc2

/-- The general diagonal loop (source lines 259-326): at each step compute
the candidate crossings of the next X and the next Y mesh line, pick
whichever comes first in the direction of travel, emit one sub-move on the
picked line, advance the picked index and decrement its signed crossing
counter; break on sink rejection or when a counter goes negative. -/
def gloop (ctx : CrossCtx) : Nat → ℤ → ℤ → ℤ → ℤ → List Pose → List Pose
  | 0, _, _, _, _, acc => acc
  | fuel + 1, icx, icy, cnx, cny, acc =>
    if cnx = 0 ∧ cny = 0 then acc
    else
      let nmx := get_mesh_x ctx.env.cfg (icx + ctx.iaddx)
      let nmy := get_mesh_y ctx.env.cfg (icy + ctx.iaddy)
      let dyv0 := ctx.slope * FP.num nmx + ctx.icpt
      let dxv0 := (FP.num nmy - ctx.icpt) / ctx.slope
      if ctx.negx = FP.lt (FP.num nmx) dxv0 then
        let z0a := z_correction_for_x_on_horizontal_mesh_line ctx.env dxv0
          (icx - ctx.inegx) (icy + ctx.iaddy) * ctx.env.fade ctx.endp.z
        let z0 := if z0a.isNan then FP.num 0 else z0a
        let dyv := FP.num nmy
        let zde := interpZE ctx dxv0 dyv
        let ok := ctx.env.accept acc.length
        let acc2 := acc ++ [⟨dxv0, dyv, zde.1 + z0, zde.2⟩]
        if !ok then acc2
        else
          let icy2 := icy + ctx.iaddy
          let cny2 := cny - 1
          if cnx < 0 ∨ cny2 < 0 then acc2
          else gloop ctx fuel icx icy2 cnx cny2 acc2
      else
        let z0a := z_correction_for_y_on_vertical_mesh_line ctx.env dyv0
          (icx + ctx.iaddx) (icy - ctx.inegy) * ctx.env.fade ctx.endp.z
        let z0 := if z0a.isNan then FP.num 0 else z0a
        let dxv := FP.num nmx
        let zde := interpZE ctx dxv dyv0
        let ok := ctx.env.accept acc.length
        let acc2 := acc ++ [⟨dxv, dyv0, zde.1 + z0, zde.2⟩]
        if !ok then acc2
        else
          let icx2 := icx + ctx.iaddx
          let cnx2 := cnx - 1
          if cnx2 < 0 ∨ cny < 0 then acc2
          else gloop ctx fuel icx2 icy cnx2 cny acc2

/-- `unified_bed_leveling::line_to_destination_cartesian` (source lines
50-332) in the `HAS_POSITION_MODIFIERS`-off configuration, so `start` and
`end` are `current_position` and `destination` themselves.  The feed rate and
extruder index are pass-through arguments of the sink and are not modelled.
After each loop the source compares `current_position` (unchanged since
entry) with `end` on XY and jumps to FINAL_MOVE unless they agree. -/
def line_to_destination_cartesian (env : Env) (current destination : Pose) : CartRes :=
  let start := current
  let endp := destination
  let istart := cell_indexes env.cfg start
  let iend := cell_indexes env.cfg endp
  if istart = iend then finalMove env destination endp iend []
  else
    let distx := endp.x - start.x
    let disty := endp.y - start.y
    let negx := FP.lt distx (FP.num 0)
    let negy := FP.lt disty (FP.num 0)
    let inegx : ℤ := if negx then 1 else 0
    let inegy : ℤ := if negy then 1 else 0
    let iaddx : ℤ := if iend.1 = istart.1 then 0 else if negx then -1 else 1
    let iaddy : ℤ := if iend.2 = istart.2 then 0 else if negy then -1 else 1
    let adx := (if negx then FP.num (-1) else FP.num 1) * distx
    let ady := (if negy then FP.num (-1) else FP.num 1) * disty
    let useX := FP.lt ady adx
    let onAxisDist := if useX then distx else disty
    let zNorm := (endp.z - start.z) / onAxisDist
    let eNorm := (endp.e - start.e) / onAxisDist
    let slope := disty / distx
    let ctx : CrossCtx :=
      ⟨env, start, endp, slope, start.y - slope * start.x, zNorm, eNorm,
        eNorm.isInf, slope.isInf, useX, negx, negy, inegx, inegy, iaddx, iaddy⟩
    if iaddx = 0 then
      let emits := vloop ctx istart.1 iend.2 ((iend.2 - istart.2).natAbs + 1)
        (istart.2 + inegy) []
      if Pose.xyNe start endp then finalMove env destination endp iend emits
      else { emits := emits, curpos := destination }
    else if iaddy = 0 then
      let emits := hloop ctx istart.2 iend.1 ((iend.1 - istart.1).natAbs + 1)
        (istart.1 + inegx) []
      if Pose.xyNe start endp then finalMove env destination endp iend emits
      else { emits := emits, curpos := destination }
    else
      let cnx : ℤ := (istart.1 - iend.1).natAbs
      let cny : ℤ := (istart.2 - iend.2).natAbs
      let emits := gloop ctx ((cnx + cny).toNat + 1) (istart.1 + inegx)
        (istart.2 + inegy) cnx cny []
      if Pose.xyNe start endp then finalMove env destination endp iend emits
      else { emits := emits, curpos := destination }

/-- The Z coordinate of the sub-move emitted by the FINAL_MOVE bilinear
branch (source lines 87-99): destination Z plus the fade-scaled bilinear
interpolation of the four corner samples of cell `iend` at the destination's
fractional position, with a NaN result coerced to no correction. -/
def finalMoveZInterp (env : Env) (endp : Pose) (iend : ℤ × ℤ) : FP :=
  let xfrac := (endp.x - FP.num (get_mesh_x env.cfg iend.1)) * FP.num (1 / env.cfg.dx)
  let yfrac := (endp.y - FP.num (get_mesh_y env.cfg iend.2)) * FP.num (1 / env.cfg.dy)
  let z1 := env.z iend.1 iend.2 + xfrac * (env.z (iend.1 + 1) iend.2 - env.z iend.1 iend.2)
  let z2 := env.z iend.1 (iend.2 + 1) +
    xfrac * (env.z (iend.1 + 1) (iend.2 + 1) - env.z iend.1 (iend.2 + 1))
  let z0 := (z1 + (z2 - z1) * yfrac) * env.fade endp.z
  if z0.isNan then endp.z else endp.z + z0

/-- The Z coordinate of the sub-move emitted at the FINAL_MOVE label (source
lines 69-101), including the constant off-mesh raise branch when
`UBL_Z_RAISE_WHEN_OFF_MESH` is configured. -/
def finalMoveZ (env : Env) (endp : Pose) (iend : ℤ × ℤ) : FP :=
  match env.cfg.zRaise with
  | some r =>
      if !(cell_index_x_valid env.cfg endp.x) || !(cell_index_y_valid env.cfg endp.y) then
        endp.z + FP.num r
      else finalMoveZInterp env endp iend
  | none => finalMoveZInterp env endp iend

/-- `LROUND`: round to nearest, halves away from zero. -/
def lroundQ (q : ℚ) : ℤ := if 0 ≤ q then ⌊q + 1 / 2⌋ else -⌊-q + 1 / 2⌋

/-- `LROUND` on a scalar; junk value `0` on `±∞`/NaN (the source converts a
finite float). -/
def lroundFP (f : FP) : ℤ := lroundQ f.toQ

/-- `SQRT` through the environment's exact oracle. -/
def fpSqrt (env : Env) : FP → FP
  | FP.num q => FP.num (env.sqrtQ q)
  | FP.inf s => if s then FP.inf true else FP.nan
  | FP.nan => FP.nan

/-- Result of the fixed-length segmenter: the raw return value of
`line_to_destination_segmented` (`true` when it did NOT move, per the source
comment) and the buffered sub-moves in emission order. -/
structure SegRes where
  ret : Bool
  emits : List Pose
  deriving DecidableEq

/-- The uncorrected segmentation loop of the segmenter (source lines
392-401), used when leveling is inactive or the target is above the fade
height: `while (--segments) { raw += diff; buffer(raw); }`. -/
def plainLoop (diff : Pose) : Nat → Pose → List Pose → List Pose
  | 0, _, acc => acc
  | 1, _, acc => acc
  | n + 2, raw, acc =>
      let raw2 := Pose.add raw diff
      plainLoop diff (n + 1) raw2 (acc ++ [raw2])

/-- The per-cell interpolation state of the segmenter's leveling path: the
fractional position within the cell and the incremental slope/intercept
coefficients (source lines 439-459). -/
structure CellSt where
  cellX : FP
  cellY : FP
  zcxy0 : FP
  zcxym : FP
  zsxy0 : FP
  zsxym : FP
  deriving DecidableEq

/-- The mesh cell invariants computed on cell entry (source lines 422-459):
clamped cell index of the raw position, the four corner samples with zero
substituted for undefined (NaN) ones, the in-cell fractional position, and
the interpolation coefficients with their constant per-segment increments.
The source converts the scaled offset with an `int8_t` cast (truncation
toward zero); after the `LIMIT` clamp this agrees with the floor used here on
every input. -/
def cellSetup (env : Env) (diff raw : Pose) : CellSt :=
  let icx := max 0 (min env.cfg.cellsX ⌊(raw.x.toQ - env.cfg.minX) / env.cfg.dx⌋)
  let icy := max 0 (min env.cfg.cellsY ⌊(raw.y.toQ - env.cfg.minY) / env.cfg.dy⌋)
  let z00 := nanZero (env.z icx icy)
  let z10 := nanZero (env.z (icx + 1) icy)
  let z01 := nanZero (env.z icx (icy + 1))
  let z11 := nanZero (env.z (icx + 1) (icy + 1))
  let cellX := raw.x - FP.num (get_mesh_x env.cfg icx)
  let cellY := raw.y - FP.num (get_mesh_y env.cfg icy)
  let zxmy0 := (z10 - z00) * FP.num (1 / env.cfg.dx)
  let zxmy1 := (z11 - z01) * FP.num (1 / env.cfg.dx)
  let zcxy0 := z00 + zxmy0 * cellX
  let zcxy1 := z01 + zxmy1 * cellX
  let zcxym := (zcxy1 - zcxy0) * FP.num (1 / env.cfg.dy)
  let zsxy0 := zxmy0 * diff.x
  let zsxym := (zxmy1 - zxmy0) * FP.num (1 / env.cfg.dy) * diff.x
  ⟨cellX, cellY, zcxy0, zcxym, zsxy0, zsxym⟩

/-- The nested cell/segment loops of the segmenter's leveling path (source
lines 413-488).  `n` is the value of `segments` before the `--segments` of
the iteration; `ocs` is `none` exactly when the top of the outer loop (cell
setup) is to run.  On the last segment `raw` is snapped to the destination;
the correction is added to the emitted pose only (`oldz` save/restore), and
within a cell the coefficients advance by their constant per-segment
increments. -/
def segIter (env : Env) (destination diff : Pose) (fadeF : FP) :
    Nat → Option CellSt → Pose → List Pose → List Pose
  | 0, _, _, acc => acc
  | n + 1, ocs, raw, acc =>
      let cs := match ocs with
        | some cs => cs
        | none => cellSetup env diff raw
      let raw2 := if n = 0 then destination else raw
      let zcxcy := (cs.zcxy0 + cs.zcxym * cs.cellY) * fadeF
      let acc2 := acc ++ [⟨raw2.x, raw2.y, raw2.z + zcxcy, raw2.e⟩]
      if n = 0 then acc2
      else
        let raw3 := Pose.add raw2 diff
        let cellX2 := cs.cellX + diff.x
        let cellY2 := cs.cellY + diff.y
        if !(FP.le (FP.num 0) cellX2 && FP.le cellX2 (FP.num env.cfg.dx)) ||
           !(FP.le (FP.num 0) cellY2 && FP.le cellY2 (FP.num env.cfg.dy)) then
          segIter env destination diff fadeF n none raw3 acc2
        else
          segIter env destination diff fadeF n
            (some ⟨cellX2, cellY2, cs.zcxy0 + cs.zsxy0, cs.zcxym + cs.zsxym,
              cs.zsxy0, cs.zsxym⟩) raw3 acc2

/-- `unified_bed_leveling::line_to_destination_segmented` (source lines
356-491) in the Cartesian (non-`IS_KINEMATIC`, no `SCARA_FEEDRATE_SCALING`)
configuration with `ENABLE_LEVELING_FADE_HEIGHT` on.  The number of segments
is the rounded ratio of the XY distance to the minimum segment length,
floored at one.  The per-segment length argument passed to the sink is not
modelled (it does not affect the emitted poses).  Returns `true` when the
destination is unreachable and nothing was emitted. -/
def line_to_destination_segmented (env : Env) (current destination : Pose) : SegRes :=
  if !env.reachable destination then ⟨true, []⟩
  else
    let total := Pose.sub destination current
    let cartXY2 := total.x * total.x + total.y * total.y
    let cartXY := fpSqrt env cartXY2
    let segments : ℕ := max 1 (lroundFP (cartXY * FP.num (1 / env.cfg.minSegLen))).toNat
    let invSeg := FP.num (1 / (segments : ℚ))
    let diff := Pose.scale total invSeg
    let raw := current
    if !env.levelingActive || !env.levelingActiveAtZ destination.z then
      ⟨false, plainLoop diff segments raw [] ++ [destination]⟩
    else
      let fadeF := env.fade destination.z
      let raw2 := Pose.add raw diff
      ⟨false, segIter env destination diff fadeF segments none raw2 []⟩

/-- Spec-side definition for the refinement comparison of undefined-sample
handling: full bilinear interpolation recomputed after substituting `0` for
each undefined corner sample, in the spec's words ("substituting 0 for the
undefined sample and recomputing"). -/
def spec_bilinear_substituted (env : Env) (ix iy : ℤ) (xfrac yfrac : ℚ) : ℚ :=
  let z00 := (nanZero (env.z ix iy)).toQ
  let z10 := (nanZero (env.z (ix + 1) iy)).toQ
  let z01 := (nanZero (env.z ix (iy + 1))).toQ
  let z11 := (nanZero (env.z (ix + 1) (iy + 1))).toQ
  let z1 := z00 + xfrac * (z10 - z00)
  let z2 := z01 + xfrac * (z11 - z01)
  z1 + (z2 - z1) * yfrac

/-- The scratch (from-the-four-corner-samples) bilinear correction of the
segmenter at fractional in-cell position `(tx, ty)` of cell `(icx, icy)`:
intercept and slope along y at `tx`, evaluated at `ty`, with zero substituted
for undefined corner samples.  This is the value the per-cell coefficients of
`cellSetup` encode. -/
def scratchCorrection (env : Env) (icx icy : ℤ) (tx ty : ℚ) : ℚ :=
  let z00 := (nanZero (env.z icx icy)).toQ
  let z10 := (nanZero (env.z (icx + 1) icy)).toQ
  let z01 := (nanZero (env.z icx (icy + 1))).toQ
  let z11 := (nanZero (env.z (icx + 1) (icy + 1))).toQ
  let zcxy0 := z00 + (z10 - z00) / env.cfg.dx * tx
  let zcxy1 := z01 + (z11 - z01) / env.cfg.dx * tx
  zcxy0 + (zcxy1 - zcxy0) / env.cfg.dy * ty

/-- One same-cell step of the segmenter's incremental coefficient update
(source lines 484-485 together with the `cell += diff` advance). -/
def coeffStep (diff : Pose) (cs : CellSt) : CellSt :=
  ⟨cs.cellX + diff.x, cs.cellY + diff.y, cs.zcxy0 + cs.zsxy0,
    cs.zcxym + cs.zsxym, cs.zsxy0, cs.zsxym⟩

/-- The incremental coefficient update iterated over `k` segments. -/
def coeffIter (diff : Pose) (cs : CellSt) : ℕ → CellSt
  | 0 => cs
  | k + 1 => coeffStep diff (coeffIter diff cs k)

/-- A 3x3-point mesh (two cells per axis, spacing 10, origin 0) with all
samples defined as 0, unit fade, an always-accepting sink, leveling on, and
everything reachable: the base environment of the concrete runs below. -/
def envBase : Env :=
  ⟨⟨0, 0, 10, 10, 2, 2, none, 1⟩, fun _ _ => FP.num 0, fun _ => FP.num 1,
    fun _ => true, true, fun _ => true, fun _ => true, fun _ => 0⟩

/-- `envBase` with the corner sample at mesh point (1,0) undefined and the
other three corners of cell (0,0) equal to 1. -/
def envNanCorner : Env :=
  { envBase with
    z := fun i j =>
      if i = 1 ∧ j = 0 then FP.nan
      else if (i = 0 ∧ j = 0) ∨ (i = 0 ∧ j = 1) ∨ (i = 1 ∧ j = 1) then FP.num 1
      else FP.num 0 }

/-- `envBase` with a sink that rejects the first buffered sub-move of the
move and accepts the rest. -/
def envRejectFirst : Env := { envBase with accept := fun n => n ≠ 0 }

/-- `envBase` with every mesh sample defined as 1. -/
def envAllOnes : Env := { envBase with z := fun _ _ => FP.num 1 }

/-- `envBase` with leveling inactive and a square-root oracle exact at
`(12/5)^2`, for the plain segmentation run of length 12/5. -/
def envPlainSeg : Env :=
  { envBase with
    levelingActive := false
    sqrtQ := fun q => if q = 144 / 25 then 12 / 5 else 0 }

/-- `envBase` with an unreachable destination predicate. -/
def envUnreach : Env := { envBase with reachable := fun _ => false }

/-- `envBase` with mesh sample `z(i,j) = i` (height rises along x) and a
square-root oracle exact at 16, for leveled segmenter runs of XY length 4. -/
def envSlopeX : Env :=
  { envBase with
    z := fun i _ => FP.num i
    sqrtQ := fun q => if q = 16 then 4 else 0 }

/-- Shorthand for a pose with four finite (rational) coordinates. -/
def mkPose (x y z e : ℚ) : Pose := ⟨FP.num x, FP.num y, FP.num z, FP.num e⟩

/-- All four coordinates of a pose are finite rationals (in particular none
is NaN). -/
def Pose.allNum (p : Pose) : Prop :=
  (∃ a, p.x = FP.num a) ∧ (∃ b, p.y = FP.num b) ∧
  (∃ c, p.z = FP.num c) ∧ (∃ d, p.e = FP.num d)

/-- The rational form of the segmenter's per-cell state when the four corner
samples are finite-or-undefined and the position is finite: the state
`cellSetup` produces at `(rx, ry)` in cell `(icx, icy)`, written with the
scratch intercept/slope formulas.  `du` is the x component of the per-segment
increment. -/
def csFor (env : Env) (du : ℚ) (icx icy : ℤ) (rx ry : ℚ) : CellSt :=
  let z00 := (nanZero (env.z icx icy)).toQ
  let z10 := (nanZero (env.z (icx + 1) icy)).toQ
  let z01 := (nanZero (env.z icx (icy + 1))).toQ
  let z11 := (nanZero (env.z (icx + 1) (icy + 1))).toQ
  let tx := rx - get_mesh_x env.cfg icx
  let sI := (z10 - z00) * (1 / env.cfg.dx)
  let sS := ((z11 - z01) * (1 / env.cfg.dx) - sI) * (1 / env.cfg.dy)
  ⟨FP.num tx, FP.num (ry - get_mesh_y env.cfg icy),
    FP.num (z00 + sI * tx),
    FP.num ((z01 + (z11 - z01) * (1 / env.cfg.dx) * tx - (z00 + sI * tx)) * (1 / env.cfg.dy)),
    FP.num (sI * du),
    FP.num (sS * du)⟩

@[simp] theorem FP.add_num (a b : ℚ) : FP.num a + FP.num b = FP.num (a + b) := rfl

@[simp] theorem FP.sub_num (a b : ℚ) : FP.num a - FP.num b = FP.num (a - b) := rfl

@[simp] theorem FP.mul_num (a b : ℚ) : FP.num a * FP.num b = FP.num (a * b) := rfl

@[simp] theorem FP.div_num (a b : ℚ) (h : b ≠ 0) :
    FP.num a / FP.num b = FP.num (a / b) := by
  show FP.div (FP.num a) (FP.num b) = _
  simp [FP.div, h]

@[simp] theorem FP.isNan_num (a : ℚ) : (FP.num a).isNan = false := rfl

@[simp] theorem FP.isInf_num (a : ℚ) : (FP.num a).isInf = false := rfl

@[simp] theorem FP.toQ_num (a : ℚ) : (FP.num a).toQ = a := rfl

@[simp] theorem FP.lt_num (a b : ℚ) : FP.lt (FP.num a) (FP.num b) = decide (a < b) := rfl

@[simp] theorem FP.le_num (a b : ℚ) : FP.le (FP.num a) (FP.num b) = decide (a ≤ b) := rfl

@[simp] theorem FP.beq_num (a b : ℚ) : FP.beq (FP.num a) (FP.num b) = decide (a = b) := rfl

@[simp] theorem Pose.x_mk (a b c d : FP) : (Pose.mk a b c d).x = a := rfl

@[simp] theorem Pose.y_mk (a b c d : FP) : (Pose.mk a b c d).y = b := rfl

@[simp] theorem Pose.z_mk (a b c d : FP) : (Pose.mk a b c d).z = c := rfl

@[simp] theorem Pose.e_mk (a b c d : FP) : (Pose.mk a b c d).e = d := rfl

@[simp] theorem mkPose_x (a b c d : ℚ) : (mkPose a b c d).x = FP.num a := rfl

@[simp] theorem mkPose_y (a b c d : ℚ) : (mkPose a b c d).y = FP.num b := rfl

@[simp] theorem mkPose_z (a b c d : ℚ) : (mkPose a b c d).z = FP.num c := rfl

@[simp] theorem mkPose_e (a b c d : ℚ) : (mkPose a b c d).e = FP.num d := rfl

@[simp] theorem nanZero_num (a : ℚ) : nanZero (FP.num a) = FP.num a := rfl

@[simp] theorem Pose.add_mk (ax ay az ae bx By bz be : ℚ) :
    Pose.add (mkPose ax ay az ae) (mkPose bx By bz be) =
      mkPose (ax + bx) (ay + By) (az + bz) (ae + be) := rfl

/-- C3 (amended: the source returns `true`, meaning "did not move", for an
unreachable destination): when the destination fails the reachability
predicate, `line_to_destination_segmented` emits no sub-move and returns
`true`, so the caller knows not to advance its current-position state. -/
theorem C3_unreachable_skips_move (env : Env) (current destination : Pose)
    (h : env.reachable destination = false) :
    line_to_destination_segmented env current destination = ⟨true, []⟩ := by
  unfold line_to_destination_segmented
  simp [h]

/-- C3 counterexample: at a concrete unreachable destination the function
returns `true` (the source's "did NOT move" encoding) with no emission,
whereas the claim states the returned flag is `false` there. -/
theorem C3_flag_polarity_counterexample :
    (line_to_destination_segmented envUnreach (mkPose 0 0 0 0) (mkPose 5 0 0 0)).ret = true ∧
    (line_to_destination_segmented envUnreach (mkPose 0 0 0 0) (mkPose 5 0 0 0)).emits = [] :=
  ⟨rfl, rfl⟩

/-- Witness for C3: the amended theorem applied at a concrete unreachable
move. -/
theorem C3_unreachable_skips_move_witness :
    envUnreach.reachable (mkPose 5 0 0 0) = false ∧
    line_to_destination_segmented envUnreach (mkPose 0 0 0 0) (mkPose 5 0 0 0) = ⟨true, []⟩ :=
  ⟨rfl, C3_unreachable_skips_move envUnreach (mkPose 0 0 0 0) (mkPose 5 0 0 0) rfl⟩

theorem plainLoop_spec (du dv dw de2 : ℚ) :
    ∀ (n : ℕ) (rx ry rz re : ℚ) (acc : List Pose),
      plainLoop (mkPose du dv dw de2) n (mkPose rx ry rz re) acc =
        acc ++ (List.range (n - 1)).map
          (fun k : ℕ => mkPose (rx + ((k : ℚ) + 1) * du) (ry + ((k : ℚ) + 1) * dv)
            (rz + ((k : ℚ) + 1) * dw) (re + ((k : ℚ) + 1) * de2)) := by
  intro n
  induction n with
  | zero => intro rx ry rz re acc; simp [plainLoop]
  | succ m ih =>
    intro rx ry rz re acc
    match m, ih with
    | 0, _ => simp [plainLoop]
    | k + 1, ih =>
      show plainLoop _ (k + 2) _ _ = _
      rw [plainLoop]
      have hraw : Pose.add (mkPose rx ry rz re) (mkPose du dv dw de2) =
          mkPose (rx + du) (ry + dv) (rz + dw) (re + de2) := rfl
      rw [hraw, ih]
      have hr : (k + 2 - 1) = (k + 1) := rfl
      rw [hr, List.range_succ_eq_map]
      simp only [List.map_cons, List.map_map, List.append_assoc, List.singleton_append]
      congr 1
      simp only [List.cons.injEq]
      constructor
      · simp only [mkPose, Pose.mk.injEq, FP.num.injEq]
        refine ⟨by push_cast; ring, by push_cast; ring, by push_cast; ring, by push_cast; ring⟩
      · apply List.map_congr_left
        intro j _
        simp only [Function.comp_apply, mkPose, Pose.mk.injEq, FP.num.injEq]
        refine ⟨by push_cast; ring, by push_cast; ring, by push_cast; ring, by push_cast; ring⟩

theorem nanZero_num_of_not_inf (w : FP) (h : w.isInf = false) :
    ∃ q : ℚ, nanZero w = FP.num q := by
  cases w with
  | num q => exact ⟨q, rfl⟩
  | inf s => simp [FP.isInf] at h
  | nan => exact ⟨0, rfl⟩

theorem cellSetup_eq_csFor (env : Env) (du dv dw de2 rx ry rz re : ℚ)
    (hz : ∀ i j, (env.z i j).isInf = false) :
    cellSetup env (mkPose du dv dw de2) (mkPose rx ry rz re) =
      csFor env du
        (max 0 (min env.cfg.cellsX ⌊(rx - env.cfg.minX) / env.cfg.dx⌋))
        (max 0 (min env.cfg.cellsY ⌊(ry - env.cfg.minY) / env.cfg.dy⌋)) rx ry := by
  set icx := max 0 (min env.cfg.cellsX ⌊(rx - env.cfg.minX) / env.cfg.dx⌋) with hicx
  set icy := max 0 (min env.cfg.cellsY ⌊(ry - env.cfg.minY) / env.cfg.dy⌋) with hicy
  obtain ⟨q00, e00⟩ := nanZero_num_of_not_inf (env.z icx icy) (hz icx icy)
  obtain ⟨q10, e10⟩ := nanZero_num_of_not_inf (env.z (icx + 1) icy) (hz _ _)
  obtain ⟨q01, e01⟩ := nanZero_num_of_not_inf (env.z icx (icy + 1)) (hz _ _)
  obtain ⟨q11, e11⟩ := nanZero_num_of_not_inf (env.z (icx + 1) (icy + 1)) (hz _ _)
  unfold cellSetup csFor
  simp only [mkPose, FP.toQ_num]
  rw [← hicx, ← hicy, e00, e10, e01, e11]
  simp only [FP.sub_num, FP.mul_num, FP.add_num, FP.toQ_num]

theorem coeffStep_csFor (env : Env) (du dv dw de2 rx ry : ℚ) (icx icy : ℤ) :
    coeffStep (mkPose du dv dw de2) (csFor env du icx icy rx ry) =
      csFor env du icx icy (rx + du) (ry + dv) := by
  unfold coeffStep csFor
  simp only [mkPose, FP.add_num]
  congr 1 <;> first
    | rfl
    | (simp only [FP.num.injEq]; ring)

theorem csFor_correction (env : Env) (f du rx ry : ℚ) (icx icy : ℤ) :
    ((csFor env du icx icy rx ry).zcxy0 +
        (csFor env du icx icy rx ry).zcxym * (csFor env du icx icy rx ry).cellY) * FP.num f =
      FP.num (f * scratchCorrection env icx icy (rx - get_mesh_x env.cfg icx)
        (ry - get_mesh_y env.cfg icy)) := by
  unfold csFor scratchCorrection
  simp only [FP.add_num, FP.mul_num, FP.num.injEq]
  ring

theorem segIter_succ (env : Env) (dest diff : Pose) (fadeF : FP) (n : ℕ)
    (ocs : Option CellSt) (raw : Pose) (acc : List Pose) :
    segIter env dest diff fadeF (n + 1) ocs raw acc =
      (let cs := ocs.getD (cellSetup env diff raw)
      let raw2 := if n = 0 then dest else raw
      let zcxcy := (cs.zcxy0 + cs.zcxym * cs.cellY) * fadeF
      let acc2 := acc ++ [⟨raw2.x, raw2.y, raw2.z + zcxcy, raw2.e⟩]
      if n = 0 then acc2
      else
        let raw3 := Pose.add raw2 diff
        let cellX2 := cs.cellX + diff.x
        let cellY2 := cs.cellY + diff.y
        if !(FP.le (FP.num 0) cellX2 && FP.le cellX2 (FP.num env.cfg.dx)) ||
           !(FP.le (FP.num 0) cellY2 && FP.le cellY2 (FP.num env.cfg.dy)) then
          segIter env dest diff fadeF n none raw3 acc2
        else
          segIter env dest diff fadeF n
            (some ⟨cellX2, cellY2, cs.zcxy0 + cs.zsxy0, cs.zcxym + cs.zsxym,
              cs.zsxy0, cs.zsxym⟩) raw3 acc2) := by
  rcases ocs with _ | cs <;> rfl

theorem segIter_spec (env : Env) (f du dv dw de2 : ℚ)
    (hz : ∀ i j, (env.z i j).isInf = false)
    (hcx : 0 ≤ env.cfg.cellsX) (hcy : 0 ≤ env.cfg.cellsY) :
    ∀ (n : ℕ) (rx ry rz re : ℚ) (ocs : Option CellSt) (acc : List Pose),
      1 ≤ n →
      (∀ cs, ocs = some cs → ∃ icx icy, 0 ≤ icx ∧ icx ≤ env.cfg.cellsX ∧
        0 ≤ icy ∧ icy ≤ env.cfg.cellsY ∧ cs = csFor env du icx icy rx ry) →
      ∃ L, segIter env
          (mkPose (rx + ((n - 1 : ℕ) : ℚ) * du) (ry + ((n - 1 : ℕ) : ℚ) * dv)
            (rz + ((n - 1 : ℕ) : ℚ) * dw) (re + ((n - 1 : ℕ) : ℚ) * de2))
          (mkPose du dv dw de2) (FP.num f) n ocs (mkPose rx ry rz re) acc = acc ++ L ∧
        L.length = n ∧
        ∀ k, (hk : k < L.length) → ∃ icx icy,
          0 ≤ icx ∧ icx ≤ env.cfg.cellsX ∧ 0 ≤ icy ∧ icy ≤ env.cfg.cellsY ∧
          L.get ⟨k, hk⟩ = ⟨FP.num (rx + (k : ℚ) * du), FP.num (ry + (k : ℚ) * dv),
            FP.num (rz + (k : ℚ) * dw + f * scratchCorrection env icx icy
              (rx + (k : ℚ) * du - get_mesh_x env.cfg icx)
              (ry + (k : ℚ) * dv - get_mesh_y env.cfg icy)),
            FP.num (re + (k : ℚ) * de2)⟩ := by
  intro n
  induction n with
  | zero => intro rx ry rz re ocs acc h1 _; exact absurd h1 (by omega)
  | succ m ih =>
    intro rx ry rz re ocs acc _ hinv
    have hcs : ∃ icx icy, 0 ≤ icx ∧ icx ≤ env.cfg.cellsX ∧
        0 ≤ icy ∧ icy ≤ env.cfg.cellsY ∧
        ocs.getD (cellSetup env (mkPose du dv dw de2) (mkPose rx ry rz re)) =
          csFor env du icx icy rx ry := by
      rcases ocs with _ | cs
      · exact ⟨max 0 (min env.cfg.cellsX ⌊(rx - env.cfg.minX) / env.cfg.dx⌋),
          max 0 (min env.cfg.cellsY ⌊(ry - env.cfg.minY) / env.cfg.dy⌋),
          le_max_left _ _, max_le hcx (min_le_left _ _),
          le_max_left _ _, max_le hcy (min_le_left _ _),
          cellSetup_eq_csFor env du dv dw de2 rx ry rz re hz⟩
      · obtain ⟨icx, icy, b1, b2, b3, b4, hcseq⟩ := hinv cs rfl
        exact ⟨icx, icy, b1, b2, b3, b4, hcseq⟩
    obtain ⟨icx, icy, b1, b2, b3, b4, hcseq⟩ := hcs
    rw [segIter_succ]
    simp only [hcseq, csFor_correction env f du rx ry icx icy]
    match m, ih with
    | 0, _ =>
      refine ⟨[⟨FP.num rx, FP.num ry,
        FP.num (rz + f * scratchCorrection env icx icy
          (rx - get_mesh_x env.cfg icx) (ry - get_mesh_y env.cfg icy)),
        FP.num re⟩], ?_, rfl, ?_⟩
      · simp [mkPose, FP.add_num]
      · intro k hk
        match k, hk with
        | 0, hk => exact ⟨icx, icy, b1, b2, b3, b4, by simp [mkPose]⟩
    | m' + 1, ih =>
      simp only [Nat.succ_ne_zero, if_false, Nat.add_sub_cancel]
      have hone : (1 : ℕ) ≤ m' + 1 := by omega
      set pEmit : Pose := ⟨(mkPose rx ry rz re).x, (mkPose rx ry rz re).y,
        (mkPose rx ry rz re).z + FP.num (f * scratchCorrection env icx icy
          (rx - get_mesh_x env.cfg icx) (ry - get_mesh_y env.cfg icy)),
        (mkPose rx ry rz re).e⟩ with hpE
      have hpEmk : pEmit = ⟨FP.num rx, FP.num ry,
          FP.num (rz + f * scratchCorrection env icx icy
            (rx - get_mesh_x env.cfg icx) (ry - get_mesh_y env.cfg icy)),
          FP.num re⟩ := rfl
      have hraw3 : Pose.add (mkPose rx ry rz re) (mkPose du dv dw de2) =
          mkPose (rx + du) (ry + dv) (rz + dw) (re + de2) := rfl
      have hdest : mkPose (rx + ((m' + 1 : ℕ) : ℚ) * du)
            (ry + ((m' + 1 : ℕ) : ℚ) * dv) (rz + ((m' + 1 : ℕ) : ℚ) * dw)
            (re + ((m' + 1 : ℕ) : ℚ) * de2) =
          mkPose ((rx + du) + ((m' + 1 - 1 : ℕ) : ℚ) * du)
            ((ry + dv) + ((m' + 1 - 1 : ℕ) : ℚ) * dv)
            ((rz + dw) + ((m' + 1 - 1 : ℕ) : ℚ) * dw)
            ((re + de2) + ((m' + 1 - 1 : ℕ) : ℚ) * de2) := by
        simp only [Nat.add_sub_cancel, mkPose, Pose.mk.injEq, FP.num.injEq]
        refine ⟨by push_cast; ring, by push_cast; ring, by push_cast; ring, by push_cast; ring⟩
      have hnext : ∀ (ocs2 : Option CellSt),
          (∀ cs, ocs2 = some cs → ∃ jx jy, 0 ≤ jx ∧ jx ≤ env.cfg.cellsX ∧
            0 ≤ jy ∧ jy ≤ env.cfg.cellsY ∧
            cs = csFor env du jx jy (rx + du) (ry + dv)) →
          ∃ L, segIter env
              (mkPose (rx + ((m' + 1 : ℕ) : ℚ) * du) (ry + ((m' + 1 : ℕ) : ℚ) * dv)
                (rz + ((m' + 1 : ℕ) : ℚ) * dw) (re + ((m' + 1 : ℕ) : ℚ) * de2))
              (mkPose du dv dw de2) (FP.num f) (m' + 1) ocs2
              (mkPose (rx + du) (ry + dv) (rz + dw) (re + de2)) (acc ++ [pEmit]) =
              acc ++ (pEmit :: L) ∧
            (pEmit :: L).length = m' + 1 + 1 ∧
            ∀ k, (hk : k < (pEmit :: L).length) → ∃ jx jy,
              0 ≤ jx ∧ jx ≤ env.cfg.cellsX ∧ 0 ≤ jy ∧ jy ≤ env.cfg.cellsY ∧
              (pEmit :: L).get ⟨k, hk⟩ =
                ⟨FP.num (rx + (k : ℚ) * du), FP.num (ry + (k : ℚ) * dv),
                FP.num (rz + (k : ℚ) * dw + f * scratchCorrection env jx jy
                  (rx + (k : ℚ) * du - get_mesh_x env.cfg jx)
                  (ry + (k : ℚ) * dv - get_mesh_y env.cfg jy)),
                FP.num (re + (k : ℚ) * de2)⟩ := by
        intro ocs2 hsome
        obtain ⟨L2, hL2eq, hL2len, hL2get⟩ :=
          ih (rx + du) (ry + dv) (rz + dw) (re + de2) ocs2 (acc ++ [pEmit]) hone hsome
        rw [hdest]
        refine ⟨L2, by rw [hL2eq]; simp, by simp [hL2len], ?_⟩
        intro k hk
        match k, hk with
        | 0, hk =>
          refine ⟨icx, icy, b1, b2, b3, b4, ?_⟩
          have hg0 : (pEmit :: L2).get ⟨0, hk⟩ = pEmit := rfl
          rw [hg0, hpEmk]
          simp
        | k' + 1, hk =>
          have hk2 : k' < L2.length := by
            simp only [List.length_cons] at hk; omega
          obtain ⟨jx, jy, c1, c2, c3, c4, hget⟩ := hL2get k' hk2
          refine ⟨jx, jy, c1, c2, c3, c4, ?_⟩
          have hgc : (pEmit :: L2).get ⟨k' + 1, hk⟩ = L2.get ⟨k', hk2⟩ := rfl
          rw [hgc, hget]
          simp only [Pose.mk.injEq, FP.num.injEq]
          refine ⟨by push_cast; ring, by push_cast; ring, ?_, by push_cast; ring⟩
          push_cast
          have harg1 : rx + du + (k' : ℚ) * du = rx + ((k' : ℚ) + 1) * du := by ring
          have harg2 : ry + dv + (k' : ℚ) * dv = ry + ((k' : ℚ) + 1) * dv := by ring
          rw [harg1, harg2]
          ring
      rw [hraw3]
      split
      · obtain ⟨L, hA, hB, hC⟩ := hnext none (by intro cs h; exact absurd h (by simp))
        exact ⟨pEmit :: L, hA, hB, hC⟩
      · obtain ⟨L, hA, hB, hC⟩ := hnext
          (some (csFor env du icx icy (rx + du) (ry + dv)))
          (fun cs h => ⟨icx, icy, b1, b2, b3, b4, by injection h with h2; exact h2.symm⟩)
        rw [show (⟨(csFor env du icx icy rx ry).cellX + (mkPose du dv dw de2).x,
            (csFor env du icx icy rx ry).cellY + (mkPose du dv dw de2).y,
            (csFor env du icx icy rx ry).zcxy0 + (csFor env du icx icy rx ry).zsxy0,
            (csFor env du icx icy rx ry).zcxym + (csFor env du icx icy rx ry).zsxym,
            (csFor env du icx icy rx ry).zsxy0, (csFor env du icx icy rx ry).zsxym⟩ : CellSt) =
          csFor env du icx icy (rx + du) (ry + dv) from
          coeffStep_csFor env du dv dw de2 rx ry icx icy]
        exact ⟨pEmit :: L, hA, hB, hC⟩

theorem seg_count_lt (s L : ℚ) (hs : 0 ≤ s) (hL : 0 < L) :
    s < 3 / 2 * L * ((max 1 (lroundQ (s / L)).toNat : ℕ) : ℚ) := by
  have hsL : 0 ≤ s / L := div_nonneg hs hL.le
  have hr : lroundQ (s / L) = ⌊s / L + 1 / 2⌋ := by
    unfold lroundQ
    rw [if_pos hsL]
  have hup : s / L + 1 / 2 < (⌊s / L + 1 / 2⌋ : ℚ) + 1 := Int.lt_floor_add_one _
  have hr0 : (0 : ℤ) ≤ ⌊s / L + 1 / 2⌋ := Int.floor_nonneg.mpr (by linarith)
  by_cases h2 : ⌊s / L + 1 / 2⌋ ≤ 1
  · have hn : (max 1 (lroundQ (s / L)).toNat : ℕ) = 1 := by
      rw [hr]
      omega
    rw [hn]
    have hx2 : s / L + 1 / 2 < 2 := by
      have : ((⌊s / L + 1 / 2⌋ : ℤ) : ℚ) ≤ 1 := by exact_mod_cast h2
      linarith
    have : s / L < 3 / 2 := by linarith
    have := (div_lt_iff₀ hL).mp this
    push_cast
    linarith
  · have h2b : (2 : ℤ) ≤ ⌊s / L + 1 / 2⌋ := by omega
    have hn : ((max 1 (lroundQ (s / L)).toNat : ℕ) : ℚ) = ((⌊s / L + 1 / 2⌋ : ℤ) : ℚ) := by
      rw [hr]
      have : (max 1 (⌊s / L + 1 / 2⌋).toNat : ℕ) = (⌊s / L + 1 / 2⌋).toNat := by omega
      rw [this]
      exact_mod_cast Int.toNat_of_nonneg hr0
    rw [hn]
    have hrq : (2 : ℚ) ≤ ((⌊s / L + 1 / 2⌋ : ℤ) : ℚ) := by exact_mod_cast h2b
    have hslt : s / L < ((⌊s / L + 1 / 2⌋ : ℤ) : ℚ) + 1 / 2 := by linarith
    have hhalf : ((⌊s / L + 1 / 2⌋ : ℤ) : ℚ) + 1 / 2 ≤
        3 / 2 * ((⌊s / L + 1 / 2⌋ : ℤ) : ℚ) := by linarith
    have : s / L < 3 / 2 * ((⌊s / L + 1 / 2⌋ : ℤ) : ℚ) := lt_of_lt_of_le hslt hhalf
    have := (div_lt_iff₀ hL).mp this
    linarith

/-- C5 (amended: the `LROUND` of the segment count lets a segment exceed the
threshold by up to one half; the bound that holds is 3/2 of the threshold, on
the XY projection that the count is computed from): for every reachable move,
`line_to_destination_segmented` emits at least one segment, every emitted
sub-move lies on the uniform subdivision of the XY line into the computed
number of segments, and the XY length of every such segment (the constant
per-segment XY displacement) is strictly less than 3/2 times
`DELTA_SEGMENT_MIN_LENGTH`. -/
theorem C5_segmentation_bound (env : Env) (cx cy cz ce ex ey ez ee : ℚ)
    (hz : ∀ i j, (env.z i j).isInf = false)
    (hcx : 0 ≤ env.cfg.cellsX) (hcy : 0 ≤ env.cfg.cellsY)
    (hreach : env.reachable (mkPose ex ey ez ee) = true)
    (hfade : ∃ fq : ℚ, env.fade (FP.num ez) = FP.num fq)
    (hL : 0 < env.cfg.minSegLen)
    (hs0 : 0 ≤ env.sqrtQ ((ex - cx) * (ex - cx) + (ey - cy) * (ey - cy)))
    (hs1 : env.sqrtQ ((ex - cx) * (ex - cx) + (ey - cy) * (ey - cy)) *
        env.sqrtQ ((ex - cx) * (ex - cx) + (ey - cy) * (ey - cy)) =
        (ex - cx) * (ex - cx) + (ey - cy) * (ey - cy)) :
    ∃ n : ℕ, 1 ≤ n ∧
      (line_to_destination_segmented env (mkPose cx cy cz ce)
        (mkPose ex ey ez ee)).emits.length = n ∧
      (∀ k, (hk : k < (line_to_destination_segmented env (mkPose cx cy cz ce)
          (mkPose ex ey ez ee)).emits.length) →
        ((line_to_destination_segmented env (mkPose cx cy cz ce)
            (mkPose ex ey ez ee)).emits.get ⟨k, hk⟩).x =
          FP.num (cx + ((k : ℚ) + 1) * ((ex - cx) / (n : ℚ))) ∧
        ((line_to_destination_segmented env (mkPose cx cy cz ce)
            (mkPose ex ey ez ee)).emits.get ⟨k, hk⟩).y =
          FP.num (cy + ((k : ℚ) + 1) * ((ey - cy) / (n : ℚ)))) ∧
      ((ex - cx) / (n : ℚ)) ^ 2 + ((ey - cy) / (n : ℚ)) ^ 2 <
        (3 / 2 * env.cfg.minSegLen) ^ 2 := by
  set s := env.sqrtQ ((ex - cx) * (ex - cx) + (ey - cy) * (ey - cy)) with hsdef
  set n : ℕ := max 1 (lroundQ (s / env.cfg.minSegLen)).toNat with hndef
  have hn1 : 1 ≤ n := le_max_left _ _
  have hnq0 : ((n : ℕ) : ℚ) ≠ 0 := by
    have : (0 : ℕ) < n := hn1
    exact_mod_cast this.ne.symm
  have hsn : s < 3 / 2 * env.cfg.minSegLen * (n : ℚ) :=
    seg_count_lt s env.cfg.minSegLen hs0 hL
  have hnpos : (0 : ℚ) < (n : ℚ) := by exact_mod_cast hn1
  have hbound : ((ex - cx) / (n : ℚ)) ^ 2 + ((ey - cy) / (n : ℚ)) ^ 2 <
      (3 / 2 * env.cfg.minSegLen) ^ 2 := by
    have h1 : ((ex - cx) / (n : ℚ)) ^ 2 + ((ey - cy) / (n : ℚ)) ^ 2 =
        (s / (n : ℚ)) ^ 2 := by
      field_simp
      nlinarith [hs1]
    rw [h1]
    have h2 : s / (n : ℚ) < 3 / 2 * env.cfg.minSegLen := by
      rw [div_lt_iff₀ hnpos]
      linarith
    have h3 : 0 ≤ s / (n : ℚ) := div_nonneg hs0 hnpos.le
    nlinarith
  refine ⟨n, hn1, ?_⟩
  have hrun : line_to_destination_segmented env (mkPose cx cy cz ce) (mkPose ex ey ez ee) =
      (if !env.levelingActive || !env.levelingActiveAtZ (FP.num ez) then
        ⟨false, plainLoop (mkPose ((ex - cx) * (1 / (n : ℚ))) ((ey - cy) * (1 / (n : ℚ)))
          ((ez - cz) * (1 / (n : ℚ))) ((ee - ce) * (1 / (n : ℚ)))) n (mkPose cx cy cz ce) [] ++
          [mkPose ex ey ez ee]⟩
      else
        ⟨false, segIter env (mkPose ex ey ez ee)
          (mkPose ((ex - cx) * (1 / (n : ℚ))) ((ey - cy) * (1 / (n : ℚ)))
            ((ez - cz) * (1 / (n : ℚ))) ((ee - ce) * (1 / (n : ℚ)))) (env.fade (FP.num ez)) n none
          (Pose.add (mkPose cx cy cz ce)
            (mkPose ((ex - cx) * (1 / (n : ℚ))) ((ey - cy) * (1 / (n : ℚ)))
              ((ez - cz) * (1 / (n : ℚ))) ((ee - ce) * (1 / (n : ℚ))))) []⟩) := by
    unfold line_to_destination_segmented
    rw [hreach]
    simp only [Bool.not_true, if_false, Bool.false_eq_true]
    have htot : Pose.sub (mkPose ex ey ez ee) (mkPose cx cy cz ce) =
        mkPose (ex - cx) (ey - cy) (ez - cz) (ee - ce) := rfl
    rw [htot]
    have hxy2 : (mkPose (ex - cx) (ey - cy) (ez - cz) (ee - ce)).x *
          (mkPose (ex - cx) (ey - cy) (ez - cz) (ee - ce)).x +
        (mkPose (ex - cx) (ey - cy) (ez - cz) (ee - ce)).y *
          (mkPose (ex - cx) (ey - cy) (ez - cz) (ee - ce)).y =
        FP.num ((ex - cx) * (ex - cx) + (ey - cy) * (ey - cy)) := by
      simp [mkPose]
    rw [hxy2]
    have hsq : fpSqrt env (FP.num ((ex - cx) * (ex - cx) + (ey - cy) * (ey - cy))) =
        FP.num s := rfl
    rw [hsq]
    have hlr : (lroundFP (FP.num s * FP.num (1 / env.cfg.minSegLen))).toNat =
        (lroundQ (s / env.cfg.minSegLen)).toNat := by
      rw [FP.mul_num]
      unfold lroundFP
      rw [FP.toQ_num, mul_one_div]
    rw [hlr, ← hndef]
    have hdiff : Pose.scale (mkPose (ex - cx) (ey - cy) (ez - cz) (ee - ce))
        (FP.num (1 / (n : ℚ))) =
        mkPose ((ex - cx) * (1 / (n : ℚ))) ((ey - cy) * (1 / (n : ℚ)))
          ((ez - cz) * (1 / (n : ℚ))) ((ee - ce) * (1 / (n : ℚ))) := rfl
    rw [hdiff]
    rfl
  have hduq : ∀ a : ℚ, a * (1 / (n : ℚ)) = a / (n : ℚ) := fun a => by
    rw [mul_one_div]
  by_cases hlev : (!env.levelingActive || !env.levelingActiveAtZ (FP.num ez)) = true
  · rw [hrun, if_pos hlev]
    have hpl := plainLoop_spec ((ex - cx) * (1 / (n : ℚ))) ((ey - cy) * (1 / (n : ℚ)))
      ((ez - cz) * (1 / (n : ℚ))) ((ee - ce) * (1 / (n : ℚ))) n cx cy cz ce []
    rw [hpl]
    simp only [List.nil_append]
    have hnn : ((n - 1 : ℕ) : ℚ) + 1 = (n : ℚ) := by
      have h1n : (1 : ℕ) ≤ n := hn1
      push_cast [Nat.cast_sub h1n]
      ring
    have hall : ((List.range (n - 1)).map
          (fun j : ℕ => mkPose (cx + ((j : ℚ) + 1) * ((ex - cx) * (1 / (n : ℚ))))
            (cy + ((j : ℚ) + 1) * ((ey - cy) * (1 / (n : ℚ))))
            (cz + ((j : ℚ) + 1) * ((ez - cz) * (1 / (n : ℚ))))
            (ce + ((j : ℚ) + 1) * ((ee - ce) * (1 / (n : ℚ))))) ++
          [mkPose ex ey ez ee]) =
        (List.range n).map
          (fun j : ℕ => mkPose (cx + ((j : ℚ) + 1) * ((ex - cx) * (1 / (n : ℚ))))
            (cy + ((j : ℚ) + 1) * ((ey - cy) * (1 / (n : ℚ))))
            (cz + ((j : ℚ) + 1) * ((ez - cz) * (1 / (n : ℚ))))
            (ce + ((j : ℚ) + 1) * ((ee - ce) * (1 / (n : ℚ))))) := by
      obtain ⟨m, hm⟩ : ∃ m, n = m + 1 := ⟨n - 1, by omega⟩
      rw [hm]
      simp only [Nat.add_sub_cancel]
      rw [List.range_succ, List.map_append, List.map_singleton]
      congr 1
      simp only [List.cons.injEq, and_true, mkPose, Pose.mk.injEq, FP.num.injEq]
      have hmq : ((m : ℚ) + 1) = ((m + 1 : ℕ) : ℚ) := by push_cast; ring
      have hmq0 : ((m + 1 : ℕ) : ℚ) ≠ 0 := by
        push_cast
        positivity
      refine ⟨?_, ?_, ?_, ?_⟩ <;> (rw [hmq]; field_simp)
    rw [hall]
    refine ⟨by simp, ?_, hbound⟩
    intro k hk
    simp only [List.length_map, List.length_range] at hk
    have hget : ((List.range n).map
        (fun j : ℕ => mkPose (cx + ((j : ℚ) + 1) * ((ex - cx) * (1 / (n : ℚ))))
          (cy + ((j : ℚ) + 1) * ((ey - cy) * (1 / (n : ℚ))))
          (cz + ((j : ℚ) + 1) * ((ez - cz) * (1 / (n : ℚ))))
          (ce + ((j : ℚ) + 1) * ((ee - ce) * (1 / (n : ℚ)))))).get
          ⟨k, by simpa using hk⟩ =
        mkPose (cx + ((k : ℚ) + 1) * ((ex - cx) * (1 / (n : ℚ))))
          (cy + ((k : ℚ) + 1) * ((ey - cy) * (1 / (n : ℚ))))
          (cz + ((k : ℚ) + 1) * ((ez - cz) * (1 / (n : ℚ))))
          (ce + ((k : ℚ) + 1) * ((ee - ce) * (1 / (n : ℚ)))) := by
      simp
    rw [hget]
    constructor
    · simp only [mkPose, Pose.x_mk, FP.num.injEq]
      rw [hduq]
    · simp only [mkPose, Pose.y_mk, FP.num.injEq]
      rw [hduq]
  · rw [hrun, if_neg hlev]
    obtain ⟨fq, hfq⟩ := hfade
    rw [hfq]
    have hraw1 : Pose.add (mkPose cx cy cz ce)
        (mkPose ((ex - cx) * (1 / (n : ℚ))) ((ey - cy) * (1 / (n : ℚ)))
          ((ez - cz) * (1 / (n : ℚ))) ((ee - ce) * (1 / (n : ℚ)))) =
        mkPose (cx + (ex - cx) * (1 / (n : ℚ))) (cy + (ey - cy) * (1 / (n : ℚ)))
          (cz + (ez - cz) * (1 / (n : ℚ))) (ce + (ee - ce) * (1 / (n : ℚ))) := rfl
    rw [hraw1]
    have hdest2 : mkPose ex ey ez ee =
        mkPose ((cx + (ex - cx) * (1 / (n : ℚ))) + ((n - 1 : ℕ) : ℚ) * ((ex - cx) * (1 / (n : ℚ))))
          ((cy + (ey - cy) * (1 / (n : ℚ))) + ((n - 1 : ℕ) : ℚ) * ((ey - cy) * (1 / (n : ℚ))))
          ((cz + (ez - cz) * (1 / (n : ℚ))) + ((n - 1 : ℕ) : ℚ) * ((ez - cz) * (1 / (n : ℚ))))
          ((ce + (ee - ce) * (1 / (n : ℚ))) + ((n - 1 : ℕ) : ℚ) * ((ee - ce) * (1 / (n : ℚ)))) := by
      have hc : ((n - 1 : ℕ) : ℚ) = (n : ℚ) - 1 := by
        have : (1 : ℕ) ≤ n := hn1
        push_cast [Nat.cast_sub this]
        ring
      simp only [mkPose, Pose.mk.injEq, FP.num.injEq, hc]
      refine ⟨?_, ?_, ?_, ?_⟩ <;> field_simp <;> ring
    rw [hdest2]
    obtain ⟨L, hLeq, hLlen, hLget⟩ := segIter_spec env fq
      ((ex - cx) * (1 / (n : ℚ))) ((ey - cy) * (1 / (n : ℚ)))
      ((ez - cz) * (1 / (n : ℚ))) ((ee - ce) * (1 / (n : ℚ))) hz hcx hcy n
      (cx + (ex - cx) * (1 / (n : ℚ))) (cy + (ey - cy) * (1 / (n : ℚ)))
      (cz + (ez - cz) * (1 / (n : ℚ))) (ce + (ee - ce) * (1 / (n : ℚ))) none [] hn1
      (fun cs h => absurd h (by simp))
    rw [hLeq]
    simp only [List.nil_append]
    refine ⟨hLlen, ?_, hbound⟩
    intro k hk
    obtain ⟨jx, jy, _, _, _, _, hget⟩ := hLget k hk
    rw [hget]
    constructor
    · simp only [Pose.x_mk, FP.num.injEq]
      ring
    · simp only [Pose.y_mk, FP.num.injEq]
      ring

theorem segmented_run_eq (env : Env) (cx cy cz ce ex ey ez ee : ℚ)
    (hreach : env.reachable (mkPose ex ey ez ee) = true) :
    line_to_destination_segmented env (mkPose cx cy cz ce) (mkPose ex ey ez ee) =
      (if !env.levelingActive || !env.levelingActiveAtZ (FP.num ez) then
        ⟨false, plainLoop (mkPose ((ex - cx) * (1 / ((max 1 (lroundQ
            (env.sqrtQ ((ex - cx) * (ex - cx) + (ey - cy) * (ey - cy)) /
              env.cfg.minSegLen)).toNat : ℕ) : ℚ)))
          ((ey - cy) * (1 / ((max 1 (lroundQ (env.sqrtQ ((ex - cx) * (ex - cx) +
            (ey - cy) * (ey - cy)) / env.cfg.minSegLen)).toNat : ℕ) : ℚ)))
          ((ez - cz) * (1 / ((max 1 (lroundQ (env.sqrtQ ((ex - cx) * (ex - cx) +
            (ey - cy) * (ey - cy)) / env.cfg.minSegLen)).toNat : ℕ) : ℚ)))
          ((ee - ce) * (1 / ((max 1 (lroundQ (env.sqrtQ ((ex - cx) * (ex - cx) +
            (ey - cy) * (ey - cy)) / env.cfg.minSegLen)).toNat : ℕ) : ℚ))))
          (max 1 (lroundQ (env.sqrtQ ((ex - cx) * (ex - cx) + (ey - cy) * (ey - cy)) /
            env.cfg.minSegLen)).toNat) (mkPose cx cy cz ce) [] ++
          [mkPose ex ey ez ee]⟩
      else
        ⟨false, segIter env (mkPose ex ey ez ee)
          (mkPose ((ex - cx) * (1 / ((max 1 (lroundQ (env.sqrtQ ((ex - cx) * (ex - cx) +
              (ey - cy) * (ey - cy)) / env.cfg.minSegLen)).toNat : ℕ) : ℚ)))
            ((ey - cy) * (1 / ((max 1 (lroundQ (env.sqrtQ ((ex - cx) * (ex - cx) +
              (ey - cy) * (ey - cy)) / env.cfg.minSegLen)).toNat : ℕ) : ℚ)))
            ((ez - cz) * (1 / ((max 1 (lroundQ (env.sqrtQ ((ex - cx) * (ex - cx) +
              (ey - cy) * (ey - cy)) / env.cfg.minSegLen)).toNat : ℕ) : ℚ)))
            ((ee - ce) * (1 / ((max 1 (lroundQ (env.sqrtQ ((ex - cx) * (ex - cx) +
              (ey - cy) * (ey - cy)) / env.cfg.minSegLen)).toNat : ℕ) : ℚ))))
          (env.fade (FP.num ez))
          (max 1 (lroundQ (env.sqrtQ ((ex - cx) * (ex - cx) + (ey - cy) * (ey - cy)) /
            env.cfg.minSegLen)).toNat) none
          (Pose.add (mkPose cx cy cz ce)
            (mkPose ((ex - cx) * (1 / ((max 1 (lroundQ (env.sqrtQ ((ex - cx) * (ex - cx) +
                (ey - cy) * (ey - cy)) / env.cfg.minSegLen)).toNat : ℕ) : ℚ)))
              ((ey - cy) * (1 / ((max 1 (lroundQ (env.sqrtQ ((ex - cx) * (ex - cx) +
                (ey - cy) * (ey - cy)) / env.cfg.minSegLen)).toNat : ℕ) : ℚ)))
              ((ez - cz) * (1 / ((max 1 (lroundQ (env.sqrtQ ((ex - cx) * (ex - cx) +
                (ey - cy) * (ey - cy)) / env.cfg.minSegLen)).toNat : ℕ) : ℚ)))
              ((ee - ce) * (1 / ((max 1 (lroundQ (env.sqrtQ ((ex - cx) * (ex - cx) +
                (ey - cy) * (ey - cy)) / env.cfg.minSegLen)).toNat : ℕ) : ℚ))))) []⟩) := by
  unfold line_to_destination_segmented
  rw [hreach]
  simp only [Bool.not_true, if_false, Bool.false_eq_true]
  have htot : Pose.sub (mkPose ex ey ez ee) (mkPose cx cy cz ce) =
      mkPose (ex - cx) (ey - cy) (ez - cz) (ee - ce) := rfl
  rw [htot]
  have hxy2 : (mkPose (ex - cx) (ey - cy) (ez - cz) (ee - ce)).x *
        (mkPose (ex - cx) (ey - cy) (ez - cz) (ee - ce)).x +
      (mkPose (ex - cx) (ey - cy) (ez - cz) (ee - ce)).y *
        (mkPose (ex - cx) (ey - cy) (ez - cz) (ee - ce)).y =
      FP.num ((ex - cx) * (ex - cx) + (ey - cy) * (ey - cy)) := by
    simp [mkPose]
  rw [hxy2]
  have hsq : fpSqrt env (FP.num ((ex - cx) * (ex - cx) + (ey - cy) * (ey - cy))) =
      FP.num (env.sqrtQ ((ex - cx) * (ex - cx) + (ey - cy) * (ey - cy))) := rfl
  rw [hsq]
  have hlr : (lroundFP (FP.num (env.sqrtQ ((ex - cx) * (ex - cx) + (ey - cy) * (ey - cy))) *
        FP.num (1 / env.cfg.minSegLen))).toNat =
      (lroundQ (env.sqrtQ ((ex - cx) * (ex - cx) + (ey - cy) * (ey - cy)) /
        env.cfg.minSegLen)).toNat := by
    rw [FP.mul_num]
    unfold lroundFP
    rw [FP.toQ_num, mul_one_div]
  rw [hlr]
  rfl

theorem coeffIter_csFor (env : Env) (du dv dw de2 rx ry : ℚ) (icx icy : ℤ) :
    ∀ k : ℕ, coeffIter (mkPose du dv dw de2) (csFor env du icx icy rx ry) k =
      csFor env du icx icy (rx + (k : ℚ) * du) (ry + (k : ℚ) * dv) := by
  intro k
  induction k with
  | zero => simp [coeffIter]
  | succ m ihm =>
    rw [coeffIter, ihm, coeffStep_csFor]
    have h1 : rx + (m : ℚ) * du + du = rx + (((m + 1 : ℕ) : ℚ)) * du := by push_cast; ring
    have h2 : ry + (m : ℚ) * dv + dv = ry + (((m + 1 : ℕ) : ℚ)) * dv := by push_cast; ring
    rw [h1, h2]

/-- C9: within one mesh cell of the fixed-length segmenter, iterating the
constant per-segment increments (`z_sxy0` on the intercept `z_cxy0` and
`z_sxym` on the slope `z_cxym`) for `k` segments yields, in exact arithmetic,
the very state a from-scratch per-cell setup computes at the advanced
position, and hence the same Z correction as the from-scratch bilinear
interpolation of the four corner samples there (provided the advanced
position still indexes the same cell). -/
theorem C9_incremental_coefficient_equivalence (env : Env)
    (du dv dw de2 rx ry rz re : ℚ) (k : ℕ)
    (hz : ∀ i j, (env.z i j).isInf = false)
    (hsx : max 0 (min env.cfg.cellsX ⌊(rx + (k : ℚ) * du - env.cfg.minX) / env.cfg.dx⌋) =
      max 0 (min env.cfg.cellsX ⌊(rx - env.cfg.minX) / env.cfg.dx⌋))
    (hsy : max 0 (min env.cfg.cellsY ⌊(ry + (k : ℚ) * dv - env.cfg.minY) / env.cfg.dy⌋) =
      max 0 (min env.cfg.cellsY ⌊(ry - env.cfg.minY) / env.cfg.dy⌋)) :
    coeffIter (mkPose du dv dw de2)
        (cellSetup env (mkPose du dv dw de2) (mkPose rx ry rz re)) k =
      cellSetup env (mkPose du dv dw de2)
        (mkPose (rx + (k : ℚ) * du) (ry + (k : ℚ) * dv)
          (rz + (k : ℚ) * dw) (re + (k : ℚ) * de2)) ∧
    ((coeffIter (mkPose du dv dw de2)
        (cellSetup env (mkPose du dv dw de2) (mkPose rx ry rz re)) k).zcxy0 +
      (coeffIter (mkPose du dv dw de2)
        (cellSetup env (mkPose du dv dw de2) (mkPose rx ry rz re)) k).zcxym *
      (coeffIter (mkPose du dv dw de2)
        (cellSetup env (mkPose du dv dw de2) (mkPose rx ry rz re)) k).cellY) * FP.num 1 =
      FP.num (1 * scratchCorrection env
        (max 0 (min env.cfg.cellsX ⌊(rx - env.cfg.minX) / env.cfg.dx⌋))
        (max 0 (min env.cfg.cellsY ⌊(ry - env.cfg.minY) / env.cfg.dy⌋))
        (rx + (k : ℚ) * du - get_mesh_x env.cfg
          (max 0 (min env.cfg.cellsX ⌊(rx - env.cfg.minX) / env.cfg.dx⌋)))
        (ry + (k : ℚ) * dv - get_mesh_y env.cfg
          (max 0 (min env.cfg.cellsY ⌊(ry - env.cfg.minY) / env.cfg.dy⌋)))) := by
  have hstate : coeffIter (mkPose du dv dw de2)
      (cellSetup env (mkPose du dv dw de2) (mkPose rx ry rz re)) k =
      csFor env du
        (max 0 (min env.cfg.cellsX ⌊(rx - env.cfg.minX) / env.cfg.dx⌋))
        (max 0 (min env.cfg.cellsY ⌊(ry - env.cfg.minY) / env.cfg.dy⌋))
        (rx + (k : ℚ) * du) (ry + (k : ℚ) * dv) := by
    rw [cellSetup_eq_csFor env du dv dw de2 rx ry rz re hz, coeffIter_csFor]
  constructor
  · rw [hstate, cellSetup_eq_csFor env du dv dw de2 _ _ _ _ hz, hsx, hsy]
  · rw [hstate]
    exact csFor_correction env 1 du (rx + (k : ℚ) * du) (ry + (k : ℚ) * dv) _ _

/-- Characterization of every emission of the segmenter's leveling path:
each sits on the uniform subdivision of the uncorrected requested path in X,
Y and E, and its Z is the uncorrected subdivision Z plus a single fade-scaled
from-scratch cell correction at that uncorrected position. -/
theorem segmented_leveled_emits (env : Env) (cx cy cz ce ex ey ez ee fq : ℚ)
    (hz : ∀ i j, (env.z i j).isInf = false)
    (hcx : 0 ≤ env.cfg.cellsX) (hcy : 0 ≤ env.cfg.cellsY)
    (hreach : env.reachable (mkPose ex ey ez ee) = true)
    (hlev1 : env.levelingActive = true)
    (hlev2 : env.levelingActiveAtZ (FP.num ez) = true)
    (hfade : env.fade (FP.num ez) = FP.num fq) :
    ∃ n : ℕ, 1 ≤ n ∧
      (line_to_destination_segmented env (mkPose cx cy cz ce)
        (mkPose ex ey ez ee)).emits.length = n ∧
      ∀ k, (hk : k < (line_to_destination_segmented env (mkPose cx cy cz ce)
          (mkPose ex ey ez ee)).emits.length) → ∃ icx icy,
        0 ≤ icx ∧ icx ≤ env.cfg.cellsX ∧ 0 ≤ icy ∧ icy ≤ env.cfg.cellsY ∧
        (line_to_destination_segmented env (mkPose cx cy cz ce)
            (mkPose ex ey ez ee)).emits.get ⟨k, hk⟩ =
          ⟨FP.num (cx + ((k : ℚ) + 1) * ((ex - cx) / (n : ℚ))),
           FP.num (cy + ((k : ℚ) + 1) * ((ey - cy) / (n : ℚ))),
           FP.num (cz + ((k : ℚ) + 1) * ((ez - cz) / (n : ℚ)) +
             fq * scratchCorrection env icx icy
               (cx + ((k : ℚ) + 1) * ((ex - cx) / (n : ℚ)) - get_mesh_x env.cfg icx)
               (cy + ((k : ℚ) + 1) * ((ey - cy) / (n : ℚ)) - get_mesh_y env.cfg icy)),
           FP.num (ce + ((k : ℚ) + 1) * ((ee - ce) / (n : ℚ)))⟩ := by
  set n : ℕ := max 1 (lroundQ (env.sqrtQ ((ex - cx) * (ex - cx) + (ey - cy) * (ey - cy)) /
    env.cfg.minSegLen)).toNat with hndef
  have hn1 : 1 ≤ n := le_max_left _ _
  have hnq0 : ((n : ℕ) : ℚ) ≠ 0 := by
    have : (0 : ℕ) < n := hn1
    exact_mod_cast this.ne.symm
  refine ⟨n, hn1, ?_⟩
  rw [segmented_run_eq env cx cy cz ce ex ey ez ee hreach]
  rw [if_neg (by rw [hlev1, hlev2]; simp)]
  rw [hfade]
  have hraw1 : Pose.add (mkPose cx cy cz ce)
      (mkPose ((ex - cx) * (1 / (n : ℚ))) ((ey - cy) * (1 / (n : ℚ)))
        ((ez - cz) * (1 / (n : ℚ))) ((ee - ce) * (1 / (n : ℚ)))) =
      mkPose (cx + (ex - cx) * (1 / (n : ℚ))) (cy + (ey - cy) * (1 / (n : ℚ)))
        (cz + (ez - cz) * (1 / (n : ℚ))) (ce + (ee - ce) * (1 / (n : ℚ))) := rfl
  rw [hraw1]
  have hdest2 : mkPose ex ey ez ee =
      mkPose ((cx + (ex - cx) * (1 / (n : ℚ))) + ((n - 1 : ℕ) : ℚ) * ((ex - cx) * (1 / (n : ℚ))))
        ((cy + (ey - cy) * (1 / (n : ℚ))) + ((n - 1 : ℕ) : ℚ) * ((ey - cy) * (1 / (n : ℚ))))
        ((cz + (ez - cz) * (1 / (n : ℚ))) + ((n - 1 : ℕ) : ℚ) * ((ez - cz) * (1 / (n : ℚ))))
        ((ce + (ee - ce) * (1 / (n : ℚ))) + ((n - 1 : ℕ) : ℚ) * ((ee - ce) * (1 / (n : ℚ)))) := by
    have hc : ((n - 1 : ℕ) : ℚ) = (n : ℚ) - 1 := by
      have h1n : (1 : ℕ) ≤ n := hn1
      push_cast [Nat.cast_sub h1n]
      ring
    simp only [mkPose, Pose.mk.injEq, FP.num.injEq, hc]
    refine ⟨?_, ?_, ?_, ?_⟩ <;> field_simp <;> ring
  rw [hdest2]
  obtain ⟨L, hLeq, hLlen, hLget⟩ := segIter_spec env fq
    ((ex - cx) * (1 / (n : ℚ))) ((ey - cy) * (1 / (n : ℚ)))
    ((ez - cz) * (1 / (n : ℚ))) ((ee - ce) * (1 / (n : ℚ))) hz hcx hcy n
    (cx + (ex - cx) * (1 / (n : ℚ))) (cy + (ey - cy) * (1 / (n : ℚ)))
    (cz + (ez - cz) * (1 / (n : ℚ))) (ce + (ee - ce) * (1 / (n : ℚ))) none [] hn1
    (fun cs h => absurd h (by simp))
  rw [hLeq]
  simp only [List.nil_append]
  refine ⟨hLlen, ?_⟩
  intro k hk
  obtain ⟨jx, jy, c1, c2, c3, c4, hget⟩ := hLget k hk
  refine ⟨jx, jy, c1, c2, c3, c4, ?_⟩
  rw [hget]
  have hax : cx + (ex - cx) * (1 / (n : ℚ)) + (k : ℚ) * ((ex - cx) * (1 / (n : ℚ))) =
      cx + ((k : ℚ) + 1) * ((ex - cx) / (n : ℚ)) := by
    ring
  have hay : cy + (ey - cy) * (1 / (n : ℚ)) + (k : ℚ) * ((ey - cy) * (1 / (n : ℚ))) =
      cy + ((k : ℚ) + 1) * ((ey - cy) / (n : ℚ)) := by
    ring
  have haz : cz + (ez - cz) * (1 / (n : ℚ)) + (k : ℚ) * ((ez - cz) * (1 / (n : ℚ))) =
      cz + ((k : ℚ) + 1) * ((ez - cz) / (n : ℚ)) := by
    ring
  have hae : ce + (ee - ce) * (1 / (n : ℚ)) + (k : ℚ) * ((ee - ce) * (1 / (n : ℚ))) =
      ce + ((k : ℚ) + 1) * ((ee - ce) / (n : ℚ)) := by
    ring
  rw [hax, hay, haz, hae]

/-- C10: in the fixed-length segmenter's leveling path the tracked
intermediate position never accumulates any mesh correction: every emitted
sub-move sits on the uniform subdivision of the uncorrected requested path in
X, Y and E, and its Z is the uncorrected subdivision Z plus a single
fade-scaled from-scratch cell correction evaluated at that uncorrected
position — corrections never compound across segments. -/
theorem C10_corrections_never_accumulate (env : Env) (cx cy cz ce ex ey ez ee fq : ℚ)
    (hz : ∀ i j, (env.z i j).isInf = false)
    (hcx : 0 ≤ env.cfg.cellsX) (hcy : 0 ≤ env.cfg.cellsY)
    (hreach : env.reachable (mkPose ex ey ez ee) = true)
    (hlev1 : env.levelingActive = true)
    (hlev2 : env.levelingActiveAtZ (FP.num ez) = true)
    (hfade : env.fade (FP.num ez) = FP.num fq) :
    ∃ n : ℕ, 1 ≤ n ∧
      (line_to_destination_segmented env (mkPose cx cy cz ce)
        (mkPose ex ey ez ee)).emits.length = n ∧
      ∀ k, (hk : k < (line_to_destination_segmented env (mkPose cx cy cz ce)
          (mkPose ex ey ez ee)).emits.length) → ∃ icx icy,
        0 ≤ icx ∧ icx ≤ env.cfg.cellsX ∧ 0 ≤ icy ∧ icy ≤ env.cfg.cellsY ∧
        (line_to_destination_segmented env (mkPose cx cy cz ce)
            (mkPose ex ey ez ee)).emits.get ⟨k, hk⟩ =
          ⟨FP.num (cx + ((k : ℚ) + 1) * ((ex - cx) / (n : ℚ))),
           FP.num (cy + ((k : ℚ) + 1) * ((ey - cy) / (n : ℚ))),
           FP.num (cz + ((k : ℚ) + 1) * ((ez - cz) / (n : ℚ)) +
             fq * scratchCorrection env icx icy
               (cx + ((k : ℚ) + 1) * ((ex - cx) / (n : ℚ)) - get_mesh_x env.cfg icx)
               (cy + ((k : ℚ) + 1) * ((ey - cy) / (n : ℚ)) - get_mesh_y env.cfg icy)),
           FP.num (ce + ((k : ℚ) + 1) * ((ee - ce) / (n : ℚ)))⟩ :=
  segmented_leveled_emits env cx cy cz ce ex ey ez ee fq hz hcx hcy hreach hlev1 hlev2 hfade

theorem FP.add_isNan_left (a b : FP) (h : a.isNan = true) : (a + b).isNan = true := by
  cases a <;> simp [FP.isNan] at h ⊢
  cases b <;> rfl

theorem FP.add_isNan_right (a b : FP) (h : b.isNan = true) : (a + b).isNan = true := by
  cases b <;> simp [FP.isNan] at h ⊢
  cases a <;> rfl

theorem FP.sub_isNan_left (a b : FP) (h : a.isNan = true) : (a - b).isNan = true := by
  cases a <;> simp [FP.isNan] at h ⊢
  cases b <;> rfl

theorem FP.sub_isNan_right (a b : FP) (h : b.isNan = true) : (a - b).isNan = true := by
  cases b <;> simp [FP.isNan] at h ⊢
  cases a <;> rfl

theorem FP.mul_isNan_left (a b : FP) (h : a.isNan = true) : (a * b).isNan = true := by
  cases a <;> simp [FP.isNan] at h ⊢
  cases b <;> rfl

theorem FP.mul_isNan_right (a b : FP) (h : b.isNan = true) : (a * b).isNan = true := by
  cases b <;> simp [FP.isNan] at h ⊢
  cases a <;> rfl

theorem FP.add_notInf (a b : FP) (ha : a.isInf = false) (hb : b.isInf = false) :
    (a + b).isInf = false := by
  cases a <;> cases b <;> first | rfl | simp_all [FP.isInf]

theorem FP.sub_notInf (a b : FP) (ha : a.isInf = false) (hb : b.isInf = false) :
    (a - b).isInf = false := by
  cases a <;> cases b <;> first | rfl | simp_all [FP.isInf]

theorem FP.mul_notInf (a b : FP) (ha : a.isInf = false) (hb : b.isInf = false) :
    (a * b).isInf = false := by
  cases a <;> cases b <;> first | rfl | simp_all [FP.isInf]

/-- A non-infinite correction added to a finite Z after the NaN coercion is
finite. -/
theorem fp_cases_final (q : ℚ) (z0 : FP) (h : z0.isInf = false) :
    ∃ c, (if z0.isNan = true then FP.num q else FP.num q + z0) = FP.num c := by
  cases z0 with
  | num r => exact ⟨q + r, by simp [FP.isNan]⟩
  | inf s => simp [FP.isInf] at h
  | nan => exact ⟨q, by simp [FP.isNan]⟩

/-- The horizontal-line edge corrector is finite at a finite position on a
mesh without infinite samples. -/
theorem z_corr_x_num (env : Env) (rq : ℚ) (x1i yi : ℤ)
    (hzm : ∀ i j, (env.z i j).isInf = false) :
    ∃ c, z_correction_for_x_on_horizontal_mesh_line env (FP.num rq) x1i yi =
      FP.num c := by
  obtain ⟨a, ha⟩ := nanZero_num_of_not_inf _ (hzm x1i yi)
  obtain ⟨b, hb⟩ := nanZero_num_of_not_inf _ (hzm (x1i + 1) yi)
  unfold z_correction_for_x_on_horizontal_mesh_line
  rw [ha, hb]
  simp only [FP.sub_num, FP.mul_num, FP.add_num]
  exact ⟨_, rfl⟩

/-- The vertical-line edge corrector is finite at a finite position on a
mesh without infinite samples. -/
theorem z_corr_y_num (env : Env) (rq : ℚ) (xi y1i : ℤ)
    (hzm : ∀ i j, (env.z i j).isInf = false) :
    ∃ c, z_correction_for_y_on_vertical_mesh_line env (FP.num rq) xi y1i =
      FP.num c := by
  obtain ⟨a, ha⟩ := nanZero_num_of_not_inf _ (hzm xi y1i)
  obtain ⟨b, hb⟩ := nanZero_num_of_not_inf _ (hzm xi (y1i + 1))
  unfold z_correction_for_y_on_vertical_mesh_line
  rw [ha, hb]
  simp only [FP.sub_num, FP.mul_num, FP.add_num]
  exact ⟨_, rfl⟩

/-- The FINAL_MOVE bilinear Z is finite at a finite destination on a mesh
without infinite samples (the NaN coercion removes the only possible
non-finite value). -/
theorem finalMoveZInterp_num (env : Env) (ex2 ey2 ez2 ee2 : ℚ) (iend : ℤ × ℤ)
    (hzm : ∀ i j, (env.z i j).isInf = false)
    (hfade : ∀ q : ℚ, ∃ fq, env.fade (FP.num q) = FP.num fq) :
    ∃ c, finalMoveZInterp env (mkPose ex2 ey2 ez2 ee2) iend = FP.num c := by
  obtain ⟨fq, hfq⟩ := hfade ez2
  unfold finalMoveZInterp
  simp only [mkPose_x, mkPose_y, mkPose_z, mkPose_e, FP.sub_num, FP.mul_num, hfq]
  refine fp_cases_final _ _ ?_
  refine FP.mul_notInf _ _ ?_ rfl
  refine FP.add_notInf _ _ ?_ ?_
  · exact FP.add_notInf _ _ (hzm _ _)
      (FP.mul_notInf _ _ rfl (FP.sub_notInf _ _ (hzm _ _) (hzm _ _)))
  · refine FP.mul_notInf _ _ (FP.sub_notInf _ _ ?_ ?_) rfl
    · exact FP.add_notInf _ _ (hzm _ _)
        (FP.mul_notInf _ _ rfl (FP.sub_notInf _ _ (hzm _ _) (hzm _ _)))
    · exact FP.add_notInf _ _ (hzm _ _)
        (FP.mul_notInf _ _ rfl (FP.sub_notInf _ _ (hzm _ _) (hzm _ _)))

/-- The FINAL_MOVE Z (off-mesh raise branch included) is finite at a finite
destination on a mesh without infinite samples. -/
theorem finalMoveZ_num (env : Env) (ex2 ey2 ez2 ee2 : ℚ) (iend : ℤ × ℤ)
    (hzm : ∀ i j, (env.z i j).isInf = false)
    (hfade : ∀ q : ℚ, ∃ fq, env.fade (FP.num q) = FP.num fq) :
    ∃ c, finalMoveZ env (mkPose ex2 ey2 ez2 ee2) iend = FP.num c := by
  unfold finalMoveZ
  split
  next =>
    split
    · simp only [mkPose_z, FP.add_num]
      exact ⟨_, rfl⟩
    · exact finalMoveZInterp_num env ex2 ey2 ez2 ee2 iend hzm hfade
  next =>
    exact finalMoveZInterp_num env ex2 ey2 ez2 ee2 iend hzm hfade

theorem corner_nan_prop (a b c d xfr yfr fd : FP)
    (h : a.isNan = true ∨ b.isNan = true ∨ c.isNan = true ∨ d.isNan = true) :
    (((a + xfr * (b - a)) +
        ((c + xfr * (d - c)) - (a + xfr * (b - a))) * yfr) * fd).isNan = true := by
  apply FP.mul_isNan_left
  rcases h with h | h | h | h
  · exact FP.add_isNan_left _ _ (FP.add_isNan_left _ _ h)
  · exact FP.add_isNan_left _ _
      (FP.add_isNan_right _ _ (FP.mul_isNan_right _ _ (FP.sub_isNan_left _ _ h)))
  · exact FP.add_isNan_right _ _ (FP.mul_isNan_left _ _
      (FP.sub_isNan_left _ _ (FP.add_isNan_left _ _ h)))
  · exact FP.add_isNan_right _ _ (FP.mul_isNan_left _ _
      (FP.sub_isNan_left _ _ (FP.add_isNan_right _ _
        (FP.mul_isNan_right _ _ (FP.sub_isNan_left _ _ h)))))

theorem scratch_eq_spec_subst (env : Env) (icx icy : ℤ) (tx ty : ℚ) :
    scratchCorrection env icx icy tx ty =
      spec_bilinear_substituted env icx icy (tx / env.cfg.dx) (ty / env.cfg.dy) := by
  unfold scratchCorrection spec_bilinear_substituted
  ring

/-- C2 (amended: the splitter's same-cell bilinear path does not substitute
per corner — an undefined corner sample makes the whole interpolation NaN and
the correction is then coerced to zero, so the emitted Z is the uncorrected
destination Z, which differs from the zero-substituted recompute; the
fixed-length segmenter's per-cell setup does substitute zero per corner, and
its correction equals the substituted recompute exactly; in neither path is a
NaN ever applied): with any of the four corner samples of the destination
cell undefined, the same-cell splitter emits the destination with no
correction, and the segmenter's per-cell correction always equals the
fade-scaled zero-substituted bilinear recompute. -/
theorem C2_undefined_sample_handling (env : Env) (cx cy cz ce ex ey ez ee : ℚ)
    (hz : ∀ i j, (env.z i j).isInf = false)
    (hzr : env.cfg.zRaise = none)
    (hsame : cell_indexes env.cfg (mkPose cx cy cz ce) =
      cell_indexes env.cfg (mkPose ex ey ez ee))
    (hnan : (env.z (cell_indexes env.cfg (mkPose ex ey ez ee)).1
        (cell_indexes env.cfg (mkPose ex ey ez ee)).2).isNan = true ∨
      (env.z ((cell_indexes env.cfg (mkPose ex ey ez ee)).1 + 1)
        (cell_indexes env.cfg (mkPose ex ey ez ee)).2).isNan = true ∨
      (env.z (cell_indexes env.cfg (mkPose ex ey ez ee)).1
        ((cell_indexes env.cfg (mkPose ex ey ez ee)).2 + 1)).isNan = true ∨
      (env.z ((cell_indexes env.cfg (mkPose ex ey ez ee)).1 + 1)
        ((cell_indexes env.cfg (mkPose ex ey ez ee)).2 + 1)).isNan = true) :
    (line_to_destination_cartesian env (mkPose cx cy cz ce)
      (mkPose ex ey ez ee)).emits = [⟨FP.num ex, FP.num ey, FP.num ez, FP.num ee⟩] ∧
    (∀ f du dv dw de2 rx ry rz re : ℚ,
      ((cellSetup env (mkPose du dv dw de2) (mkPose rx ry rz re)).zcxy0 +
        (cellSetup env (mkPose du dv dw de2) (mkPose rx ry rz re)).zcxym *
        (cellSetup env (mkPose du dv dw de2) (mkPose rx ry rz re)).cellY) * FP.num f =
      FP.num (f * spec_bilinear_substituted env
        (max 0 (min env.cfg.cellsX ⌊(rx - env.cfg.minX) / env.cfg.dx⌋))
        (max 0 (min env.cfg.cellsY ⌊(ry - env.cfg.minY) / env.cfg.dy⌋))
        ((rx - get_mesh_x env.cfg
          (max 0 (min env.cfg.cellsX ⌊(rx - env.cfg.minX) / env.cfg.dx⌋))) / env.cfg.dx)
        ((ry - get_mesh_y env.cfg
          (max 0 (min env.cfg.cellsY ⌊(ry - env.cfg.minY) / env.cfg.dy⌋))) / env.cfg.dy))) := by
  constructor
  · unfold line_to_destination_cartesian
    rw [if_pos hsame]
    unfold finalMove
    rw [hzr]
    simp only [finalMoveInterp]
    rw [if_pos (corner_nan_prop _ _ _ _ _ _ _ hnan)]
    rfl
  · intro f du dv dw de2 rx ry rz re
    rw [cellSetup_eq_csFor env du dv dw de2 rx ry rz re hz, csFor_correction,
      scratch_eq_spec_subst]

/-- C1: for a move whose start and destination map to the same mesh cell,
`line_to_destination_cartesian` emits exactly one sub-move, whose XY equals
the destination XY and whose Z is the destination Z plus the fade scaling
factor at the destination Z times the full bilinear interpolation of the
four (defined) corner samples of the destination cell at the destination's
fractional position within the cell; `current_position` is then the
destination.  (Stated in the configuration without
`UBL_Z_RAISE_WHEN_OFF_MESH` and with the four corner samples defined.) -/
theorem C1_same_cell_idempotence (env : Env)
    (cx cy cz ce ex ey ez ee q00 q10 q01 q11 fq : ℚ)
    (hzr : env.cfg.zRaise = none)
    (hsame : cell_indexes env.cfg (mkPose cx cy cz ce) =
      cell_indexes env.cfg (mkPose ex ey ez ee))
    (h00 : env.z (cell_indexes env.cfg (mkPose ex ey ez ee)).1
      (cell_indexes env.cfg (mkPose ex ey ez ee)).2 = FP.num q00)
    (h10 : env.z ((cell_indexes env.cfg (mkPose ex ey ez ee)).1 + 1)
      (cell_indexes env.cfg (mkPose ex ey ez ee)).2 = FP.num q10)
    (h01 : env.z (cell_indexes env.cfg (mkPose ex ey ez ee)).1
      ((cell_indexes env.cfg (mkPose ex ey ez ee)).2 + 1) = FP.num q01)
    (h11 : env.z ((cell_indexes env.cfg (mkPose ex ey ez ee)).1 + 1)
      ((cell_indexes env.cfg (mkPose ex ey ez ee)).2 + 1) = FP.num q11)
    (hfade : env.fade (FP.num ez) = FP.num fq) :
    (line_to_destination_cartesian env (mkPose cx cy cz ce)
        (mkPose ex ey ez ee)).emits =
      [⟨FP.num ex, FP.num ey,
        FP.num (ez + fq *
          ((q00 + (ex - get_mesh_x env.cfg
              (cell_indexes env.cfg (mkPose ex ey ez ee)).1) * (1 / env.cfg.dx) *
              (q10 - q00)) +
            ((q01 + (ex - get_mesh_x env.cfg
                (cell_indexes env.cfg (mkPose ex ey ez ee)).1) * (1 / env.cfg.dx) *
                (q11 - q01)) -
              (q00 + (ex - get_mesh_x env.cfg
                (cell_indexes env.cfg (mkPose ex ey ez ee)).1) * (1 / env.cfg.dx) *
                (q10 - q00))) *
            ((ey - get_mesh_y env.cfg
              (cell_indexes env.cfg (mkPose ex ey ez ee)).2) * (1 / env.cfg.dy)))),
        FP.num ee⟩] ∧
    (line_to_destination_cartesian env (mkPose cx cy cz ce)
        (mkPose ex ey ez ee)).curpos = mkPose ex ey ez ee := by
  unfold line_to_destination_cartesian
  rw [if_pos hsame]
  unfold finalMove
  rw [hzr]
  simp only [finalMoveInterp, mkPose_x, mkPose_y, mkPose_z, mkPose_e]
  rw [h00, h10, h01, h11, hfade]
  simp only [FP.sub_num, FP.mul_num, FP.add_num, FP.isNan_num, Bool.false_eq_true,
    if_false, List.nil_append]
  constructor
  · simp only [List.cons.injEq, and_true, true_and, Pose.mk.injEq, FP.num.injEq]
    ring
  · trivial

theorem finalMove_eq (env : Env) (dest endp : Pose) (iend : ℤ × ℤ) (acc : List Pose) :
    finalMove env dest endp iend acc =
      ⟨acc ++ [⟨endp.x, endp.y, finalMoveZ env endp iend, endp.e⟩], dest⟩ := by
  unfold finalMove finalMoveZ finalMoveInterp finalMoveZInterp
  split <;> first | rfl | (split <;> rfl)

theorem FP.toQ_eq_of_beq (a b : FP) (h : FP.beq a b = true) : a.toQ = b.toQ := by
  cases a <;> cases b <;> simp_all [FP.beq, FP.toQ]

theorem cell_indexes_eq_of_not_xyNe (cfg : MeshCfg) (p q : Pose)
    (h : Pose.xyNe p q = false) : cell_indexes cfg p = cell_indexes cfg q := by
  simp only [Pose.xyNe, Bool.or_eq_false_iff, Bool.not_eq_false'] at h
  unfold cell_indexes cell_index_x cell_index_y cell_index_x_raw cell_index_y_raw
  rw [FP.toQ_eq_of_beq _ _ h.1, FP.toQ_eq_of_beq _ _ h.2]

theorem xyNe_of_cell_ne (cfg : MeshCfg) (p q : Pose)
    (hne : cell_indexes cfg p ≠ cell_indexes cfg q) : Pose.xyNe p q = true := by
  cases hx : Pose.xyNe p q
  · exact absurd (cell_indexes_eq_of_not_xyNe cfg p q hx) hne
  · rfl

/-- Every run of the splitter ends at the FINAL_MOVE label: whatever crossing
loop ran (or none, in the same-cell case), the result is `finalMove` applied
to the loop's emissions, because after every loop the unchanged
`current_position` still differs from `end` on XY whenever the cells
differ. -/
theorem cart_cases (env : Env) (current destination : Pose)
    (P : CartRes → Prop)
    (hP : ∀ E, P (finalMove env destination destination
      (cell_indexes env.cfg destination) E)) :
    P (line_to_destination_cartesian env current destination) := by
  unfold line_to_destination_cartesian
  by_cases hsame : cell_indexes env.cfg current = cell_indexes env.cfg destination
  · rw [if_pos hsame]
    exact hP []
  · rw [if_neg hsame]
    have hx := xyNe_of_cell_ne env.cfg current destination hsame
    simp only [hx, if_true]
    repeat' split
    all_goals exact hP _

/-- The vertical-within-column loop depends on its context only through the
mesh geometry, the samples, the fade function and the move invariants — in
particular not through the sink's acceptance oracle, whose verdict the loop
ignores. -/
theorem vloop_env_congr (ctx' ctx : CrossCtx)
    (h1 : ctx'.env.cfg = ctx.env.cfg) (h2 : ctx'.env.z = ctx.env.z)
    (h3 : ctx'.env.fade = ctx.env.fade) (h4 : ctx'.start = ctx.start)
    (h5 : ctx'.endp = ctx.endp) (h6 : ctx'.slope = ctx.slope)
    (h7 : ctx'.icpt = ctx.icpt) (h8 : ctx'.zNorm = ctx.zNorm)
    (h9 : ctx'.eNorm = ctx.eNorm) (h10 : ctx'.infNormFlag = ctx.infNormFlag)
    (h11 : ctx'.infSlopeFlag = ctx.infSlopeFlag) (h12 : ctx'.useX = ctx.useX)
    (h13 : ctx'.inegy = ctx.inegy) (h14 : ctx'.iaddy = ctx.iaddy) :
    ∀ icx iendy fuel icy acc,
      vloop ctx' icx iendy fuel icy acc = vloop ctx icx iendy fuel icy acc := by
  intro icx iendy fuel
  induction fuel with
  | zero =>
    intro icy acc
    rfl
  | succ f ih =>
    intro icy acc
    simp only [vloop, z_correction_for_x_on_horizontal_mesh_line, interpZE,
      h1, h2, h3, h4, h5, h6, h7, h8, h9, h10, h11, h12, h13, h14, ih]

/-- After a rejected buffer call the horizontal-within-row loop stops: if the
sink rejects call `j` of the move, the loop never grows the emission list
past `j + 1` entries. -/
theorem hloop_reject_length (ctx : CrossCtx) (icy iendx : ℤ) (j : ℕ)
    (hj : ctx.env.accept j = false) :
    ∀ fuel icx acc, acc.length ≤ j →
      (hloop ctx icy iendx fuel icx acc).length ≤ j + 1 := by
  intro fuel
  induction fuel with
  | zero =>
    intro icx acc hacc
    show acc.length ≤ j + 1
    omega
  | succ f ih =>
    intro icx acc hacc
    simp only [hloop]
    by_cases h1 : icx = iendx + ctx.inegx
    · rw [if_pos h1]
      omega
    · rw [if_neg h1]
      by_cases h2 : FP.beq (FP.num (get_mesh_x ctx.env.cfg (icx + ctx.iaddx)))
          ctx.start.x = true
      · rw [if_pos h2]
        exact ih _ _ hacc
      · rw [if_neg h2]
        by_cases h3 : ctx.env.accept acc.length = true
        · rw [if_pos h3]
          have hne2 : acc.length ≠ j := by
            intro he
            rw [he, hj] at h3
            exact absurd h3 (by simp)
          refine ih _ _ ?_
          simp only [List.length_append, List.length_singleton]
          omega
        · rw [if_neg h3]
          simp only [List.length_append, List.length_singleton]
          omega

/-- After a rejected buffer call the general diagonal loop stops: if the sink
rejects call `j` of the move, the loop never grows the emission list past
`j + 1` entries. -/
theorem gloop_reject_length (ctx : CrossCtx) (j : ℕ)
    (hj : ctx.env.accept j = false) :
    ∀ fuel icx icy cnx cny acc, acc.length ≤ j →
      (gloop ctx fuel icx icy cnx cny acc).length ≤ j + 1 := by
  intro fuel
  induction fuel with
  | zero =>
    intro icx icy cnx cny acc hacc
    show acc.length ≤ j + 1
    omega
  | succ f ih =>
    intro icx icy cnx cny acc hacc
    simp only [gloop]
    by_cases h1 : cnx = 0 ∧ cny = 0
    · rw [if_pos h1]
      omega
    · rw [if_neg h1]
      by_cases h2 : ctx.negx = FP.lt (FP.num (get_mesh_x ctx.env.cfg (icx + ctx.iaddx)))
          ((FP.num (get_mesh_y ctx.env.cfg (icy + ctx.iaddy)) - ctx.icpt) / ctx.slope)
      · rw [if_pos h2]
        by_cases h3 : ctx.env.accept acc.length = true
        · rw [h3]
          simp only [Bool.not_true, Bool.false_eq_true, if_false]
          have hne2 : acc.length ≠ j := by
            intro he
            rw [he, hj] at h3
            exact absurd h3 (by simp)
          by_cases h4 : cnx < 0 ∨ cny - 1 < 0
          · rw [if_pos h4]
            simp only [List.length_append, List.length_singleton]
            omega
          · rw [if_neg h4]
            refine ih _ _ _ _ _ ?_
            simp only [List.length_append, List.length_singleton]
            omega
        · have h3f : ctx.env.accept acc.length = false := by
            cases hb : ctx.env.accept acc.length
            · rfl
            · exact absurd hb h3
          rw [h3f]
          simp only [Bool.not_false, if_true]
          simp only [List.length_append, List.length_singleton]
          omega
      · rw [if_neg h2]
        by_cases h3 : ctx.env.accept acc.length = true
        · rw [h3]
          simp only [Bool.not_true, Bool.false_eq_true, if_false]
          have hne2 : acc.length ≠ j := by
            intro he
            rw [he, hj] at h3
            exact absurd h3 (by simp)
          by_cases h4 : cnx - 1 < 0 ∨ cny < 0
          · rw [if_pos h4]
            simp only [List.length_append, List.length_singleton]
            omega
          · rw [if_neg h4]
            refine ih _ _ _ _ _ ?_
            simp only [List.length_append, List.length_singleton]
            omega
        · have h3f : ctx.env.accept acc.length = false := by
            cases hb : ctx.env.accept acc.length
            · rfl
            · exact absurd hb h3
          rw [h3f]
          simp only [Bool.not_false, if_true]
          simp only [List.length_append, List.length_singleton]
          omega

theorem iadd_if_ne_zero (b : Bool) :
    ((if b = true then (-1 : ℤ) else 1) = 0) = False := by
  cases b <;> simp

/-- Division of a nonzero finite value by zero gives a signed infinity. -/
theorem FP.div_zero_inf (a : ℚ) (ha : a ≠ 0) :
    FP.num a / FP.num 0 = FP.inf (decide (0 < a)) := by
  show FP.div _ _ = _
  simp [FP.div, ha]

/-- The `use_x_dist` comparison of the splitter evaluates, on finite
distances, to the comparison of the absolute distances. -/
theorem useX_abs (u v : ℚ) :
    FP.lt ((if FP.lt (FP.num v) (FP.num 0) = true then FP.num (-1) else FP.num 1) * FP.num v)
      ((if FP.lt (FP.num u) (FP.num 0) = true then FP.num (-1) else FP.num 1) * FP.num u) =
      decide (|v| < |u|) := by
  simp only [FP.lt_num]
  by_cases hu : u < 0 <;> by_cases hv : v < 0
  · rw [if_pos (decide_eq_true hv), if_pos (decide_eq_true hu)]
    simp only [FP.mul_num, FP.lt_num]
    rw [abs_of_neg hu, abs_of_neg hv]
    simp only [decide_eq_decide]
    constructor <;> intro h <;> linarith
  · rw [if_neg (by simp only [decide_eq_true_eq]; exact hv), if_pos (decide_eq_true hu)]
    simp only [FP.mul_num, FP.lt_num]
    rw [abs_of_neg hu, abs_of_nonneg (le_of_not_lt hv)]
    simp only [decide_eq_decide]
    constructor <;> intro h <;> linarith
  · rw [if_pos (decide_eq_true hv), if_neg (by simp only [decide_eq_true_eq]; exact hu)]
    simp only [FP.mul_num, FP.lt_num]
    rw [abs_of_nonneg (le_of_not_lt hu), abs_of_neg hv]
    simp only [decide_eq_decide]
    constructor <;> intro h <;> linarith
  · rw [if_neg (by simp only [decide_eq_true_eq]; exact hv),
      if_neg (by simp only [decide_eq_true_eq]; exact hu)]
    simp only [FP.mul_num, FP.lt_num]
    rw [abs_of_nonneg (le_of_not_lt hu), abs_of_nonneg (le_of_not_lt hv)]
    simp only [decide_eq_decide]
    constructor <;> intro h <;> linarith

/-- C6 (amended: the final emitted pose agrees with the requested destination
in X, Y and E on every path, but its Z is the destination Z plus the applied
leveling correction, not the destination Z itself; only the segmenter's
non-leveling path emits the destination pose exactly; the segmenter's last
raw pose is snapped to the destination rather than accumulated, so the
emitted corrections sit on the exact destination coordinates): every
splitter run ends with the FINAL_MOVE emission at the destination XY and E
with the FINAL_MOVE Z, and leaves `current_position` at the destination; the
segmenter's non-leveling path ends with exactly the destination pose, and its
leveling path ends with the destination XY and E and the destination Z plus
the fade-scaled cell correction at the destination. -/
theorem C6_destination_exactness (env : Env) (cx cy cz ce ex ey ez ee fq : ℚ)
    (hz : ∀ i j, (env.z i j).isInf = false)
    (hcx : 0 ≤ env.cfg.cellsX) (hcy : 0 ≤ env.cfg.cellsY)
    (hreach : env.reachable (mkPose ex ey ez ee) = true)
    (hfade : env.fade (FP.num ez) = FP.num fq) :
    ((line_to_destination_cartesian env (mkPose cx cy cz ce)
        (mkPose ex ey ez ee)).curpos = mkPose ex ey ez ee ∧
      (line_to_destination_cartesian env (mkPose cx cy cz ce)
          (mkPose ex ey ez ee)).emits.getLast? =
        some ⟨FP.num ex, FP.num ey,
          finalMoveZ env (mkPose ex ey ez ee)
            (cell_indexes env.cfg (mkPose ex ey ez ee)), FP.num ee⟩) ∧
    ((!env.levelingActive || !env.levelingActiveAtZ (FP.num ez)) = true →
      (line_to_destination_segmented env (mkPose cx cy cz ce)
          (mkPose ex ey ez ee)).emits.getLast? = some (mkPose ex ey ez ee)) ∧
    (env.levelingActive = true → env.levelingActiveAtZ (FP.num ez) = true →
      ∃ icx icy, 0 ≤ icx ∧ icx ≤ env.cfg.cellsX ∧ 0 ≤ icy ∧ icy ≤ env.cfg.cellsY ∧
        (line_to_destination_segmented env (mkPose cx cy cz ce)
            (mkPose ex ey ez ee)).emits.getLast? =
          some ⟨FP.num ex, FP.num ey,
            FP.num (ez + fq * scratchCorrection env icx icy
              (ex - get_mesh_x env.cfg icx) (ey - get_mesh_y env.cfg icy)),
            FP.num ee⟩) := by
  refine ⟨?_, ?_, ?_⟩
  · exact cart_cases env (mkPose cx cy cz ce) (mkPose ex ey ez ee)
      (fun r => r.curpos = mkPose ex ey ez ee ∧
        r.emits.getLast? = some ⟨FP.num ex, FP.num ey,
          finalMoveZ env (mkPose ex ey ez ee)
            (cell_indexes env.cfg (mkPose ex ey ez ee)), FP.num ee⟩)
      (fun E => by rw [finalMove_eq]; exact ⟨rfl, List.getLast?_concat _⟩)
  · intro hplain
    rw [segmented_run_eq env cx cy cz ce ex ey ez ee hreach, if_pos hplain]
    exact List.getLast?_concat _
  · intro hlev1 hlev2
    obtain ⟨n, hn1, hlen, hget⟩ :=
      segmented_leveled_emits env cx cy cz ce ex ey ez ee fq hz hcx hcy hreach hlev1 hlev2 hfade
    have hk : n - 1 < (line_to_destination_segmented env (mkPose cx cy cz ce)
        (mkPose ex ey ez ee)).emits.length := by omega
    obtain ⟨icx, icy, b1, b2, b3, b4, hg⟩ := hget (n - 1) hk
    refine ⟨icx, icy, b1, b2, b3, b4, ?_⟩
    have hlast : (line_to_destination_segmented env (mkPose cx cy cz ce)
        (mkPose ex ey ez ee)).emits.getLast? =
        some ((line_to_destination_segmented env (mkPose cx cy cz ce)
          (mkPose ex ey ez ee)).emits.get ⟨n - 1, hk⟩) := by
      rw [List.getLast?_eq_getElem?, List.getElem?_eq_getElem (by omega)]
      simp [hlen]
    rw [hlast, hg]
    have hnq : ((n : ℕ) : ℚ) ≠ 0 := by
      have : (0 : ℕ) < n := hn1
      exact_mod_cast this.ne.symm
    have hc : ((n - 1 : ℕ) : ℚ) + 1 = (n : ℚ) := by
      push_cast [Nat.cast_sub hn1]
      ring
    have hax : cx + (((n - 1 : ℕ) : ℚ) + 1) * ((ex - cx) / (n : ℚ)) = ex := by
      rw [hc]; field_simp
    have hay : cy + (((n - 1 : ℕ) : ℚ) + 1) * ((ey - cy) / (n : ℚ)) = ey := by
      rw [hc]; field_simp
    have haz : cz + (((n - 1 : ℕ) : ℚ) + 1) * ((ez - cz) / (n : ℚ)) = ez := by
      rw [hc]; field_simp
    have hae : ce + (((n - 1 : ℕ) : ℚ) + 1) * ((ee - ce) / (n : ℚ)) = ee := by
      rw [hc]; field_simp
    rw [hax, hay, haz, hae]

/-- The z/e interpolation yields finite values at a finite crossing point
when the move endpoints and the normalized rates are finite (the degenerate
branch uses the destination values directly). -/
theorem interpZE_num (ctx : CrossCtx) (sx sy sz se dz de2 : ℚ)
    (hsta : ctx.start = mkPose sx sy sz se)
    (hez : ctx.endp.z = FP.num dz) (hee : ctx.endp.e = FP.num de2)
    (hzn : ∃ zn, ctx.zNorm = FP.num zn) (hen : ∃ en, ctx.eNorm = FP.num en)
    (u v : ℚ) :
    ∃ a b, interpZE ctx (FP.num u) (FP.num v) = (FP.num a, FP.num b) := by
  unfold interpZE
  by_cases hn : ctx.infNormFlag = true
  · rw [hn]
    simp only [Bool.not_true, Bool.false_eq_true, if_false]
    rw [hez, hee]
    exact ⟨dz, de2, rfl⟩
  · have hn2 : ctx.infNormFlag = false := by
      cases hb : ctx.infNormFlag
      · rfl
      · exact absurd hb hn
    obtain ⟨zn, hzn'⟩ := hzn
    obtain ⟨en, hen'⟩ := hen
    rw [hn2]
    simp only [Bool.not_false, if_true]
    rw [hsta, hzn', hen']
    by_cases hu : ctx.useX = true
    · rw [if_pos hu]
      simp only [mkPose_x, mkPose_z, mkPose_e, FP.sub_num, FP.mul_num, FP.add_num]
      exact ⟨_, _, rfl⟩
    · rw [if_neg hu]
      simp only [mkPose_y, mkPose_z, mkPose_e, FP.sub_num, FP.mul_num, FP.add_num]
      exact ⟨_, _, rfl⟩

/-- Every sub-move emitted by the vertical-within-column loop has four
finite coordinates, given a finite move, finite interpolation invariants and
a mesh without infinite samples. -/
theorem vloop_emits_num (ctx : CrossCtx) (icx iendy : ℤ) (sx sy sz se dz de2 : ℚ)
    (hsta : ctx.start = mkPose sx sy sz se)
    (hez : ctx.endp.z = FP.num dz) (hee : ctx.endp.e = FP.num de2)
    (hzm : ∀ i j, (ctx.env.z i j).isInf = false)
    (hfade : ∀ q : ℚ, ∃ fq, ctx.env.fade (FP.num q) = FP.num fq)
    (hslope : ctx.infSlopeFlag = false → ∃ s, s ≠ 0 ∧ ctx.slope = FP.num s)
    (hicpt : ctx.infSlopeFlag = false → ∃ ic, ctx.icpt = FP.num ic)
    (hnorm : (∃ zn, ctx.zNorm = FP.num zn) ∧ (∃ en, ctx.eNorm = FP.num en)) :
    ∀ fuel icy acc, (∀ p ∈ acc, Pose.allNum p) →
      ∀ p ∈ vloop ctx icx iendy fuel icy acc, Pose.allNum p := by
  intro fuel
  induction fuel with
  | zero =>
    intro icy acc hacc
    exact hacc
  | succ f ih =>
    intro icy acc hacc
    simp only [vloop]
    by_cases h1 : icy = iendy + ctx.inegy
    · rw [if_pos h1]
      exact hacc
    · rw [if_neg h1]
      have hdxv : ∃ dq, (if ctx.infSlopeFlag = true then ctx.start.x
          else (FP.num (get_mesh_y ctx.env.cfg (icy + ctx.iaddy)) - ctx.icpt) / ctx.slope) =
          FP.num dq := by
        by_cases hf : ctx.infSlopeFlag = true
        · rw [if_pos hf, hsta]
          exact ⟨sx, rfl⟩
        · have hf2 : ctx.infSlopeFlag = false := by
            cases hb : ctx.infSlopeFlag
            · rfl
            · exact absurd hb hf
          obtain ⟨s, hs0, hs⟩ := hslope hf2
          obtain ⟨ic, hic⟩ := hicpt hf2
          rw [if_neg hf, hs, hic, FP.sub_num, FP.div_num _ _ hs0]
          exact ⟨_, rfl⟩
      obtain ⟨dq, hdq⟩ := hdxv
      rw [hdq]
      by_cases h2 : FP.beq (FP.num (get_mesh_y ctx.env.cfg (icy + ctx.iaddy)))
          ctx.start.y = true
      · rw [if_pos h2]
        exact ih _ _ hacc
      · rw [if_neg h2]
        refine ih _ _ ?_
        intro p hp
        rcases List.mem_append.mp hp with hp2 | hp2
        · exact hacc p hp2
        · have hpe := List.mem_singleton.mp hp2
          subst hpe
          obtain ⟨zc, hzc⟩ := z_corr_x_num ctx.env dq icx (icy + ctx.iaddy) hzm
          obtain ⟨fq, hfq⟩ := hfade dz
          obtain ⟨⟨zn, hzn⟩, ⟨en, hen⟩⟩ := hnorm
          have hzde : ∃ a b, interpZE ctx (FP.num dq)
              (FP.num (get_mesh_y ctx.env.cfg (icy + ctx.iaddy))) =
              (FP.num a, FP.num b) := by
            unfold interpZE
            by_cases hn : ctx.infNormFlag = true
            · rw [hn]
              simp only [Bool.not_true, Bool.false_eq_true, if_false]
              rw [hez, hee]
              exact ⟨dz, de2, rfl⟩
            · have hn2 : ctx.infNormFlag = false := by
                cases hb : ctx.infNormFlag
                · rfl
                · exact absurd hb hn
              rw [hn2]
              simp only [Bool.not_false, if_true]
              rw [hsta, hzn, hen]
              by_cases hu : ctx.useX = true
              · rw [if_pos hu]
                simp only [mkPose_x, mkPose_z, mkPose_e, FP.sub_num, FP.mul_num, FP.add_num]
                exact ⟨_, _, rfl⟩
              · rw [if_neg hu]
                simp only [mkPose_y, mkPose_z, mkPose_e, FP.sub_num, FP.mul_num, FP.add_num]
                exact ⟨_, _, rfl⟩
          obtain ⟨a, b, hab⟩ := hzde
          refine ⟨⟨dq, rfl⟩, ⟨_, rfl⟩, ?_, ?_⟩
          · simp only [Pose.z_mk, hab, hez, hzc, hfq, FP.mul_num, FP.isNan_num,
              Bool.false_eq_true, if_false, FP.add_num]
            exact ⟨_, rfl⟩
          · simp only [Pose.e_mk, hab]
            exact ⟨b, rfl⟩

/-- Every sub-move emitted by the horizontal-within-row loop has four finite
coordinates, given a finite move, finite line invariants and a mesh without
infinite samples. -/
theorem hloop_emits_num (ctx : CrossCtx) (icy iendx : ℤ) (sx sy sz se dz de2 : ℚ)
    (hsta : ctx.start = mkPose sx sy sz se)
    (hez : ctx.endp.z = FP.num dz) (hee : ctx.endp.e = FP.num de2)
    (hzm : ∀ i j, (ctx.env.z i j).isInf = false)
    (hfade : ∀ q : ℚ, ∃ fq, ctx.env.fade (FP.num q) = FP.num fq)
    (hslope : ∃ s, ctx.slope = FP.num s)
    (hicpt : ∃ ic, ctx.icpt = FP.num ic)
    (hnorm : (∃ zn, ctx.zNorm = FP.num zn) ∧ (∃ en, ctx.eNorm = FP.num en)) :
    ∀ fuel icx acc, (∀ p ∈ acc, Pose.allNum p) →
      ∀ p ∈ hloop ctx icy iendx fuel icx acc, Pose.allNum p := by
  obtain ⟨s, hs⟩ := hslope
  obtain ⟨ic, hic⟩ := hicpt
  have hcomp : ∀ (u v : ℚ) (xi y1i : ℤ),
      Pose.allNum ⟨FP.num u, FP.num v,
        (interpZE ctx (FP.num u) (FP.num v)).1 +
          (if (z_correction_for_y_on_vertical_mesh_line ctx.env (FP.num v) xi y1i *
              ctx.env.fade ctx.endp.z).isNan = true then FP.num 0
            else z_correction_for_y_on_vertical_mesh_line ctx.env (FP.num v) xi y1i *
              ctx.env.fade ctx.endp.z),
        (interpZE ctx (FP.num u) (FP.num v)).2⟩ := by
    intro u v xi y1i
    obtain ⟨a, b, hab⟩ :=
      interpZE_num ctx sx sy sz se dz de2 hsta hez hee hnorm.1 hnorm.2 u v
    obtain ⟨zc, hzc⟩ := z_corr_y_num ctx.env v xi y1i hzm
    obtain ⟨fq, hfq⟩ := hfade dz
    refine ⟨⟨u, rfl⟩, ⟨v, rfl⟩, ?_, ?_⟩
    · simp only [Pose.z_mk, hab, hez, hzc, hfq, FP.mul_num, FP.isNan_num,
        Bool.false_eq_true, if_false, FP.add_num]
      exact ⟨_, rfl⟩
    · simp only [Pose.e_mk, hab]
      exact ⟨b, rfl⟩
  intro fuel
  induction fuel with
  | zero =>
    intro icx acc hacc
    exact hacc
  | succ f ih =>
    intro icx acc hacc
    simp only [hloop, hs, hic, FP.mul_num, FP.add_num]
    by_cases h1 : icx = iendx + ctx.inegx
    · rw [if_pos h1]
      exact hacc
    · rw [if_neg h1]
      by_cases h2 : FP.beq (FP.num (get_mesh_x ctx.env.cfg (icx + ctx.iaddx)))
          ctx.start.x = true
      · rw [if_pos h2]
        exact ih _ _ hacc
      · rw [if_neg h2]
        by_cases h3 : ctx.env.accept acc.length = true
        · rw [if_pos h3]
          refine ih _ _ ?_
          intro p hp
          rcases List.mem_append.mp hp with hp2 | hp2
          · exact hacc p hp2
          · have hpe := List.mem_singleton.mp hp2
            subst hpe
            exact hcomp _ _ _ _
        · rw [if_neg h3]
          intro p hp
          rcases List.mem_append.mp hp with hp2 | hp2
          · exact hacc p hp2
          · have hpe := List.mem_singleton.mp hp2
            subst hpe
            exact hcomp _ _ _ _

/-- Every sub-move emitted by the general diagonal loop has four finite
coordinates, given a finite move, finite line invariants with a nonzero
slope, and a mesh without infinite samples. -/
theorem gloop_emits_num (ctx : CrossCtx) (sx sy sz se dz de2 : ℚ)
    (hsta : ctx.start = mkPose sx sy sz se)
    (hez : ctx.endp.z = FP.num dz) (hee : ctx.endp.e = FP.num de2)
    (hzm : ∀ i j, (ctx.env.z i j).isInf = false)
    (hfade : ∀ q : ℚ, ∃ fq, ctx.env.fade (FP.num q) = FP.num fq)
    (hslope : ∃ s, s ≠ 0 ∧ ctx.slope = FP.num s)
    (hicpt : ∃ ic, ctx.icpt = FP.num ic)
    (hnorm : (∃ zn, ctx.zNorm = FP.num zn) ∧ (∃ en, ctx.eNorm = FP.num en)) :
    ∀ fuel icx icy cnx cny acc, (∀ p ∈ acc, Pose.allNum p) →
      ∀ p ∈ gloop ctx fuel icx icy cnx cny acc, Pose.allNum p := by
  obtain ⟨s, hs0, hs⟩ := hslope
  obtain ⟨ic, hic⟩ := hicpt
  have hdiv : ∀ w : ℚ, FP.num w / FP.num s = FP.num (w / s) :=
    fun w => FP.div_num w s hs0
  have hcompX : ∀ (u v : ℚ) (x1i yi : ℤ),
      Pose.allNum ⟨FP.num u, FP.num v,
        (interpZE ctx (FP.num u) (FP.num v)).1 +
          (if (z_correction_for_x_on_horizontal_mesh_line ctx.env (FP.num u) x1i yi *
              ctx.env.fade ctx.endp.z).isNan = true then FP.num 0
            else z_correction_for_x_on_horizontal_mesh_line ctx.env (FP.num u) x1i yi *
              ctx.env.fade ctx.endp.z),
        (interpZE ctx (FP.num u) (FP.num v)).2⟩ := by
    intro u v x1i yi
    obtain ⟨a, b, hab⟩ :=
      interpZE_num ctx sx sy sz se dz de2 hsta hez hee hnorm.1 hnorm.2 u v
    obtain ⟨zc, hzc⟩ := z_corr_x_num ctx.env u x1i yi hzm
    obtain ⟨fq, hfq⟩ := hfade dz
    refine ⟨⟨u, rfl⟩, ⟨v, rfl⟩, ?_, ?_⟩
    · simp only [Pose.z_mk, hab, hez, hzc, hfq, FP.mul_num, FP.isNan_num,
        Bool.false_eq_true, if_false, FP.add_num]
      exact ⟨_, rfl⟩
    · simp only [Pose.e_mk, hab]
      exact ⟨b, rfl⟩
  have hcompY : ∀ (u v : ℚ) (xi y1i : ℤ),
      Pose.allNum ⟨FP.num u, FP.num v,
        (interpZE ctx (FP.num u) (FP.num v)).1 +
          (if (z_correction_for_y_on_vertical_mesh_line ctx.env (FP.num v) xi y1i *
              ctx.env.fade ctx.endp.z).isNan = true then FP.num 0
            else z_correction_for_y_on_vertical_mesh_line ctx.env (FP.num v) xi y1i *
              ctx.env.fade ctx.endp.z),
        (interpZE ctx (FP.num u) (FP.num v)).2⟩ := by
    intro u v xi y1i
    obtain ⟨a, b, hab⟩ :=
      interpZE_num ctx sx sy sz se dz de2 hsta hez hee hnorm.1 hnorm.2 u v
    obtain ⟨zc, hzc⟩ := z_corr_y_num ctx.env v xi y1i hzm
    obtain ⟨fq, hfq⟩ := hfade dz
    refine ⟨⟨u, rfl⟩, ⟨v, rfl⟩, ?_, ?_⟩
    · simp only [Pose.z_mk, hab, hez, hzc, hfq, FP.mul_num, FP.isNan_num,
        Bool.false_eq_true, if_false, FP.add_num]
      exact ⟨_, rfl⟩
    · simp only [Pose.e_mk, hab]
      exact ⟨b, rfl⟩
  intro fuel
  induction fuel with
  | zero =>
    intro icx icy cnx cny acc hacc
    exact hacc
  | succ f ih =>
    intro icx icy cnx cny acc hacc
    simp only [gloop, hs, hic, FP.sub_num, FP.mul_num, FP.add_num, hdiv]
    by_cases h1 : cnx = 0 ∧ cny = 0
    · rw [if_pos h1]
      exact hacc
    · rw [if_neg h1]
      by_cases h2 : ctx.negx = FP.lt (FP.num (get_mesh_x ctx.env.cfg (icx + ctx.iaddx)))
          (FP.num ((get_mesh_y ctx.env.cfg (icy + ctx.iaddy) - ic) / s))
      · rw [if_pos h2]
        by_cases h3 : ctx.env.accept acc.length = true
        · rw [h3]
          simp only [Bool.not_true, Bool.false_eq_true, if_false]
          by_cases h4 : cnx < 0 ∨ cny - 1 < 0
          · rw [if_pos h4]
            intro p hp
            rcases List.mem_append.mp hp with hp2 | hp2
            · exact hacc p hp2
            · have hpe := List.mem_singleton.mp hp2
              subst hpe
              exact hcompX _ _ _ _
          · rw [if_neg h4]
            refine ih _ _ _ _ _ ?_
            intro p hp
            rcases List.mem_append.mp hp with hp2 | hp2
            · exact hacc p hp2
            · have hpe := List.mem_singleton.mp hp2
              subst hpe
              exact hcompX _ _ _ _
        · have h3f : ctx.env.accept acc.length = false := by
            cases hb : ctx.env.accept acc.length
            · rfl
            · exact absurd hb h3
          rw [h3f]
          simp only [Bool.not_false, if_true]
          intro p hp
          rcases List.mem_append.mp hp with hp2 | hp2
          · exact hacc p hp2
          · have hpe := List.mem_singleton.mp hp2
            subst hpe
            exact hcompX _ _ _ _
      · rw [if_neg h2]
        by_cases h3 : ctx.env.accept acc.length = true
        · rw [h3]
          simp only [Bool.not_true, Bool.false_eq_true, if_false]
          by_cases h4 : cnx - 1 < 0 ∨ cny < 0
          · rw [if_pos h4]
            intro p hp
            rcases List.mem_append.mp hp with hp2 | hp2
            · exact hacc p hp2
            · have hpe := List.mem_singleton.mp hp2
              subst hpe
              exact hcompY _ _ _ _
          · rw [if_neg h4]
            refine ih _ _ _ _ _ ?_
            intro p hp
            rcases List.mem_append.mp hp with hp2 | hp2
            · exact hacc p hp2
            · have hpe := List.mem_singleton.mp hp2
              subst hpe
              exact hcompY _ _ _ _
        · have h3f : ctx.env.accept acc.length = false := by
            cases hb : ctx.env.accept acc.length
            · rfl
            · exact absurd hb h3
          rw [h3f]
          simp only [Bool.not_false, if_true]
          intro p hp
          rcases List.mem_append.mp hp with hp2 | hp2
          · exact hacc p hp2
          · have hpe := List.mem_singleton.mp hp2
            subst hpe
            exact hcompY _ _ _ _

theorem qdiv_le_div_pos (a b c2 : ℚ) (hc : 0 < c2) (h : a ≤ b) : a / c2 ≤ b / c2 := by
  rw [div_eq_mul_inv, div_eq_mul_inv]
  exact mul_le_mul_of_nonneg_right h (inv_pos.mpr hc).le

theorem qdiv_lt_div_pos (a b c2 : ℚ) (hc : 0 < c2) (h : a < b) : a / c2 < b / c2 := by
  rw [div_eq_mul_inv, div_eq_mul_inv]
  exact mul_lt_mul_of_pos_right h (inv_pos.mpr hc)

theorem qdiv_le_div_neg (a b c2 : ℚ) (hc : c2 < 0) (h : a ≤ b) : b / c2 ≤ a / c2 := by
  rw [div_eq_mul_inv, div_eq_mul_inv]
  exact mul_le_mul_of_nonpos_right h (inv_nonpos.mpr hc.le)

theorem qdiv_lt_div_neg (a b c2 : ℚ) (hc : c2 < 0) (h : a < b) : b / c2 < a / c2 := by
  rw [div_eq_mul_inv, div_eq_mul_inv]
  exact mul_lt_mul_of_neg_right h (inv_lt_zero.mpr hc)

theorem get_mesh_x_mono (cfg : MeshCfg) (hdx : 0 < cfg.dx) {i j : ℤ} (h : i ≤ j) :
    get_mesh_x cfg i ≤ get_mesh_x cfg j := by
  unfold get_mesh_x
  have hq : (i : ℚ) ≤ (j : ℚ) := by exact_mod_cast h
  nlinarith

theorem get_mesh_y_mono (cfg : MeshCfg) (hdy : 0 < cfg.dy) {i j : ℤ} (h : i ≤ j) :
    get_mesh_y cfg i ≤ get_mesh_y cfg j := by
  unfold get_mesh_y
  have hq : (i : ℚ) ≤ (j : ℚ) := by exact_mod_cast h
  nlinarith

/-- The mesh-line crossing abscissa of the move's own line at the
destination ordinate is the destination abscissa. -/
theorem cross_at_dest (cx2 cy2 ex2 ey2 : ℚ) (hu0 : ex2 - cx2 ≠ 0) (hv0 : ey2 - cy2 ≠ 0) :
    (ey2 - (cy2 - (ey2 - cy2) / (ex2 - cx2) * cx2)) / ((ey2 - cy2) / (ex2 - cx2)) = ex2 := by
  field_simp
  ring

theorem cross_lt_pos (cx2 cy2 ex2 ey2 w : ℚ) (hu0 : ex2 - cx2 ≠ 0) (hv0 : ey2 - cy2 ≠ 0)
    (hs : 0 < (ey2 - cy2) / (ex2 - cx2)) (hw : ey2 < w) :
    ex2 < (w - (cy2 - (ey2 - cy2) / (ex2 - cx2) * cx2)) / ((ey2 - cy2) / (ex2 - cx2)) :=
  calc ex2 = (ey2 - (cy2 - (ey2 - cy2) / (ex2 - cx2) * cx2)) /
      ((ey2 - cy2) / (ex2 - cx2)) := (cross_at_dest cx2 cy2 ex2 ey2 hu0 hv0).symm
    _ < _ := qdiv_lt_div_pos _ _ _ hs (by linarith)

theorem cross_le_pos (cx2 cy2 ex2 ey2 w : ℚ) (hu0 : ex2 - cx2 ≠ 0) (hv0 : ey2 - cy2 ≠ 0)
    (hs : 0 < (ey2 - cy2) / (ex2 - cx2)) (hw : w ≤ ey2) :
    (w - (cy2 - (ey2 - cy2) / (ex2 - cx2) * cx2)) / ((ey2 - cy2) / (ex2 - cx2)) ≤ ex2 :=
  calc (w - (cy2 - (ey2 - cy2) / (ex2 - cx2) * cx2)) / ((ey2 - cy2) / (ex2 - cx2)) ≤
      (ey2 - (cy2 - (ey2 - cy2) / (ex2 - cx2) * cx2)) / ((ey2 - cy2) / (ex2 - cx2)) :=
        qdiv_le_div_pos _ _ _ hs (by linarith)
    _ = ex2 := cross_at_dest cx2 cy2 ex2 ey2 hu0 hv0

theorem cross_lt_neg (cx2 cy2 ex2 ey2 w : ℚ) (hu0 : ex2 - cx2 ≠ 0) (hv0 : ey2 - cy2 ≠ 0)
    (hs : (ey2 - cy2) / (ex2 - cx2) < 0) (hw : ey2 < w) :
    (w - (cy2 - (ey2 - cy2) / (ex2 - cx2) * cx2)) / ((ey2 - cy2) / (ex2 - cx2)) < ex2 :=
  calc (w - (cy2 - (ey2 - cy2) / (ex2 - cx2) * cx2)) / ((ey2 - cy2) / (ex2 - cx2)) <
      (ey2 - (cy2 - (ey2 - cy2) / (ex2 - cx2) * cx2)) / ((ey2 - cy2) / (ex2 - cx2)) :=
        qdiv_lt_div_neg _ _ _ hs (by linarith)
    _ = ex2 := cross_at_dest cx2 cy2 ex2 ey2 hu0 hv0

theorem cross_le_neg (cx2 cy2 ex2 ey2 w : ℚ) (hu0 : ex2 - cx2 ≠ 0) (hv0 : ey2 - cy2 ≠ 0)
    (hs : (ey2 - cy2) / (ex2 - cx2) < 0) (hw : w ≤ ey2) :
    ex2 ≤ (w - (cy2 - (ey2 - cy2) / (ex2 - cx2) * cx2)) / ((ey2 - cy2) / (ex2 - cx2)) :=
  calc ex2 = (ey2 - (cy2 - (ey2 - cy2) / (ex2 - cx2) * cx2)) /
      ((ey2 - cy2) / (ex2 - cx2)) := (cross_at_dest cx2 cy2 ex2 ey2 hu0 hv0).symm
    _ ≤ _ := qdiv_le_div_neg _ _ _ hs (by linarith)

/-- C8: on every emission of the splitter the auxiliary axis and Z are
interpolated linearly along the dominant travel axis (the axis of larger
absolute directional distance), except when the normalized per-distance rate
is infinite, in which case the destination's Z and auxiliary values are used
directly; and for a finite move over a mesh without infinite samples, with a
fade function mapping finite heights to finite factors, every emitted pose of
`line_to_destination_cartesian` has four finite coordinates — in particular
none is NaN (any NaN correction having been coerced to zero before
emission). -/
theorem C8_degenerate_division_guard (env : Env) (cx cy cz ce ex ey ez ee : ℚ)
    (hz : ∀ i j, (env.z i j).isInf = false)
    (hfade : ∀ q : ℚ, ∃ fq, env.fade (FP.num q) = FP.num fq) :
    (∀ (ctx : CrossCtx) (dxv dyv : FP), ctx.infNormFlag = true →
      interpZE ctx dxv dyv = (ctx.endp.z, ctx.endp.e)) ∧
    (∀ (ctx : CrossCtx) (dxv dyv : FP), ctx.infNormFlag = false →
      interpZE ctx dxv dyv =
        (ctx.start.z + (if ctx.useX then dxv - ctx.start.x else dyv - ctx.start.y) * ctx.zNorm,
         ctx.start.e + (if ctx.useX then dxv - ctx.start.x else dyv - ctx.start.y) *
           ctx.eNorm)) ∧
    ∀ p ∈ (line_to_destination_cartesian env (mkPose cx cy cz ce)
      (mkPose ex ey ez ee)).emits, Pose.allNum p := by
  refine ⟨?_, ?_, ?_⟩
  · intro ctx dxv dyv h
    unfold interpZE
    rw [h]
    simp only [Bool.not_true, Bool.false_eq_true, if_false]
  · intro ctx dxv dyv h
    unfold interpZE
    rw [h]
    simp only [Bool.not_false, if_true]
  · unfold line_to_destination_cartesian
    by_cases hsame : cell_indexes env.cfg (mkPose cx cy cz ce) =
        cell_indexes env.cfg (mkPose ex ey ez ee)
    · rw [if_pos hsame, finalMove_eq]
      intro p hp
      rcases List.mem_append.mp hp with hp2 | hp2
      · exact absurd hp2 (List.not_mem_nil p)
      · have hpe := List.mem_singleton.mp hp2
        subst hpe
        obtain ⟨c2, hc2⟩ := finalMoveZ_num env ex ey ez ee
          (cell_indexes env.cfg (mkPose ex ey ez ee)) hz hfade
        exact ⟨⟨ex, rfl⟩, ⟨ey, rfl⟩, ⟨c2, hc2⟩, ⟨ee, rfl⟩⟩
    · rw [if_neg hsame]
      have hxyne := xyNe_of_cell_ne env.cfg _ _ hsame
      simp only [hxyne, if_true, mkPose_x, mkPose_y, mkPose_z, mkPose_e, FP.sub_num]
      have hcoord : ¬(ex - cx = 0 ∧ ey - cy = 0) := by
        rintro ⟨h1, h2⟩
        have hex : ex = cx := by linarith
        subst hex
        have hey : ey = cy := by linarith
        subst hey
        exact hsame rfl
      have hnormF : (∃ zn, FP.num (ez - cz) /
            (if FP.lt ((if FP.lt (FP.num (ey - cy)) (FP.num 0) = true then FP.num (-1)
                  else FP.num 1) * FP.num (ey - cy))
                ((if FP.lt (FP.num (ex - cx)) (FP.num 0) = true then FP.num (-1)
                  else FP.num 1) * FP.num (ex - cx)) = true
              then FP.num (ex - cx) else FP.num (ey - cy)) = FP.num zn) ∧
          (∃ en, FP.num (ee - ce) /
            (if FP.lt ((if FP.lt (FP.num (ey - cy)) (FP.num 0) = true then FP.num (-1)
                  else FP.num 1) * FP.num (ey - cy))
                ((if FP.lt (FP.num (ex - cx)) (FP.num 0) = true then FP.num (-1)
                  else FP.num 1) * FP.num (ex - cx)) = true
              then FP.num (ex - cx) else FP.num (ey - cy)) = FP.num en) := by
        rw [useX_abs]
        by_cases habs : |ey - cy| < |ex - cx|
        · rw [if_pos (decide_eq_true habs)]
          have hu0 : ex - cx ≠ 0 := by
            intro h0
            rw [h0] at habs
            simp only [abs_zero] at habs
            exact absurd habs (not_lt.mpr (abs_nonneg _))
          exact ⟨⟨_, FP.div_num _ _ hu0⟩, ⟨_, FP.div_num _ _ hu0⟩⟩
        · rw [if_neg (by simp only [decide_eq_true_eq]; exact habs)]
          have hv0 : ey - cy ≠ 0 := by
            intro h0
            apply hcoord
            refine ⟨?_, h0⟩
            have hle : |ex - cx| ≤ |ey - cy| := not_lt.mp habs
            rw [h0, abs_zero] at hle
            exact abs_nonpos_iff.mp hle
          exact ⟨⟨_, FP.div_num _ _ hv0⟩, ⟨_, FP.div_num _ _ hv0⟩⟩
      by_cases hix : (cell_indexes env.cfg (mkPose ex ey ez ee)).1 =
          (cell_indexes env.cfg (mkPose cx cy cz ce)).1
      · rw [if_pos hix, if_pos (show (0 : ℤ) = 0 from rfl)]
        have hyne : (cell_indexes env.cfg (mkPose ex ey ez ee)).2 ≠
            (cell_indexes env.cfg (mkPose cx cy cz ce)).2 := by
          intro h2
          exact hsame (Prod.ext hix.symm h2.symm)
        have hvy : ey - cy ≠ 0 := by
          intro h0
          apply hyne
          have hey : ey = cy := by linarith
          subst hey
          rfl
        have hslopeF : (FP.num (ey - cy) / FP.num (ex - cx)).isInf = false →
            ∃ s2, s2 ≠ 0 ∧ FP.num (ey - cy) / FP.num (ex - cx) = FP.num s2 := by
          intro hinf
          by_cases hu0 : ex - cx = 0
          · rw [hu0, FP.div_zero_inf _ hvy] at hinf
            simp [FP.isInf] at hinf
          · exact ⟨(ey - cy) / (ex - cx), div_ne_zero hvy hu0, FP.div_num _ _ hu0⟩
        have hicptF : (FP.num (ey - cy) / FP.num (ex - cx)).isInf = false →
            ∃ ic, FP.num cy - FP.num (ey - cy) / FP.num (ex - cx) * FP.num cx =
              FP.num ic := by
          intro hinf
          by_cases hu0 : ex - cx = 0
          · rw [hu0, FP.div_zero_inf _ hvy] at hinf
            simp [FP.isInf] at hinf
          · rw [FP.div_num _ _ hu0, FP.mul_num, FP.sub_num]
            exact ⟨_, rfl⟩
        rw [finalMove_eq]
        intro p hp
        rcases List.mem_append.mp hp with hp2 | hp2
        · refine vloop_emits_num _ _ _ cx cy cz ce ez ee ?_ ?_ ?_ ?_ ?_ ?_ ?_ ?_
            _ _ _ ?_ p hp2
          · rfl
          · rfl
          · rfl
          · exact hz
          · exact hfade
          · exact hslopeF
          · exact hicptF
          · exact hnormF
          · exact fun q hq => absurd hq (List.not_mem_nil q)
        · have hpe := List.mem_singleton.mp hp2
          subst hpe
          obtain ⟨c2, hc2⟩ := finalMoveZ_num env ex ey ez ee
            (cell_indexes env.cfg (mkPose ex ey ez ee)) hz hfade
          exact ⟨⟨ex, rfl⟩, ⟨ey, rfl⟩, ⟨c2, hc2⟩, ⟨ee, rfl⟩⟩
      · rw [if_neg hix]
        simp only [iadd_if_ne_zero, if_false]
        have hune : ex - cx ≠ 0 := by
          intro h0
          apply hix
          have hex : ex = cx := by linarith
          subst hex
          rfl
        by_cases hiy : (cell_indexes env.cfg (mkPose ex ey ez ee)).2 =
            (cell_indexes env.cfg (mkPose cx cy cz ce)).2
        · rw [if_pos hiy, if_pos (show (0 : ℤ) = 0 from rfl)]
          have hslopeH : ∃ s, FP.num (ey - cy) / FP.num (ex - cx) = FP.num s :=
            ⟨_, FP.div_num _ _ hune⟩
          have hicptH : ∃ ic, FP.num cy - FP.num (ey - cy) / FP.num (ex - cx) *
              FP.num cx = FP.num ic := by
            rw [FP.div_num _ _ hune, FP.mul_num, FP.sub_num]
            exact ⟨_, rfl⟩
          rw [finalMove_eq]
          intro p hp
          rcases List.mem_append.mp hp with hp2 | hp2
          · refine hloop_emits_num _ _ _ cx cy cz ce ez ee ?_ ?_ ?_ ?_ ?_ ?_ ?_ ?_
              _ _ _ ?_ p hp2
            · rfl
            · rfl
            · rfl
            · exact hz
            · exact hfade
            · exact hslopeH
            · exact hicptH
            · exact hnormF
            · exact fun q hq => absurd hq (List.not_mem_nil q)
          · have hpe := List.mem_singleton.mp hp2
            subst hpe
            obtain ⟨c2, hc2⟩ := finalMoveZ_num env ex ey ez ee
              (cell_indexes env.cfg (mkPose ex ey ez ee)) hz hfade
            exact ⟨⟨ex, rfl⟩, ⟨ey, rfl⟩, ⟨c2, hc2⟩, ⟨ee, rfl⟩⟩
        · rw [if_neg hiy]
          simp only [iadd_if_ne_zero, if_false]
          have hvne : ey - cy ≠ 0 := by
            intro h0
            apply hiy
            have hey : ey = cy := by linarith
            subst hey
            rfl
          have hslopeG : ∃ s, s ≠ 0 ∧ FP.num (ey - cy) / FP.num (ex - cx) = FP.num s :=
            ⟨(ey - cy) / (ex - cx), div_ne_zero hvne hune, FP.div_num _ _ hune⟩
          have hicptG : ∃ ic, FP.num cy - FP.num (ey - cy) / FP.num (ex - cx) *
              FP.num cx = FP.num ic := by
            rw [FP.div_num _ _ hune, FP.mul_num, FP.sub_num]
            exact ⟨_, rfl⟩
          rw [finalMove_eq]
          intro p hp
          rcases List.mem_append.mp hp with hp2 | hp2
          · refine gloop_emits_num _ cx cy cz ce ez ee ?_ ?_ ?_ ?_ ?_ ?_ ?_ ?_
              _ _ _ _ _ _ ?_ p hp2
            · rfl
            · rfl
            · rfl
            · exact hz
            · exact hfade
            · exact hslopeG
            · exact hicptG
            · exact hnormF
            · exact fun q hq => absurd hq (List.not_mem_nil q)
          · have hpe := List.mem_singleton.mp hp2
            subst hpe
            obtain ⟨c2, hc2⟩ := finalMoveZ_num env ex ey ez ee
              (cell_indexes env.cfg (mkPose ex ey ez ee)) hz hfade
            exact ⟨⟨ex, rfl⟩, ⟨ey, rfl⟩, ⟨c2, hc2⟩, ⟨ee, rfl⟩⟩

theorem CartRes.emits_mk (l : List Pose) (p : Pose) : (CartRes.mk l p).emits = l := rfl

theorem CartRes.curpos_mk (l : List Pose) (p : Pose) : (CartRes.mk l p).curpos = p := rfl

theorem mesh_x_floor_le (cfg : MeshCfg) (hdx : 0 < cfg.dx) (w : ℚ) :
    get_mesh_x cfg ⌊(w - cfg.minX) / cfg.dx⌋ ≤ w := by
  unfold get_mesh_x
  have h1 : (⌊(w - cfg.minX) / cfg.dx⌋ : ℚ) ≤ (w - cfg.minX) / cfg.dx := Int.floor_le _
  have h2 : (⌊(w - cfg.minX) / cfg.dx⌋ : ℚ) * cfg.dx ≤ (w - cfg.minX) / cfg.dx * cfg.dx :=
    mul_le_mul_of_nonneg_right h1 hdx.le
  rw [div_mul_cancel₀ _ hdx.ne'] at h2
  linarith

theorem mesh_x_floor_lt (cfg : MeshCfg) (hdx : 0 < cfg.dx) (w : ℚ) :
    w < get_mesh_x cfg (⌊(w - cfg.minX) / cfg.dx⌋ + 1) := by
  unfold get_mesh_x
  have h1 : (w - cfg.minX) / cfg.dx < (⌊(w - cfg.minX) / cfg.dx⌋ : ℚ) + 1 :=
    Int.lt_floor_add_one _
  have h2 : (w - cfg.minX) / cfg.dx * cfg.dx <
      ((⌊(w - cfg.minX) / cfg.dx⌋ : ℚ) + 1) * cfg.dx :=
    mul_lt_mul_of_pos_right h1 hdx
  rw [div_mul_cancel₀ _ hdx.ne'] at h2
  push_cast
  linarith

theorem mesh_y_floor_le (cfg : MeshCfg) (hdy : 0 < cfg.dy) (w : ℚ) :
    get_mesh_y cfg ⌊(w - cfg.minY) / cfg.dy⌋ ≤ w := by
  unfold get_mesh_y
  have h1 : (⌊(w - cfg.minY) / cfg.dy⌋ : ℚ) ≤ (w - cfg.minY) / cfg.dy := Int.floor_le _
  have h2 : (⌊(w - cfg.minY) / cfg.dy⌋ : ℚ) * cfg.dy ≤ (w - cfg.minY) / cfg.dy * cfg.dy :=
    mul_le_mul_of_nonneg_right h1 hdy.le
  rw [div_mul_cancel₀ _ hdy.ne'] at h2
  linarith

theorem mesh_y_floor_lt (cfg : MeshCfg) (hdy : 0 < cfg.dy) (w : ℚ) :
    w < get_mesh_y cfg (⌊(w - cfg.minY) / cfg.dy⌋ + 1) := by
  unfold get_mesh_y
  have h1 : (w - cfg.minY) / cfg.dy < (⌊(w - cfg.minY) / cfg.dy⌋ : ℚ) + 1 :=
    Int.lt_floor_add_one _
  have h2 : (w - cfg.minY) / cfg.dy * cfg.dy <
      ((⌊(w - cfg.minY) / cfg.dy⌋ : ℚ) + 1) * cfg.dy :=
    mul_lt_mul_of_pos_right h1 hdy
  rw [div_mul_cancel₀ _ hdy.ne'] at h2
  push_cast
  linarith

/-- Exact emission count of the general diagonal loop: with an
always-accepting sink, finite nonzero distances on both axes, the floor
bounds of the destination cell holding unclamped (the destination strictly
inside the mesh line grid, not on a mesh line), the loop emits exactly
`cnx + cny` sub-moves, each lying on a vertical or a horizontal mesh
line. -/
theorem gloop_count (ctx : CrossCtx) (cx2 cy2 ex2 ey2 : ℚ) (ix1 iy1 : ℤ)
    (hdx : 0 < ctx.env.cfg.dx) (hdy : 0 < ctx.env.cfg.dy)
    (hu0 : ex2 - cx2 ≠ 0) (hv0 : ey2 - cy2 ≠ 0)
    (hacc : ∀ n, ctx.env.accept n = true)
    (hs : ctx.slope = FP.num ((ey2 - cy2) / (ex2 - cx2)))
    (hic : ctx.icpt = FP.num (cy2 - (ey2 - cy2) / (ex2 - cx2) * cx2))
    (hnegx : ctx.negx = decide (ex2 - cx2 < 0))
    (hiaddx : ctx.iaddx = if ex2 - cx2 < 0 then -1 else 1)
    (hiaddy : ctx.iaddy = if ey2 - cy2 < 0 then -1 else 1)
    (hfx0 : get_mesh_x ctx.env.cfg ix1 ≤ ex2)
    (hfx1 : ex2 < get_mesh_x ctx.env.cfg (ix1 + 1))
    (hfy0 : get_mesh_y ctx.env.cfg iy1 ≤ ey2)
    (hfy1 : ey2 < get_mesh_y ctx.env.cfg (iy1 + 1))
    (hgx : get_mesh_x ctx.env.cfg ix1 ≠ ex2)
    (hgy : get_mesh_y ctx.env.cfg iy1 ≠ ey2) :
    ∀ (fuel : ℕ) (cnx cny icx icy : ℤ) (acc : List Pose),
      0 ≤ cnx → 0 ≤ cny → (cnx + cny).toNat < fuel →
      icx = ix1 + (if ex2 - cx2 < 0 then 1 else 0) -
        (if ex2 - cx2 < 0 then -1 else 1) * cnx →
      icy = iy1 + (if ey2 - cy2 < 0 then 1 else 0) -
        (if ey2 - cy2 < 0 then -1 else 1) * cny →
      (((gloop ctx fuel icx icy cnx cny acc).length : ℤ) =
        (acc.length : ℤ) + cnx + cny ∧
      ∀ p ∈ gloop ctx fuel icx icy cnx cny acc, p ∈ acc ∨
        ((∃ i, p.x = FP.num (get_mesh_x ctx.env.cfg i)) ∨
         (∃ j, p.y = FP.num (get_mesh_y ctx.env.cfg j)))) := by
  have hdivnum : ∀ w : ℚ, FP.num w / FP.num ((ey2 - cy2) / (ex2 - cx2)) =
      FP.num (w / ((ey2 - cy2) / (ex2 - cx2))) :=
    fun w => FP.div_num _ _ (div_ne_zero hv0 hu0)
  have hmxlt : get_mesh_x ctx.env.cfg ix1 < ex2 := lt_of_le_of_ne hfx0 hgx
  have hmylt : get_mesh_y ctx.env.cfg iy1 < ey2 := lt_of_le_of_ne hfy0 hgy
  intro fuel
  induction fuel with
  | zero =>
    intro cnx cny icx icy acc h1 h2 h3 _ _
    omega
  | succ f ih =>
    intro cnx cny icx icy acc h1 h2 h3 hicx hicy
    simp only [gloop, hs, hic, FP.sub_num, hdivnum]
    by_cases hg : cnx = 0 ∧ cny = 0
    · rw [if_pos hg]
      exact ⟨by omega, fun p hp => Or.inl hp⟩
    · rw [if_neg hg]
      by_cases hcx0 : cnx = 0
      · have hcny1 : 1 ≤ cny := by omega
        have hch : ctx.negx = FP.lt
            (FP.num (get_mesh_x ctx.env.cfg (icx + ctx.iaddx)))
            (FP.num ((get_mesh_y ctx.env.cfg (icy + ctx.iaddy) -
              (cy2 - (ey2 - cy2) / (ex2 - cx2) * cx2)) /
              ((ey2 - cy2) / (ex2 - cx2)))) := by
          rw [hnegx, hiaddx, hiaddy, FP.lt_num]
          by_cases hun : ex2 - cx2 < 0
          · simp only [if_pos hun]
            have hidx : icx + (-1 : ℤ) = ix1 := by
              rw [hicx, hcx0]
              simp only [if_pos hun]
              ring
            rw [hidx]
            by_cases hvn : ey2 - cy2 < 0
            · simp only [if_pos hvn]
              have hidy : icy + (-1 : ℤ) = iy1 + cny := by
                rw [hicy]
                simp only [if_pos hvn]
                ring
              rw [hidy]
              have hspos : 0 < (ey2 - cy2) / (ex2 - cx2) :=
                div_pos_iff.mpr (Or.inr ⟨hvn, hun⟩)
              have hnmy : get_mesh_y ctx.env.cfg (iy1 + 1) ≤
                  get_mesh_y ctx.env.cfg (iy1 + cny) :=
                get_mesh_y_mono _ hdy (by omega)
              have hBIG := cross_lt_pos cx2 cy2 ex2 ey2
                (get_mesh_y ctx.env.cfg (iy1 + cny)) hu0 hv0 hspos
                (lt_of_lt_of_le hfy1 hnmy)
              simp only [decide_eq_decide]
              exact iff_of_true hun (lt_trans hmxlt hBIG)
            · simp only [if_neg hvn]
              have hvpos : 0 < ey2 - cy2 :=
                lt_of_le_of_ne (not_lt.mp hvn) (Ne.symm hv0)
              have hidy : icy + (1 : ℤ) = iy1 - cny + 1 := by
                rw [hicy]
                simp only [if_neg hvn]
                ring
              rw [hidy]
              have hsneg : (ey2 - cy2) / (ex2 - cx2) < 0 :=
                div_neg_iff.mpr (Or.inl ⟨hvpos, hun⟩)
              have hnmy : get_mesh_y ctx.env.cfg (iy1 - cny + 1) ≤
                  get_mesh_y ctx.env.cfg iy1 :=
                get_mesh_y_mono _ hdy (by omega)
              have hBIG := cross_le_neg cx2 cy2 ex2 ey2
                (get_mesh_y ctx.env.cfg (iy1 - cny + 1)) hu0 hv0 hsneg
                (le_trans hnmy hfy0)
              simp only [decide_eq_decide]
              exact iff_of_true hun (lt_of_lt_of_le hmxlt hBIG)
          · simp only [if_neg hun]
            have hupos : 0 < ex2 - cx2 :=
              lt_of_le_of_ne (not_lt.mp hun) (Ne.symm hu0)
            have hidx : icx + (1 : ℤ) = ix1 + 1 := by
              rw [hicx, hcx0]
              simp only [if_neg hun]
              ring
            rw [hidx]
            by_cases hvn : ey2 - cy2 < 0
            · simp only [if_pos hvn]
              have hidy : icy + (-1 : ℤ) = iy1 + cny := by
                rw [hicy]
                simp only [if_pos hvn]
                ring
              rw [hidy]
              have hsneg : (ey2 - cy2) / (ex2 - cx2) < 0 :=
                div_neg_iff.mpr (Or.inr ⟨hvn, hupos⟩)
              have hnmy : get_mesh_y ctx.env.cfg (iy1 + 1) ≤
                  get_mesh_y ctx.env.cfg (iy1 + cny) :=
                get_mesh_y_mono _ hdy (by omega)
              have hBIG := cross_lt_neg cx2 cy2 ex2 ey2
                (get_mesh_y ctx.env.cfg (iy1 + cny)) hu0 hv0 hsneg
                (lt_of_lt_of_le hfy1 hnmy)
              simp only [decide_eq_decide]
              exact iff_of_false hun (not_lt.mpr (le_trans hBIG.le hfx1.le))
            · simp only [if_neg hvn]
              have hvpos : 0 < ey2 - cy2 :=
                lt_of_le_of_ne (not_lt.mp hvn) (Ne.symm hv0)
              have hidy : icy + (1 : ℤ) = iy1 - cny + 1 := by
                rw [hicy]
                simp only [if_neg hvn]
                ring
              rw [hidy]
              have hspos : 0 < (ey2 - cy2) / (ex2 - cx2) := div_pos hvpos hupos
              have hnmy : get_mesh_y ctx.env.cfg (iy1 - cny + 1) ≤
                  get_mesh_y ctx.env.cfg iy1 :=
                get_mesh_y_mono _ hdy (by omega)
              have hBIG := cross_le_pos cx2 cy2 ex2 ey2
                (get_mesh_y ctx.env.cfg (iy1 - cny + 1)) hu0 hv0 hspos
                (le_trans hnmy hfy0)
              simp only [decide_eq_decide]
              exact iff_of_false hun (not_lt.mpr (le_trans hBIG hfx1.le))
        rw [if_pos hch, hacc acc.length]
        simp only [Bool.not_true, Bool.false_eq_true, if_false]
        rw [if_neg (show ¬(cnx < 0 ∨ cny - 1 < 0) by omega)]
        have hinvy : icy + ctx.iaddy = iy1 + (if ey2 - cy2 < 0 then 1 else 0) -
            (if ey2 - cy2 < 0 then -1 else 1) * (cny - 1) := by
          rw [hiaddy, hicy]
          split_ifs <;> ring
        constructor
        · rw [(ih cnx (cny - 1) icx (icy + ctx.iaddy) _ h1 (by omega) (by omega)
            hicx hinvy).1]
          simp only [List.length_append, List.length_singleton]
          push_cast
          ring
        · intro p hp
          rcases (ih cnx (cny - 1) icx (icy + ctx.iaddy) _ h1 (by omega) (by omega)
              hicx hinvy).2 p hp with hin | hgrid
          · rcases List.mem_append.mp hin with h | h
            · exact Or.inl h
            · have hpe := List.mem_singleton.mp h
              subst hpe
              exact Or.inr (Or.inr ⟨icy + ctx.iaddy, rfl⟩)
          · exact Or.inr hgrid
      · by_cases hcy0 : cny = 0
        · have hcnx1 : 1 ≤ cnx := by omega
          have hch : ¬(ctx.negx = FP.lt
              (FP.num (get_mesh_x ctx.env.cfg (icx + ctx.iaddx)))
              (FP.num ((get_mesh_y ctx.env.cfg (icy + ctx.iaddy) -
                (cy2 - (ey2 - cy2) / (ex2 - cx2) * cx2)) /
                ((ey2 - cy2) / (ex2 - cx2))))) := by
            rw [hnegx, hiaddx, hiaddy, FP.lt_num]
            by_cases hun : ex2 - cx2 < 0
            · simp only [if_pos hun]
              have hidx : icx + (-1 : ℤ) = ix1 + cnx := by
                rw [hicx]
                simp only [if_pos hun]
                ring
              rw [hidx]
              have hnmx : get_mesh_x ctx.env.cfg (ix1 + 1) ≤
                  get_mesh_x ctx.env.cfg (ix1 + cnx) :=
                get_mesh_x_mono _ hdx (by omega)
              have hmx2 : ex2 < get_mesh_x ctx.env.cfg (ix1 + cnx) :=
                lt_of_lt_of_le hfx1 hnmx
              by_cases hvn : ey2 - cy2 < 0
              · simp only [if_pos hvn]
                have hidy : icy + (-1 : ℤ) = iy1 := by
                  rw [hicy, hcy0]
                  simp only [if_pos hvn]
                  ring
                rw [hidy]
                have hspos : 0 < (ey2 - cy2) / (ex2 - cx2) :=
                  div_pos_iff.mpr (Or.inr ⟨hvn, hun⟩)
                have hBIG := cross_le_pos cx2 cy2 ex2 ey2
                  (get_mesh_y ctx.env.cfg iy1) hu0 hv0 hspos hfy0
                intro hcontra
                rw [decide_eq_true hun] at hcontra
                have hQ := of_decide_eq_true hcontra.symm
                exact absurd hQ (not_lt.mpr (le_trans hBIG hmx2.le))
              · simp only [if_neg hvn]
                have hvpos : 0 < ey2 - cy2 :=
                  lt_of_le_of_ne (not_lt.mp hvn) (Ne.symm hv0)
                have hidy : icy + (1 : ℤ) = iy1 + 1 := by
                  rw [hicy, hcy0]
                  simp only [if_neg hvn]
                  ring
                rw [hidy]
                have hsneg : (ey2 - cy2) / (ex2 - cx2) < 0 :=
                  div_neg_iff.mpr (Or.inl ⟨hvpos, hun⟩)
                have hBIG := cross_lt_neg cx2 cy2 ex2 ey2
                  (get_mesh_y ctx.env.cfg (iy1 + 1)) hu0 hv0 hsneg hfy1
                intro hcontra
                rw [decide_eq_true hun] at hcontra
                have hQ := of_decide_eq_true hcontra.symm
                exact absurd hQ (not_lt.mpr (le_trans hBIG.le hmx2.le))
            · simp only [if_neg hun]
              have hupos : 0 < ex2 - cx2 :=
                lt_of_le_of_ne (not_lt.mp hun) (Ne.symm hu0)
              have hidx : icx + (1 : ℤ) = ix1 - cnx + 1 := by
                rw [hicx]
                simp only [if_neg hun]
                ring
              rw [hidx]
              have hnmx : get_mesh_x ctx.env.cfg (ix1 - cnx + 1) ≤
                  get_mesh_x ctx.env.cfg ix1 :=
                get_mesh_x_mono _ hdx (by omega)
              have hmx2 : get_mesh_x ctx.env.cfg (ix1 - cnx + 1) < ex2 :=
                lt_of_le_of_lt hnmx hmxlt
              by_cases hvn : ey2 - cy2 < 0
              · simp only [if_pos hvn]
                have hidy : icy + (-1 : ℤ) = iy1 := by
                  rw [hicy, hcy0]
                  simp only [if_pos hvn]
                  ring
                rw [hidy]
                have hsneg : (ey2 - cy2) / (ex2 - cx2) < 0 :=
                  div_neg_iff.mpr (Or.inr ⟨hvn, hupos⟩)
                have hBIG := cross_le_neg cx2 cy2 ex2 ey2
                  (get_mesh_y ctx.env.cfg iy1) hu0 hv0 hsneg hfy0
                intro hcontra
                rw [decide_eq_false hun] at hcontra
                have hQ : get_mesh_x ctx.env.cfg (ix1 - cnx + 1) <
                    (get_mesh_y ctx.env.cfg iy1 -
                      (cy2 - (ey2 - cy2) / (ex2 - cx2) * cx2)) /
                      ((ey2 - cy2) / (ex2 - cx2)) :=
                  lt_of_lt_of_le hmx2 hBIG
                rw [decide_eq_true hQ] at hcontra
                exact absurd hcontra (by simp)
              · simp only [if_neg hvn]
                have hvpos : 0 < ey2 - cy2 :=
                  lt_of_le_of_ne (not_lt.mp hvn) (Ne.symm hv0)
                have hidy : icy + (1 : ℤ) = iy1 + 1 := by
                  rw [hicy, hcy0]
                  simp only [if_neg hvn]
                  ring
                rw [hidy]
                have hspos : 0 < (ey2 - cy2) / (ex2 - cx2) := div_pos hvpos hupos
                have hBIG := cross_lt_pos cx2 cy2 ex2 ey2
                  (get_mesh_y ctx.env.cfg (iy1 + 1)) hu0 hv0 hspos hfy1
                intro hcontra
                rw [decide_eq_false hun] at hcontra
                have hQ : get_mesh_x ctx.env.cfg (ix1 - cnx + 1) <
                    (get_mesh_y ctx.env.cfg (iy1 + 1) -
                      (cy2 - (ey2 - cy2) / (ex2 - cx2) * cx2)) /
                      ((ey2 - cy2) / (ex2 - cx2)) :=
                  lt_trans hmx2 hBIG
                rw [decide_eq_true hQ] at hcontra
                exact absurd hcontra (by simp)
          rw [if_neg hch, hacc acc.length]
          simp only [Bool.not_true, Bool.false_eq_true, if_false]
          rw [if_neg (show ¬(cnx - 1 < 0 ∨ cny < 0) by omega)]
          have hinvx : icx + ctx.iaddx = ix1 + (if ex2 - cx2 < 0 then 1 else 0) -
              (if ex2 - cx2 < 0 then -1 else 1) * (cnx - 1) := by
            rw [hiaddx, hicx]
            split_ifs <;> ring
          constructor
          · rw [(ih (cnx - 1) cny (icx + ctx.iaddx) icy _ (by omega) h2 (by omega)
              hinvx hicy).1]
            simp only [List.length_append, List.length_singleton]
            push_cast
            ring
          · intro p hp
            rcases (ih (cnx - 1) cny (icx + ctx.iaddx) icy _ (by omega) h2 (by omega)
                hinvx hicy).2 p hp with hin | hgrid
            · rcases List.mem_append.mp hin with h | h
              · exact Or.inl h
              · have hpe := List.mem_singleton.mp h
                subst hpe
                exact Or.inr (Or.inl ⟨icx + ctx.iaddx, rfl⟩)
            · exact Or.inr hgrid
        · have hcnx1 : 1 ≤ cnx := by omega
          have hcny1 : 1 ≤ cny := by omega
          by_cases hch : ctx.negx = FP.lt
              (FP.num (get_mesh_x ctx.env.cfg (icx + ctx.iaddx)))
              (FP.num ((get_mesh_y ctx.env.cfg (icy + ctx.iaddy) -
                (cy2 - (ey2 - cy2) / (ex2 - cx2) * cx2)) /
                ((ey2 - cy2) / (ex2 - cx2))))
          · rw [if_pos hch, hacc acc.length]
            simp only [Bool.not_true, Bool.false_eq_true, if_false]
            rw [if_neg (show ¬(cnx < 0 ∨ cny - 1 < 0) by omega)]
            have hinvy : icy + ctx.iaddy = iy1 + (if ey2 - cy2 < 0 then 1 else 0) -
                (if ey2 - cy2 < 0 then -1 else 1) * (cny - 1) := by
              rw [hiaddy, hicy]
              split_ifs <;> ring
            constructor
            · rw [(ih cnx (cny - 1) icx (icy + ctx.iaddy) _ h1 (by omega) (by omega)
                hicx hinvy).1]
              simp only [List.length_append, List.length_singleton]
              push_cast
              ring
            · intro p hp
              rcases (ih cnx (cny - 1) icx (icy + ctx.iaddy) _ h1 (by omega) (by omega)
                  hicx hinvy).2 p hp with hin | hgrid
              · rcases List.mem_append.mp hin with h | h
                · exact Or.inl h
                · have hpe := List.mem_singleton.mp h
                  subst hpe
                  exact Or.inr (Or.inr ⟨icy + ctx.iaddy, rfl⟩)
              · exact Or.inr hgrid
          · rw [if_neg hch, hacc acc.length]
            simp only [Bool.not_true, Bool.false_eq_true, if_false]
            rw [if_neg (show ¬(cnx - 1 < 0 ∨ cny < 0) by omega)]
            have hinvx : icx + ctx.iaddx = ix1 + (if ex2 - cx2 < 0 then 1 else 0) -
                (if ex2 - cx2 < 0 then -1 else 1) * (cnx - 1) := by
              rw [hiaddx, hicx]
              split_ifs <;> ring
            constructor
            · rw [(ih (cnx - 1) cny (icx + ctx.iaddx) icy _ (by omega) h2 (by omega)
                hinvx hicy).1]
              simp only [List.length_append, List.length_singleton]
              push_cast
              ring
            · intro p hp
              rcases (ih (cnx - 1) cny (icx + ctx.iaddx) icy _ (by omega) h2 (by omega)
                  hinvx hicy).2 p hp with hin | hgrid
              · rcases List.mem_append.mp hin with h | h
                · exact Or.inl h
                · have hpe := List.mem_singleton.mp h
                  subst hpe
                  exact Or.inr (Or.inl ⟨icx + ctx.iaddx, rfl⟩)
              · exact Or.inr hgrid

/-- C4 (amended: the claimed count and gridline property hold only when the
whole move stays where the cell index clamping is inactive — both endpoints'
raw cell indexes in range — and the destination is not itself on a mesh
line; the edge-cell index clamping otherwise makes the walk emit sub-moves
on mesh lines beyond the grid, changing the count, as the counterexample
shows; no exception for a crossing coinciding with the destination is
needed, such a crossing is still emitted): for a general diagonal move with
an always-accepting sink, in-mesh raw cell indexes at both endpoints and a
destination strictly off the mesh lines, the splitter emits exactly
`|Δcolumn| + |Δrow|` sub-moves before the final move, and every sub-move
before the final one lies exactly on a vertical or a horizontal mesh
line. -/
theorem C4_crossing_completeness (env : Env) (cx cy cz ce ex ey ez ee : ℚ)
    (hdx : 0 < env.cfg.dx) (hdy : 0 < env.cfg.dy)
    (hacc : ∀ n, env.accept n = true)
    (hcxin : 0 ≤ ⌊(cx - env.cfg.minX) / env.cfg.dx⌋ ∧
      ⌊(cx - env.cfg.minX) / env.cfg.dx⌋ ≤ env.cfg.cellsX)
    (hexin : 0 ≤ ⌊(ex - env.cfg.minX) / env.cfg.dx⌋ ∧
      ⌊(ex - env.cfg.minX) / env.cfg.dx⌋ ≤ env.cfg.cellsX)
    (hcyin : 0 ≤ ⌊(cy - env.cfg.minY) / env.cfg.dy⌋ ∧
      ⌊(cy - env.cfg.minY) / env.cfg.dy⌋ ≤ env.cfg.cellsY)
    (heyin : 0 ≤ ⌊(ey - env.cfg.minY) / env.cfg.dy⌋ ∧
      ⌊(ey - env.cfg.minY) / env.cfg.dy⌋ ≤ env.cfg.cellsY)
    (hne1 : (cell_indexes env.cfg (mkPose cx cy cz ce)).1 ≠
      (cell_indexes env.cfg (mkPose ex ey ez ee)).1)
    (hne2 : (cell_indexes env.cfg (mkPose cx cy cz ce)).2 ≠
      (cell_indexes env.cfg (mkPose ex ey ez ee)).2)
    (hgx : get_mesh_x env.cfg ⌊(ex - env.cfg.minX) / env.cfg.dx⌋ ≠ ex)
    (hgy : get_mesh_y env.cfg ⌊(ey - env.cfg.minY) / env.cfg.dy⌋ ≠ ey) :
    ((line_to_destination_cartesian env (mkPose cx cy cz ce)
        (mkPose ex ey ez ee)).emits.length : ℤ) =
      ((cell_indexes env.cfg (mkPose cx cy cz ce)).1 -
        (cell_indexes env.cfg (mkPose ex ey ez ee)).1).natAbs +
      ((cell_indexes env.cfg (mkPose cx cy cz ce)).2 -
        (cell_indexes env.cfg (mkPose ex ey ez ee)).2).natAbs + 1 ∧
    ∀ p ∈ (line_to_destination_cartesian env (mkPose cx cy cz ce)
        (mkPose ex ey ez ee)).emits.dropLast,
      (∃ i, p.x = FP.num (get_mesh_x env.cfg i)) ∨
      (∃ j, p.y = FP.num (get_mesh_y env.cfg j)) := by
  obtain ⟨hcxin1, hcxin2⟩ := hcxin
  obtain ⟨hexin1, hexin2⟩ := hexin
  obtain ⟨hcyin1, hcyin2⟩ := hcyin
  obtain ⟨heyin1, heyin2⟩ := heyin
  have hclampx_c : (cell_indexes env.cfg (mkPose cx cy cz ce)).1 =
      ⌊(cx - env.cfg.minX) / env.cfg.dx⌋ := by
    show max 0 (min env.cfg.cellsX ⌊(cx - env.cfg.minX) / env.cfg.dx⌋) = _
    omega
  have hclampx_e : (cell_indexes env.cfg (mkPose ex ey ez ee)).1 =
      ⌊(ex - env.cfg.minX) / env.cfg.dx⌋ := by
    show max 0 (min env.cfg.cellsX ⌊(ex - env.cfg.minX) / env.cfg.dx⌋) = _
    omega
  have hclampy_c : (cell_indexes env.cfg (mkPose cx cy cz ce)).2 =
      ⌊(cy - env.cfg.minY) / env.cfg.dy⌋ := by
    show max 0 (min env.cfg.cellsY ⌊(cy - env.cfg.minY) / env.cfg.dy⌋) = _
    omega
  have hclampy_e : (cell_indexes env.cfg (mkPose ex ey ez ee)).2 =
      ⌊(ey - env.cfg.minY) / env.cfg.dy⌋ := by
    show max 0 (min env.cfg.cellsY ⌊(ey - env.cfg.minY) / env.cfg.dy⌋) = _
    omega
  have hune : ex - cx ≠ 0 := by
    intro h0
    apply hne1
    have hex : ex = cx := by linarith
    subst hex
    rfl
  have hvne : ey - cy ≠ 0 := by
    intro h0
    apply hne2
    have hey : ey = cy := by linarith
    subst hey
    rfl
  have hfx0' : get_mesh_x env.cfg (cell_indexes env.cfg (mkPose ex ey ez ee)).1 ≤ ex := by
    rw [hclampx_e]
    exact mesh_x_floor_le env.cfg hdx ex
  have hfx1' : ex < get_mesh_x env.cfg ((cell_indexes env.cfg (mkPose ex ey ez ee)).1 + 1) := by
    rw [hclampx_e]
    exact mesh_x_floor_lt env.cfg hdx ex
  have hfy0' : get_mesh_y env.cfg (cell_indexes env.cfg (mkPose ex ey ez ee)).2 ≤ ey := by
    rw [hclampy_e]
    exact mesh_y_floor_le env.cfg hdy ey
  have hfy1' : ey < get_mesh_y env.cfg ((cell_indexes env.cfg (mkPose ex ey ez ee)).2 + 1) := by
    rw [hclampy_e]
    exact mesh_y_floor_lt env.cfg hdy ey
  have hgx' : get_mesh_x env.cfg (cell_indexes env.cfg (mkPose ex ey ez ee)).1 ≠ ex := by
    rw [hclampx_e]
    exact hgx
  have hgy' : get_mesh_y env.cfg (cell_indexes env.cfg (mkPose ex ey ez ee)).2 ≠ ey := by
    rw [hclampy_e]
    exact hgy
  have hinvx0 : (cell_indexes env.cfg (mkPose cx cy cz ce)).1 +
      (if FP.lt (FP.num (ex - cx)) (FP.num 0) = true then 1 else 0) =
      (cell_indexes env.cfg (mkPose ex ey ez ee)).1 +
      (if ex - cx < 0 then 1 else 0) - (if ex - cx < 0 then -1 else 1) *
      ((cell_indexes env.cfg (mkPose cx cy cz ce)).1 -
        (cell_indexes env.cfg (mkPose ex ey ez ee)).1).natAbs := by
    simp only [FP.lt_num, decide_eq_true_eq]
    by_cases hun : ex - cx < 0
    · simp only [if_pos hun]
      have hmono : (cell_indexes env.cfg (mkPose ex ey ez ee)).1 ≤
          (cell_indexes env.cfg (mkPose cx cy cz ce)).1 := by
        rw [hclampx_e, hclampx_c]
        exact Int.floor_le_floor (qdiv_le_div_pos _ _ _ hdx (by linarith))
      omega
    · simp only [if_neg hun]
      have hmono : (cell_indexes env.cfg (mkPose cx cy cz ce)).1 ≤
          (cell_indexes env.cfg (mkPose ex ey ez ee)).1 := by
        rw [hclampx_e, hclampx_c]
        exact Int.floor_le_floor (qdiv_le_div_pos _ _ _ hdx (by linarith [not_lt.mp hun]))
      omega
  have hinvy0 : (cell_indexes env.cfg (mkPose cx cy cz ce)).2 +
      (if FP.lt (FP.num (ey - cy)) (FP.num 0) = true then 1 else 0) =
      (cell_indexes env.cfg (mkPose ex ey ez ee)).2 +
      (if ey - cy < 0 then 1 else 0) - (if ey - cy < 0 then -1 else 1) *
      ((cell_indexes env.cfg (mkPose cx cy cz ce)).2 -
        (cell_indexes env.cfg (mkPose ex ey ez ee)).2).natAbs := by
    simp only [FP.lt_num, decide_eq_true_eq]
    by_cases hvn : ey - cy < 0
    · simp only [if_pos hvn]
      have hmono : (cell_indexes env.cfg (mkPose ex ey ez ee)).2 ≤
          (cell_indexes env.cfg (mkPose cx cy cz ce)).2 := by
        rw [hclampy_e, hclampy_c]
        exact Int.floor_le_floor (qdiv_le_div_pos _ _ _ hdy (by linarith))
      omega
    · simp only [if_neg hvn]
      have hmono : (cell_indexes env.cfg (mkPose cx cy cz ce)).2 ≤
          (cell_indexes env.cfg (mkPose ex ey ez ee)).2 := by
        rw [hclampy_e, hclampy_c]
        exact Int.floor_le_floor (qdiv_le_div_pos _ _ _ hdy (by linarith [not_lt.mp hvn]))
      omega
  have hsame : ¬(cell_indexes env.cfg (mkPose cx cy cz ce) =
      cell_indexes env.cfg (mkPose ex ey ez ee)) := fun h => hne1 (congrArg Prod.fst h)
  obtain ⟨hlen, hmem⟩ := gloop_count
    ⟨env, mkPose cx cy cz ce, mkPose ex ey ez ee,
      FP.num (ey - cy) / FP.num (ex - cx),
      FP.num cy - FP.num (ey - cy) / FP.num (ex - cx) * FP.num cx,
      FP.num (ez - cz) /
        if FP.lt ((if FP.lt (FP.num (ey - cy)) (FP.num 0) = true then FP.num (-1)
              else FP.num 1) * FP.num (ey - cy))
            ((if FP.lt (FP.num (ex - cx)) (FP.num 0) = true then FP.num (-1)
              else FP.num 1) * FP.num (ex - cx)) = true
        then FP.num (ex - cx) else FP.num (ey - cy),
      FP.num (ee - ce) /
        if FP.lt ((if FP.lt (FP.num (ey - cy)) (FP.num 0) = true then FP.num (-1)
              else FP.num 1) * FP.num (ey - cy))
            ((if FP.lt (FP.num (ex - cx)) (FP.num 0) = true then FP.num (-1)
              else FP.num 1) * FP.num (ex - cx)) = true
        then FP.num (ex - cx) else FP.num (ey - cy),
      (FP.num (ee - ce) /
        if FP.lt ((if FP.lt (FP.num (ey - cy)) (FP.num 0) = true then FP.num (-1)
              else FP.num 1) * FP.num (ey - cy))
            ((if FP.lt (FP.num (ex - cx)) (FP.num 0) = true then FP.num (-1)
              else FP.num 1) * FP.num (ex - cx)) = true
        then FP.num (ex - cx) else FP.num (ey - cy)).isInf,
      (FP.num (ey - cy) / FP.num (ex - cx)).isInf,
      FP.lt ((if FP.lt (FP.num (ey - cy)) (FP.num 0) = true then FP.num (-1)
          else FP.num 1) * FP.num (ey - cy))
        ((if FP.lt (FP.num (ex - cx)) (FP.num 0) = true then FP.num (-1)
          else FP.num 1) * FP.num (ex - cx)),
      FP.lt (FP.num (ex - cx)) (FP.num 0),
      FP.lt (FP.num (ey - cy)) (FP.num 0),
      if FP.lt (FP.num (ex - cx)) (FP.num 0) = true then 1 else 0,
      if FP.lt (FP.num (ey - cy)) (FP.num 0) = true then 1 else 0,
      if FP.lt (FP.num (ex - cx)) (FP.num 0) = true then -1 else 1,
      if FP.lt (FP.num (ey - cy)) (FP.num 0) = true then -1 else 1⟩
    cx cy ex ey
    (cell_indexes env.cfg (mkPose ex ey ez ee)).1
    (cell_indexes env.cfg (mkPose ex ey ez ee)).2
    hdx hdy hune hvne hacc
    (FP.div_num _ _ hune)
    (by
      show FP.num cy - FP.num (ey - cy) / FP.num (ex - cx) * FP.num cx = _
      rw [FP.div_num _ _ hune, FP.mul_num, FP.sub_num])
    rfl
    (by
      show (if FP.lt (FP.num (ex - cx)) (FP.num 0) = true then (-1 : ℤ) else 1) = _
      simp only [FP.lt_num, decide_eq_true_eq])
    (by
      show (if FP.lt (FP.num (ey - cy)) (FP.num 0) = true then (-1 : ℤ) else 1) = _
      simp only [FP.lt_num, decide_eq_true_eq])
    hfx0' hfx1' hfy0' hfy1' hgx' hgy'
    ((((cell_indexes env.cfg (mkPose cx cy cz ce)).1 -
        (cell_indexes env.cfg (mkPose ex ey ez ee)).1).natAbs +
      ((cell_indexes env.cfg (mkPose cx cy cz ce)).2 -
        (cell_indexes env.cfg (mkPose ex ey ez ee)).2).natAbs : ℤ).toNat + 1)
    (((cell_indexes env.cfg (mkPose cx cy cz ce)).1 -
      (cell_indexes env.cfg (mkPose ex ey ez ee)).1).natAbs)
    (((cell_indexes env.cfg (mkPose cx cy cz ce)).2 -
      (cell_indexes env.cfg (mkPose ex ey ez ee)).2).natAbs)
    ((cell_indexes env.cfg (mkPose cx cy cz ce)).1 +
      if FP.lt (FP.num (ex - cx)) (FP.num 0) = true then 1 else 0)
    ((cell_indexes env.cfg (mkPose cx cy cz ce)).2 +
      if FP.lt (FP.num (ey - cy)) (FP.num 0) = true then 1 else 0)
    []
    (Int.natCast_nonneg _) (Int.natCast_nonneg _) (by omega) hinvx0 hinvy0
  unfold line_to_destination_cartesian
  rw [if_neg hsame]
  have hxyne := xyNe_of_cell_ne env.cfg _ _ hsame
  simp only [hxyne, if_true, mkPose_x, mkPose_y, mkPose_z, mkPose_e, FP.sub_num]
  rw [if_neg (show ¬((cell_indexes env.cfg (mkPose ex ey ez ee)).1 =
    (cell_indexes env.cfg (mkPose cx cy cz ce)).1) from fun h => hne1 h.symm)]
  simp only [iadd_if_ne_zero, if_false]
  rw [if_neg (show ¬((cell_indexes env.cfg (mkPose ex ey ez ee)).2 =
    (cell_indexes env.cfg (mkPose cx cy cz ce)).2) from fun h => hne2 h.symm)]
  simp only [iadd_if_ne_zero, if_false]
  rw [finalMove_eq]
  simp only [CartRes.emits_mk]
  constructor
  · rw [List.length_append, List.length_singleton, Nat.cast_add, hlen]
    simp only [List.length_nil, Nat.cast_one, Nat.cast_zero]
    ring
  · rw [List.dropLast_concat]
    exact fun p hp => (hmem p hp).resolve_left (fun h => absurd h (List.not_mem_nil p))

/-- C7 (amended: the vertical-within-column loop ignores the sink's verdict
entirely — its emissions are identical under any replacement of the
acceptance oracle; on the horizontal and general diagonal paths a rejected
call does end the loop, but the FINAL_MOVE emission still follows, so a move
that leaves its start column emits at most `j + 2` sub-moves when call `j`
is rejected; and `current_position` is always set to the original
destination, never left at the last accepted sub-move): rejection of a
sub-move bounds further emission only on the horizontal and general paths,
and never stops the final move or the update of `current_position`. -/
theorem C7_downstream_rejection (env : Env) (a' : ℕ → Bool) (ctx : CrossCtx)
    (current destination : Pose) (j : ℕ)
    (hne1 : (cell_indexes env.cfg current).1 ≠ (cell_indexes env.cfg destination).1)
    (hj : env.accept j = false) :
    (∀ icx iendy fuel icy acc,
      vloop ⟨{ctx.env with accept := a'}, ctx.start, ctx.endp, ctx.slope, ctx.icpt,
          ctx.zNorm, ctx.eNorm, ctx.infNormFlag, ctx.infSlopeFlag, ctx.useX,
          ctx.negx, ctx.negy, ctx.inegx, ctx.inegy, ctx.iaddx, ctx.iaddy⟩
          icx iendy fuel icy acc =
        vloop ctx icx iendy fuel icy acc) ∧
    (line_to_destination_cartesian env current destination).emits.length ≤ j + 2 ∧
    (line_to_destination_cartesian env current destination).curpos = destination := by
  refine ⟨?_, ?_, ?_⟩
  · exact vloop_env_congr _ ctx rfl rfl rfl rfl rfl rfl rfl rfl rfl rfl rfl rfl rfl rfl
  · have hne : cell_indexes env.cfg current ≠ cell_indexes env.cfg destination :=
      fun h => hne1 (congrArg Prod.fst h)
    have hx := xyNe_of_cell_ne env.cfg current destination hne
    have hne1' : ¬((cell_indexes env.cfg destination).1 =
        (cell_indexes env.cfg current).1) := fun h => hne1 h.symm
    unfold line_to_destination_cartesian
    rw [if_neg hne]
    simp only [hx, if_true]
    rw [if_neg hne1']
    simp only [iadd_if_ne_zero, if_false]
    by_cases hy : (cell_indexes env.cfg destination).2 = (cell_indexes env.cfg current).2
    · rw [if_pos hy]
      rw [if_pos (show (0 : ℤ) = 0 from rfl)]
      rw [finalMove_eq]
      simp only [List.length_append, List.length_singleton]
      refine Nat.succ_le_succ ?_
      apply hloop_reject_length
      · exact hj
      · simp
    · rw [if_neg hy]
      simp only [iadd_if_ne_zero, if_false]
      rw [finalMove_eq]
      simp only [List.length_append, List.length_singleton]
      refine Nat.succ_le_succ ?_
      apply gloop_reject_length
      · exact hj
      · simp
  · exact cart_cases env current destination (fun r => r.curpos = destination)
      (fun E => by rw [finalMove_eq])

section

attribute [local semireducible] Rat.mul Rat.add Rat.sub Rat.inv Rat.ofScientific

/-- C5 counterexample: a plain Cartesian move of XY length 12/5 with
`DELTA_SEGMENT_MIN_LENGTH = 1` rounds to 2 segments, so both emitted
segments (including the non-final first one) have XY length 6/5, which
exceeds the threshold 1; the claim asserts no emitted segment is longer than
the threshold except a shorter final one. -/
theorem C5_counterexample :
    (line_to_destination_segmented envPlainSeg (mkPose 0 0 0 0)
      (mkPose (12 / 5) 0 0 0)).emits =
      [mkPose (6 / 5) 0 0 0, mkPose (12 / 5) 0 0 0] ∧
    ((6 / 5 : ℚ) - 0) ^ 2 + ((0 : ℚ) - 0) ^ 2 >
      envPlainSeg.cfg.minSegLen ^ 2 := by
  constructor
  · decide
  · show (1 : ℚ) ^ 2 < _
    norm_num

/-- Witness for C5: the amended bound applied to the concrete 12/5mm plain
move (hypotheses checked by evaluation). -/
theorem C5_segmentation_bound_witness :
    (0 : ℚ) < envPlainSeg.cfg.minSegLen ∧
    envPlainSeg.reachable (mkPose (12 / 5) 0 0 0) = true ∧
    0 ≤ envPlainSeg.sqrtQ (((12 / 5 : ℚ) - 0) * ((12 / 5 : ℚ) - 0) +
      ((0 : ℚ) - 0) * ((0 : ℚ) - 0)) ∧
    (∃ n : ℕ, 1 ≤ n ∧
      (line_to_destination_segmented envPlainSeg (mkPose 0 0 0 0)
        (mkPose (12 / 5) 0 0 0)).emits.length = n ∧
      (∀ k, (hk : k < (line_to_destination_segmented envPlainSeg (mkPose 0 0 0 0)
          (mkPose (12 / 5) 0 0 0)).emits.length) →
        ((line_to_destination_segmented envPlainSeg (mkPose 0 0 0 0)
            (mkPose (12 / 5) 0 0 0)).emits.get ⟨k, hk⟩).x =
          FP.num (0 + ((k : ℚ) + 1) * (((12 / 5 : ℚ) - 0) / (n : ℚ))) ∧
        ((line_to_destination_segmented envPlainSeg (mkPose 0 0 0 0)
            (mkPose (12 / 5) 0 0 0)).emits.get ⟨k, hk⟩).y =
          FP.num (0 + ((k : ℚ) + 1) * (((0 : ℚ) - 0) / (n : ℚ)))) ∧
      (((12 / 5 : ℚ) - 0) / (n : ℚ)) ^ 2 + (((0 : ℚ) - 0) / (n : ℚ)) ^ 2 <
        (3 / 2 * envPlainSeg.cfg.minSegLen) ^ 2) :=
  ⟨by norm_num [envPlainSeg, envBase], rfl, by decide,
    C5_segmentation_bound envPlainSeg 0 0 0 0 (12 / 5) 0 0 0
      (fun i j => rfl) (by decide) (by decide) rfl ⟨1, rfl⟩
      (by norm_num [envPlainSeg, envBase]) (by decide) (by decide)⟩

/-- Witness for C9: two increment steps inside cell (0,0) of the rising-x
mesh agree with the from-scratch setup at the advanced position. -/
theorem C9_incremental_coefficient_equivalence_witness :
    (max 0 (min envSlopeX.cfg.cellsX
        ⌊((2 : ℚ) + ((2 : ℕ) : ℚ) * 1 - envSlopeX.cfg.minX) / envSlopeX.cfg.dx⌋) =
      max 0 (min envSlopeX.cfg.cellsX ⌊((2 : ℚ) - envSlopeX.cfg.minX) / envSlopeX.cfg.dx⌋)) ∧
    (coeffIter (mkPose 1 0 0 0)
        (cellSetup envSlopeX (mkPose 1 0 0 0) (mkPose 2 1 0 0)) 2 =
      cellSetup envSlopeX (mkPose 1 0 0 0)
        (mkPose (2 + ((2 : ℕ) : ℚ) * 1) (1 + ((2 : ℕ) : ℚ) * 0)
          (0 + ((2 : ℕ) : ℚ) * 0) (0 + ((2 : ℕ) : ℚ) * 0)) ∧
    ((coeffIter (mkPose 1 0 0 0)
        (cellSetup envSlopeX (mkPose 1 0 0 0) (mkPose 2 1 0 0)) 2).zcxy0 +
      (coeffIter (mkPose 1 0 0 0)
        (cellSetup envSlopeX (mkPose 1 0 0 0) (mkPose 2 1 0 0)) 2).zcxym *
      (coeffIter (mkPose 1 0 0 0)
        (cellSetup envSlopeX (mkPose 1 0 0 0) (mkPose 2 1 0 0)) 2).cellY) * FP.num 1 =
      FP.num (1 * scratchCorrection envSlopeX
        (max 0 (min envSlopeX.cfg.cellsX ⌊((2 : ℚ) - envSlopeX.cfg.minX) / envSlopeX.cfg.dx⌋))
        (max 0 (min envSlopeX.cfg.cellsY ⌊((1 : ℚ) - envSlopeX.cfg.minY) / envSlopeX.cfg.dy⌋))
        (2 + ((2 : ℕ) : ℚ) * 1 - get_mesh_x envSlopeX.cfg
          (max 0 (min envSlopeX.cfg.cellsX
            ⌊((2 : ℚ) - envSlopeX.cfg.minX) / envSlopeX.cfg.dx⌋)))
        (1 + ((2 : ℕ) : ℚ) * 0 - get_mesh_y envSlopeX.cfg
          (max 0 (min envSlopeX.cfg.cellsY
            ⌊((1 : ℚ) - envSlopeX.cfg.minY) / envSlopeX.cfg.dy⌋))))) :=
  ⟨by decide,
    C9_incremental_coefficient_equivalence envSlopeX 1 0 0 0 2 1 0 0 2
      (fun i j => rfl) (by decide) (by decide)⟩

/-- Witness for C10: the leveled segmenter run (1,1) to (5,1) over the
rising-x mesh (hypotheses checked by evaluation). -/
theorem C10_corrections_never_accumulate_witness :
    envSlopeX.levelingActive = true ∧
    envSlopeX.fade (FP.num 0) = FP.num 1 ∧
    (∃ n : ℕ, 1 ≤ n ∧
      (line_to_destination_segmented envSlopeX (mkPose 1 1 0 0)
        (mkPose 5 1 0 0)).emits.length = n ∧
      ∀ k, (hk : k < (line_to_destination_segmented envSlopeX (mkPose 1 1 0 0)
          (mkPose 5 1 0 0)).emits.length) → ∃ icx icy,
        0 ≤ icx ∧ icx ≤ envSlopeX.cfg.cellsX ∧ 0 ≤ icy ∧ icy ≤ envSlopeX.cfg.cellsY ∧
        (line_to_destination_segmented envSlopeX (mkPose 1 1 0 0)
            (mkPose 5 1 0 0)).emits.get ⟨k, hk⟩ =
          ⟨FP.num (1 + ((k : ℚ) + 1) * (((5 : ℚ) - 1) / (n : ℚ))),
           FP.num (1 + ((k : ℚ) + 1) * (((1 : ℚ) - 1) / (n : ℚ))),
           FP.num (0 + ((k : ℚ) + 1) * (((0 : ℚ) - 0) / (n : ℚ)) +
             1 * scratchCorrection envSlopeX icx icy
               (1 + ((k : ℚ) + 1) * (((5 : ℚ) - 1) / (n : ℚ)) - get_mesh_x envSlopeX.cfg icx)
               (1 + ((k : ℚ) + 1) * (((1 : ℚ) - 1) / (n : ℚ)) - get_mesh_y envSlopeX.cfg icy)),
           FP.num (0 + ((k : ℚ) + 1) * (((0 : ℚ) - 0) / (n : ℚ)))⟩) :=
  ⟨rfl, rfl,
    C10_corrections_never_accumulate envSlopeX 1 1 0 0 5 1 0 0 1
      (fun i j => rfl) (by decide) (by decide) rfl rfl rfl rfl⟩

/-- C2 counterexample: in cell (0,0) of `envNanCorner` (corner (1,0)
undefined, the other three corners 1) a same-cell move to (5,5) emits Z
exactly 0 — the NaN interpolation was coerced to no correction — while
substituting 0 for the undefined corner and recomputing the bilinear
interpolation at the same fractional position gives 3/4 ≠ 0, so the emitted
correction does not equal the zero-substituted recompute. -/
theorem C2_counterexample :
    (line_to_destination_cartesian envNanCorner (mkPose 2 2 0 0)
      (mkPose 5 5 0 0)).emits = [mkPose 5 5 0 0] ∧
    spec_bilinear_substituted envNanCorner 0 0 (1 / 2) (1 / 2) = 3 / 4 ∧
    (3 / 4 : ℚ) ≠ 0 := by
  refine ⟨by decide, by decide, by norm_num⟩

/-- Witness for C2: the amended theorem applied to the `envNanCorner`
same-cell move. -/
theorem C2_undefined_sample_handling_witness :
    (envNanCorner.z 1 0).isNan = true ∧
    cell_indexes envNanCorner.cfg (mkPose 2 2 0 0) =
      cell_indexes envNanCorner.cfg (mkPose 5 5 0 0) ∧
    ((line_to_destination_cartesian envNanCorner (mkPose 2 2 0 0)
      (mkPose 5 5 0 0)).emits = [⟨FP.num 5, FP.num 5, FP.num 0, FP.num 0⟩] ∧
    (∀ f du dv dw de2 rx ry rz re : ℚ,
      ((cellSetup envNanCorner (mkPose du dv dw de2) (mkPose rx ry rz re)).zcxy0 +
        (cellSetup envNanCorner (mkPose du dv dw de2) (mkPose rx ry rz re)).zcxym *
        (cellSetup envNanCorner (mkPose du dv dw de2) (mkPose rx ry rz re)).cellY) * FP.num f =
      FP.num (f * spec_bilinear_substituted envNanCorner
        (max 0 (min envNanCorner.cfg.cellsX ⌊(rx - envNanCorner.cfg.minX) / envNanCorner.cfg.dx⌋))
        (max 0 (min envNanCorner.cfg.cellsY ⌊(ry - envNanCorner.cfg.minY) / envNanCorner.cfg.dy⌋))
        ((rx - get_mesh_x envNanCorner.cfg
          (max 0 (min envNanCorner.cfg.cellsX
            ⌊(rx - envNanCorner.cfg.minX) / envNanCorner.cfg.dx⌋))) / envNanCorner.cfg.dx)
        ((ry - get_mesh_y envNanCorner.cfg
          (max 0 (min envNanCorner.cfg.cellsY
            ⌊(ry - envNanCorner.cfg.minY) / envNanCorner.cfg.dy⌋))) / envNanCorner.cfg.dy)))) :=
  ⟨by decide, by decide,
    C2_undefined_sample_handling envNanCorner 2 2 0 0 5 5 0 0
      (by intro i j
          simp only [envNanCorner, envBase]
          split
          · rfl
          · split
            · rfl
            · rfl)
      rfl (by decide)
      (by right; left; decide)⟩

/-- Witness for C1: the same-cell move (2,2) to (5,5) over the all-ones mesh
emits exactly the destination with Z raised by the interpolated 1. -/
theorem C1_same_cell_idempotence_witness :
    cell_indexes envAllOnes.cfg (mkPose 2 2 0 0) =
      cell_indexes envAllOnes.cfg (mkPose 5 5 0 0) ∧
    envAllOnes.z (cell_indexes envAllOnes.cfg (mkPose 5 5 0 0)).1
      (cell_indexes envAllOnes.cfg (mkPose 5 5 0 0)).2 = FP.num 1 ∧
    ((line_to_destination_cartesian envAllOnes (mkPose 2 2 0 0)
        (mkPose 5 5 0 0)).emits =
      [⟨FP.num 5, FP.num 5,
        FP.num (0 + 1 *
          ((1 + (5 - get_mesh_x envAllOnes.cfg
              (cell_indexes envAllOnes.cfg (mkPose 5 5 0 0)).1) * (1 / envAllOnes.cfg.dx) *
              (1 - 1)) +
            ((1 + (5 - get_mesh_x envAllOnes.cfg
                (cell_indexes envAllOnes.cfg (mkPose 5 5 0 0)).1) * (1 / envAllOnes.cfg.dx) *
                (1 - 1)) -
              (1 + (5 - get_mesh_x envAllOnes.cfg
                (cell_indexes envAllOnes.cfg (mkPose 5 5 0 0)).1) * (1 / envAllOnes.cfg.dx) *
                (1 - 1))) *
            ((5 - get_mesh_y envAllOnes.cfg
              (cell_indexes envAllOnes.cfg (mkPose 5 5 0 0)).2) * (1 / envAllOnes.cfg.dy)))),
        FP.num 0⟩] ∧
    (line_to_destination_cartesian envAllOnes (mkPose 2 2 0 0)
        (mkPose 5 5 0 0)).curpos = mkPose 5 5 0 0) :=
  ⟨by decide, by decide,
    C1_same_cell_idempotence envAllOnes 2 2 0 0 5 5 0 0 1 1 1 1 1 rfl
      (by decide) (by decide) (by decide) (by decide) (by decide) rfl⟩

/-- C6 counterexample: over the all-ones mesh with an always-accepting sink
(no downstream rejection), the same-cell move (2,2) to (5,5) ends with the
emitted pose (5, 5, 1, 0), whose Z (1, the destination Z plus the applied
correction) differs from the requested destination Z (0) — the final emitted
XYZ does not equal the requested destination XYZ. -/
theorem C6_counterexample :
    (∀ n : ℕ, envAllOnes.accept n = true) ∧
    (line_to_destination_cartesian envAllOnes (mkPose 2 2 0 0)
        (mkPose 5 5 0 0)).emits.getLast? =
      some ⟨FP.num 5, FP.num 5, FP.num 1, FP.num 0⟩ ∧
    (FP.num 1 : FP) ≠ (mkPose 5 5 0 0).z :=
  ⟨fun _ => rfl, by decide, by decide⟩

/-- Witness for C6: the amended theorem applied to the leveled move (1,1) to
(5,1) over the rising-x mesh (hypotheses checked by evaluation). -/
theorem C6_destination_exactness_witness :
    envSlopeX.levelingActive = true ∧
    envSlopeX.levelingActiveAtZ (FP.num 0) = true ∧
    (line_to_destination_cartesian envSlopeX (mkPose 1 1 0 0)
      (mkPose 5 1 0 0)).curpos = mkPose 5 1 0 0 ∧
    (∃ icx icy, 0 ≤ icx ∧ icx ≤ envSlopeX.cfg.cellsX ∧ 0 ≤ icy ∧ icy ≤ envSlopeX.cfg.cellsY ∧
      (line_to_destination_segmented envSlopeX (mkPose 1 1 0 0)
          (mkPose 5 1 0 0)).emits.getLast? =
        some ⟨FP.num 5, FP.num 1,
          FP.num (0 + 1 * scratchCorrection envSlopeX icx icy
            (5 - get_mesh_x envSlopeX.cfg icx) (1 - get_mesh_y envSlopeX.cfg icy)),
          FP.num 0⟩) :=
  ⟨rfl, rfl,
   (C6_destination_exactness envSlopeX 1 1 0 0 5 1 0 0 1 (fun i j => rfl)
     (by decide) (by decide) rfl rfl).1.1,
   (C6_destination_exactness envSlopeX 1 1 0 0 5 1 0 0 1 (fun i j => rfl)
     (by decide) (by decide) rfl rfl).2.2 rfl rfl⟩

/-- Witness for C8: the diagonal move (5,5) to (25,25) over the rising-x
mesh emits only finite poses (hypotheses checked by evaluation). -/
theorem C8_degenerate_division_guard_witness :
    (∀ i j, (envSlopeX.z i j).isInf = false) ∧
    (∀ p ∈ (line_to_destination_cartesian envSlopeX (mkPose 5 5 0 0)
      (mkPose 25 25 0 0)).emits, Pose.allNum p) :=
  ⟨fun _ _ => rfl,
   (C8_degenerate_division_guard envSlopeX 5 5 0 0 25 25 0 0 (fun _ _ => rfl)
     (fun _ => ⟨1, rfl⟩)).2.2⟩

/-- C4 counterexample: the diagonal move (5,5) to (100, 22.1) leaves the
mesh, so the destination cell indexes are clamped to (2,2):
`|Δcolumn| + |Δrow| = 4`, but the walk emits only 3 sub-moves before the
final move — and its third sub-move (30, 9.5) lies on no mesh line of the
grid (x = 30 is beyond the last column) and on no horizontal mesh line
either, with an always-accepting sink and no crossing coinciding with the
destination. -/
theorem C4_counterexample :
    (∀ n : ℕ, envBase.accept n = true) ∧
    (line_to_destination_cartesian envBase (mkPose 5 5 0 0)
        (mkPose 100 (221 / 10) 0 0)).emits =
      [mkPose 10 (59 / 10) 0 0, mkPose 20 (77 / 10) 0 0, mkPose 30 (19 / 2) 0 0,
       mkPose 100 (221 / 10) 0 0] ∧
    ((cell_indexes envBase.cfg (mkPose 5 5 0 0)).1 -
      (cell_indexes envBase.cfg (mkPose 100 (221 / 10) 0 0)).1).natAbs +
    ((cell_indexes envBase.cfg (mkPose 5 5 0 0)).2 -
      (cell_indexes envBase.cfg (mkPose 100 (221 / 10) 0 0)).2).natAbs = 4 ∧
    (3 : ℕ) ≠ 4 ∧
    (∀ i : ℤ, 0 ≤ i → i ≤ envBase.cfg.cellsX → get_mesh_x envBase.cfg i ≠ 30) ∧
    (∀ j : ℤ, 0 ≤ j → j ≤ envBase.cfg.cellsY → get_mesh_y envBase.cfg j ≠ 19 / 2) :=
  ⟨fun _ => rfl, by decide, by decide, by decide,
   by
    intro i h1 h2 heq
    have h2' : i ≤ 2 := h2
    have heq' : (0 : ℚ) + (i : ℚ) * 10 = 30 := heq
    have hi3 : (i : ℚ) = 3 := by linarith
    have : i = 3 := by exact_mod_cast hi3
    omega,
   by
    intro j h1 h2 heq
    have h2' : j ≤ 2 := h2
    have heq' : (0 : ℚ) + (j : ℚ) * 10 = 19 / 2 := heq
    have hj : (j : ℚ) = 19 / 20 := by linarith
    have h1' : (0 : ℚ) ≤ (j : ℚ) := by exact_mod_cast h1
    have h2q : (j : ℚ) ≤ 2 := by exact_mod_cast h2'
    have : (j : ℚ) = 0 ∨ (j : ℚ) = 1 ∨ (j : ℚ) = 2 := by
      have hj0 : j = 0 ∨ j = 1 ∨ j = 2 := by omega
      rcases hj0 with h | h | h <;> subst h <;> norm_num
    rcases this with h | h | h <;> rw [h] at hj <;> norm_num at hj⟩

/-- Witness for C4: the amended theorem applied to the in-mesh diagonal move
(5,5) to (15,17) (hypotheses checked by evaluation). -/
theorem C4_crossing_completeness_witness :
    (0 : ℚ) < envBase.cfg.dx ∧
    (cell_indexes envBase.cfg (mkPose 5 5 0 0)).1 ≠
      (cell_indexes envBase.cfg (mkPose 15 17 0 0)).1 ∧
    (((line_to_destination_cartesian envBase (mkPose 5 5 0 0)
        (mkPose 15 17 0 0)).emits.length : ℤ) =
      ((cell_indexes envBase.cfg (mkPose 5 5 0 0)).1 -
        (cell_indexes envBase.cfg (mkPose 15 17 0 0)).1).natAbs +
      ((cell_indexes envBase.cfg (mkPose 5 5 0 0)).2 -
        (cell_indexes envBase.cfg (mkPose 15 17 0 0)).2).natAbs + 1 ∧
    ∀ p ∈ (line_to_destination_cartesian envBase (mkPose 5 5 0 0)
        (mkPose 15 17 0 0)).emits.dropLast,
      (∃ i, p.x = FP.num (get_mesh_x envBase.cfg i)) ∨
      (∃ j, p.y = FP.num (get_mesh_y envBase.cfg j))) :=
  ⟨by decide, by decide,
   C4_crossing_completeness envBase 5 5 0 0 15 17 0 0 (by decide) (by decide)
     (fun _ => rfl) (by decide) (by decide) (by decide) (by decide)
     (by decide) (by decide) (by decide) (by decide)⟩

/-- C7 counterexample: a vertical move (5,2) to (5,25) with a sink that
rejects the very first buffered sub-move: the splitter still emits two
further sub-moves (three in total) and sets `current_position` to the
original destination, whereas the claim says emission ceases after a
rejection on every path and the position state is left consistent with the
last accepted sub-move rather than the destination. -/
theorem C7_counterexample :
    envRejectFirst.accept 0 = false ∧
    (line_to_destination_cartesian envRejectFirst (mkPose 5 2 0 0)
      (mkPose 5 25 0 0)).emits.length = 3 ∧
    (line_to_destination_cartesian envRejectFirst (mkPose 5 2 0 0)
      (mkPose 5 25 0 0)).curpos = mkPose 5 25 0 0 :=
  ⟨rfl, by decide, by decide⟩

/-- Witness for C7: the amended theorem applied to the horizontal move (2,5)
to (25,5) whose first buffer call is rejected. -/
theorem C7_downstream_rejection_witness :
    envRejectFirst.accept 0 = false ∧
    (cell_indexes envRejectFirst.cfg (mkPose 2 5 0 0)).1 ≠
      (cell_indexes envRejectFirst.cfg (mkPose 25 5 0 0)).1 ∧
    (line_to_destination_cartesian envRejectFirst (mkPose 2 5 0 0)
      (mkPose 25 5 0 0)).emits.length ≤ 0 + 2 ∧
    (line_to_destination_cartesian envRejectFirst (mkPose 2 5 0 0)
      (mkPose 25 5 0 0)).curpos = mkPose 25 5 0 0 :=
  ⟨rfl, by decide,
   (C7_downstream_rejection envRejectFirst (fun _ => true)
     ⟨envRejectFirst, mkPose 0 0 0 0, mkPose 0 0 0 0, FP.num 0, FP.num 0, FP.num 0,
       FP.num 0, false, false, false, false, false, 0, 0, 0, 0⟩
     (mkPose 2 5 0 0) (mkPose 25 5 0 0) 0 (by decide) rfl).2.1,
   (C7_downstream_rejection envRejectFirst (fun _ => true)
     ⟨envRejectFirst, mkPose 0 0 0 0, mkPose 0 0 0 0, FP.num 0, FP.num 0, FP.num 0,
       FP.num 0, false, false, false, false, false, 0, 0, 0, 0⟩
     (mkPose 2 5 0 0) (mkPose 25 5 0 0) 0 (by decide) rfl).2.2⟩

end

